import Mathlib

/-!
# pr-reviewer-service: reviewer assignment engine

A shallow embedding of the Go use cases (internal/usecase) over an in-memory
model of the PostgreSQL repositories (internal/repository/postgres).

Conventions of the embedding:
* time.Now() is an explicit argument now of every operation that reads the clock;
* the process-wide math/rand generator is an explicit stream of raw draws;
* a Go error value is a term of GoError, a (value, error) result is an Except;
* the use cases are written against the repository interfaces, as in Go, and the
  theorems instantiate them with the in-memory model of the postgres package;
* a table is the list of its rows; a pull request row carries its pr_reviewers rows
  in the order GetByID reads them back (insertion order).
-/

namespace PRReviewer

/-! ## internal/domain/errors -/

deriving instance DecidableEq for Except

/-- Go error values: errors.New, *DomainError, and fmt.Errorf with a wrapped error. -/
inductive GoError where
  | new (text : String)
  | domain (Code : String) (Message : String) (Err : GoError)
  | wrapf (msg : String) (err : GoError)
deriving DecidableEq, Repr

def ErrTeamExists : GoError := GoError.new "TEAM_EXISTS"
def ErrPRExists : GoError := GoError.new "PR_EXISTS"
def ErrPRMerged : GoError := GoError.new "PR_MERGED"
def ErrNotAssigned : GoError := GoError.new "NOT_ASSIGNED"
def ErrNoCandidate : GoError := GoError.new "NO_CANDIDATE"
def ErrNotFound : GoError := GoError.new "NOT_FOUND"
def ErrUnauthorized : GoError := GoError.new "UNAUTHORIZED"
def ErrInvalidInput : GoError := GoError.new "INVALID_INPUT"

/-- NewDomainError(code, message, err). -/
def NewDomainError (code message : String) (err : GoError) : GoError :=
  GoError.domain code message err

/-- errors.Is(e, target): walks the Unwrap chain of e looking for target. -/
def GoError.Is : GoError → GoError → Bool
  | GoError.new t, target => decide (GoError.new t = target)
  | GoError.domain c m inner, target =>
    decide (GoError.domain c m inner = target) || GoError.Is inner target
  | GoError.wrapf p inner, target =>
    decide (GoError.wrapf p inner = target) || GoError.Is inner target

/-- The code carried by a domain failure, if the error is one. -/
def GoError.code? : GoError → Option String
  | GoError.domain c _ _ => some c
  | _ => none

/-! ## internal/domain/entity -/

/-- A time.Time value. -/
abbrev Time := Nat

/-- Modelled from the spec: entity.PRStatus and its constants PRStatusOpen and
PRStatusMerged are declared in internal/domain/entity/pull_request.go, which is not
among the sources; the spec gives status ∈ {OPEN, MERGED}. -/
inductive PRStatus where
  | OPEN
  | MERGED
deriving DecidableEq, Repr

/-- Modelled from the spec: entity.PullRequest (declaration not among the sources); the
fields are the ones the use cases and the repository read and write. -/
structure PullRequest where
  PullRequestID : String
  PullRequestName : String
  AuthorID : String
  Status : PRStatus
  AssignedReviewers : List String
  CreatedAt : Time
  MergedAt : Option Time
deriving DecidableEq, Repr

/-- Modelled from the spec: entity.PullRequestShort (declaration not among the sources);
the fields are the ones GetByReviewer scans. -/
structure PullRequestShort where
  PullRequestID : String
  PullRequestName : String
  AuthorID : String
  Status : PRStatus
deriving DecidableEq, Repr

structure User where
  UserID : String
  Username : String
  TeamName : String
  IsActive : Bool
  CreatedAt : Time
  UpdatedAt : Time
deriving DecidableEq, Repr

structure Team where
  TeamName : String
  CreatedAt : Time
  UpdatedAt : Time
deriving DecidableEq, Repr

/-! ## math/rand -/

/-- The random source: the raw values of its successive draws. -/
abbrev Rand := List Nat

/-- rand.Intn(n): the next draw reduced into [0, n), and the remaining source. -/
def Intn (rnd : Rand) (n : Nat) : Nat × Rand :=
  match rnd with
  | [] => (0, [])
  | x :: rest => (x % n, rest)

/-- The swap closure of selectReviewers: candidates[i], candidates[j] = candidates[j], candidates[i]. -/
def swap {α : Type} (xs : List α) (i j : Nat) : List α :=
  match xs[i]?, xs[j]? with
  | some a, some b => (xs.set i b).set j a
  | _, _ => xs

/-- The loop of rand.Shuffle: for i := n-1; i > 0; i-- { j := Intn(i+1); swap(i, j) }. -/
def shuffleLoop {α : Type} : Nat → Rand → List α → List α × Rand
  | 0, rnd, xs => (xs, rnd)
  | i + 1, rnd, xs => shuffleLoop i (Intn rnd (i + 2)).2 (swap xs (i + 1) (Intn rnd (i + 2)).1)

/-- rand.Shuffle(len(xs), swap) applied to the slice xs. -/
def Shuffle {α : Type} (rnd : Rand) (xs : List α) : List α × Rand :=
  shuffleLoop (xs.length - 1) rnd xs

/-! ## internal/repository: the interfaces the use cases depend on -/

/-- The repository.UserRepository interface over a store state σ. -/
structure UserRepository (σ : Type) where
  Update : User → σ → Except GoError Unit × σ
  GetByID : String → σ → Except GoError User
  GetByTeam : String → σ → Except GoError (List User)
  GetActiveByTeam : String → σ → Except GoError (List User)
  UpsertBatch : List User → σ → Except GoError Unit × σ

/-- The repository.TeamRepository interface. -/
structure TeamRepository (σ : Type) where
  Create : Team → σ → Except GoError Unit × σ
  GetByName : String → σ → Except GoError Team
  Exists : String → σ → Except GoError Bool

/-- The repository.PullRequestRepository interface. -/
structure PullRequestRepository (σ : Type) where
  Create : PullRequest → σ → Except GoError Unit × σ
  Update : PullRequest → σ → Except GoError Unit × σ
  GetByID : String → σ → Except GoError PullRequest
  GetByReviewer : String → σ → Except GoError (List PullRequestShort)
  Exists : String → σ → Except GoError Bool

/-- TransactionManager.RunInTransaction for an outermost call (no transaction in the
context): begin, run fn, commit when fn returns nil, roll back to the state at begin
when fn returns an error, which is returned as is. -/
def RunInTransaction {σ α : Type} (fn : σ → Except GoError α × σ) (s : σ) : Except GoError α × σ :=
  match fn s with
  | (Except.ok a, s') => (Except.ok a, s')
  | (Except.error err, _) => (Except.error err, s)

/-- The PullRequestUseCase struct (its txManager is RunInTransaction). -/
structure PullRequestUseCase (σ : Type) where
  prRepo : PullRequestRepository σ
  userRepo : UserRepository σ

/-- The TeamUseCase struct (its txManager is RunInTransaction). -/
structure TeamUseCase (σ : Type) where
  teamRepo : TeamRepository σ
  userRepo : UserRepository σ
  prRepo : PullRequestRepository σ

/-! ## internal/usecase/pull_request.go -/

/-- The index search of ReassignReviewer and reassignDeactivatedReviewer: the first i with
reviewers[i] == userID, none standing for oldUserIndex == -1. -/
def findReviewerIndex (reviewers : List String) (userID : String) : Option Nat :=
  match reviewers with
  | [] => none
  | reviewerID :: rest =>
    if reviewerID = userID then some 0 else (findReviewerIndex rest userID).map (· + 1)

/-- The candidate filter of ReassignReviewer and reassignDeactivatedReviewer: drops the
author and every already assigned reviewer. -/
def filterCandidates (candidates : List User) (pr : PullRequest) : List User :=
  candidates.filter (fun candidate =>
    decide (candidate.UserID ≠ pr.AuthorID) &&
      decide (candidate.UserID ∉ pr.AssignedReviewers))

/-- selectReviewers: up to 2 active members of the team, the author excluded. -/
def PullRequestUseCase.selectReviewers {σ : Type} (uc : PullRequestUseCase σ) (rnd : Rand)
    (teamName authorID : String) (s : σ) : Except GoError (List String) :=
  match uc.userRepo.GetActiveByTeam teamName s with
  | Except.error err => Except.error (GoError.wrapf "failed to get active team members" err)
  | Except.ok users =>
    let candidates := users.filter (fun user => decide (user.UserID ≠ authorID))
    if candidates.length = 0 then Except.ok []
    else
      let shuffled := (Shuffle rnd candidates).1
      let maxReviewers := if shuffled.length < 2 then shuffled.length else 2
      Except.ok ((shuffled.take maxReviewers).map (fun user => user.UserID))

/-- The function CreatePullRequest passes to RunInTransaction. -/
def PullRequestUseCase.createPullRequestTx {σ : Type} (uc : PullRequestUseCase σ)
    (now : Time) (rnd : Rand) (prID prName authorID : String) (s : σ) :
    Except GoError PullRequest × σ :=
  match uc.prRepo.Exists prID s with
  | Except.error err => (Except.error (GoError.wrapf "failed to check PR existence" err), s)
  | Except.ok true =>
    (Except.error (NewDomainError "PR_EXISTS" "PR id already exists" ErrPRExists), s)
  | Except.ok false =>
    match uc.userRepo.GetByID authorID s with
    | Except.error err =>
      if err.Is ErrNotFound then
        (Except.error (NewDomainError "NOT_FOUND" "author not found" ErrNotFound), s)
      else (Except.error (GoError.wrapf "failed to get author" err), s)
    | Except.ok author =>
      match uc.selectReviewers rnd author.TeamName authorID s with
      | Except.error err => (Except.error (GoError.wrapf "failed to select reviewers" err), s)
      | Except.ok reviewers =>
        let pr : PullRequest :=
          { PullRequestID := prID, PullRequestName := prName, AuthorID := authorID,
            Status := PRStatus.OPEN, AssignedReviewers := reviewers,
            CreatedAt := now, MergedAt := none }
        match uc.prRepo.Create pr s with
        | (Except.error err, s') => (Except.error (GoError.wrapf "failed to create PR" err), s')
        | (Except.ok _, s') => (Except.ok pr, s')

/-- CreatePullRequest: creates the pull request and assigns its reviewers. On failure Go
returns (nil, err): the error result carries no pull request. -/
def PullRequestUseCase.CreatePullRequest {σ : Type} (uc : PullRequestUseCase σ)
    (now : Time) (rnd : Rand) (prID prName authorID : String) (s : σ) :
    Except GoError PullRequest × σ :=
  RunInTransaction (uc.createPullRequestTx now rnd prID prName authorID) s

/-- The function MergePullRequest passes to RunInTransaction. -/
def PullRequestUseCase.mergePullRequestTx {σ : Type} (uc : PullRequestUseCase σ)
    (now : Time) (prID : String) (s : σ) : Except GoError PullRequest × σ :=
  match uc.prRepo.GetByID prID s with
  | Except.error err =>
    if err.Is ErrNotFound then
      (Except.error (NewDomainError "NOT_FOUND" "PR not found" ErrNotFound), s)
    else (Except.error (GoError.wrapf "failed to get PR" err), s)
  | Except.ok pr =>
    if pr.Status = PRStatus.MERGED then (Except.ok pr, s)
    else
      let merged : PullRequest := { pr with Status := PRStatus.MERGED, MergedAt := some now }
      match uc.prRepo.Update merged s with
      | (Except.error err, s') => (Except.error (GoError.wrapf "failed to update PR" err), s')
      | (Except.ok _, s') => (Except.ok merged, s')

/-- MergePullRequest: marks the pull request MERGED (idempotent). -/
def PullRequestUseCase.MergePullRequest {σ : Type} (uc : PullRequestUseCase σ)
    (now : Time) (prID : String) (s : σ) : Except GoError PullRequest × σ :=
  RunInTransaction (uc.mergePullRequestTx now prID) s

/-- The function ReassignReviewer passes to RunInTransaction; its value is the pair
(result, newReviewerID). The slice index availableCandidates[rand.Intn(len)] is always in
range; the none branch stands for the run-time panic of an index out of range. -/
def PullRequestUseCase.reassignReviewerTx {σ : Type} (uc : PullRequestUseCase σ)
    (rnd : Rand) (prID oldUserID : String) (s : σ) :
    Except GoError (PullRequest × String) × σ :=
  match uc.prRepo.GetByID prID s with
  | Except.error err =>
    if err.Is ErrNotFound then
      (Except.error (NewDomainError "NOT_FOUND" "PR not found" ErrNotFound), s)
    else (Except.error (GoError.wrapf "failed to get PR" err), s)
  | Except.ok pr =>
    if pr.Status = PRStatus.MERGED then
      (Except.error (NewDomainError "PR_MERGED" "cannot reassign on merged PR" ErrPRMerged), s)
    else
      match findReviewerIndex pr.AssignedReviewers oldUserID with
      | none =>
        (Except.error
          (NewDomainError "NOT_ASSIGNED" "reviewer is not assigned to this PR" ErrNotAssigned), s)
      | some oldUserIndex =>
        match uc.userRepo.GetByID oldUserID s with
        | Except.error err =>
          if err.Is ErrNotFound then
            (Except.error (NewDomainError "NOT_FOUND" "old reviewer not found" ErrNotFound), s)
          else (Except.error (GoError.wrapf "failed to get old reviewer" err), s)
        | Except.ok oldReviewer =>
          match uc.userRepo.GetActiveByTeam oldReviewer.TeamName s with
          | Except.error err => (Except.error (GoError.wrapf "failed to get team members" err), s)
          | Except.ok candidates =>
            let availableCandidates := filterCandidates candidates pr
            if availableCandidates.length = 0 then
              (Except.error
                (NewDomainError "NO_CANDIDATE" "no active replacement candidate in team"
                  ErrNoCandidate), s)
            else
              match availableCandidates[(Intn rnd availableCandidates.length).1]? with
              | none => (Except.error (GoError.new "index out of range"), s)
              | some newReviewer =>
                let updated : PullRequest :=
                  { pr with
                    AssignedReviewers := pr.AssignedReviewers.set oldUserIndex newReviewer.UserID }
                match uc.prRepo.Update updated s with
                | (Except.error err, s') =>
                  (Except.error (GoError.wrapf "failed to update PR" err), s')
                | (Except.ok _, s') => (Except.ok (updated, newReviewer.UserID), s')

/-- ReassignReviewer: replaces one assigned reviewer. The value is the pair of the
(result, err) return and the newReviewerID return: Go returns (nil, "", err) on failure
and (result, newReviewerID, nil) on success. -/
def PullRequestUseCase.ReassignReviewer {σ : Type} (uc : PullRequestUseCase σ)
    (rnd : Rand) (prID oldUserID : String) (s : σ) :
    (Except GoError PullRequest × String) × σ :=
  match RunInTransaction (uc.reassignReviewerTx rnd prID oldUserID) s with
  | (Except.error err, s') => ((Except.error err, ""), s')
  | (Except.ok (result, newReviewerID), s') => ((Except.ok result, newReviewerID), s')

/-! ## internal/usecase/team_deactivation.go -/

/-- DeactivateTeamMembersResult. -/
structure DeactivateTeamMembersResult where
  DeactivatedCount : Nat
  ReassignedPRs : Nat
  UserIDs : List String
deriving DecidableEq, Repr

/-- reassignDeactivatedReviewer: replaces the deactivated reviewer of pr by a random
available candidate, or removes it when there is none, and updates the pull request.
Returns the error (nil is ok), the store and the random source after the call. -/
def TeamUseCase.reassignDeactivatedReviewer {σ : Type} (uc : TeamUseCase σ) (rnd : Rand)
    (pr : PullRequest) (deactivatedUserID : String) (s : σ) : Except GoError Unit × σ × Rand :=
  match findReviewerIndex pr.AssignedReviewers deactivatedUserID with
  | none => (Except.ok (), s, rnd)
  | some oldUserIndex =>
    match uc.userRepo.GetByID deactivatedUserID s with
    | Except.error err => (Except.error (GoError.wrapf "failed to get old reviewer" err), s, rnd)
    | Except.ok oldReviewer =>
      match uc.userRepo.GetActiveByTeam oldReviewer.TeamName s with
      | Except.error err =>
        (Except.error (GoError.wrapf "failed to get team members" err), s, rnd)
      | Except.ok candidates =>
        let availableCandidates := filterCandidates candidates pr
        if availableCandidates.length = 0 then
          let updated : PullRequest :=
            { pr with
              AssignedReviewers :=
                pr.AssignedReviewers.take oldUserIndex ++
                  pr.AssignedReviewers.drop (oldUserIndex + 1) }
          match uc.prRepo.Update updated s with
          | (Except.error err, s') =>
            (Except.error (GoError.wrapf "failed to update PR" err), s', rnd)
          | (Except.ok _, s') => (Except.ok (), s', rnd)
        else
          match availableCandidates[(Intn rnd availableCandidates.length).1]? with
          | none =>
            (Except.error (GoError.new "index out of range"), s,
              (Intn rnd availableCandidates.length).2)
          | some newReviewer =>
            let updated : PullRequest :=
              { pr with
                AssignedReviewers := pr.AssignedReviewers.set oldUserIndex newReviewer.UserID }
            match uc.prRepo.Update updated s with
            | (Except.error err, s') =>
              (Except.error (GoError.wrapf "failed to update PR" err), s',
                (Intn rnd availableCandidates.length).2)
            | (Except.ok _, s') => (Except.ok (), s', (Intn rnd availableCandidates.length).2)

/-- Step 3 of DeactivateTeamMembers: the loop over users that deactivates the active ones
and collects deactivatedUserIDs. -/
def TeamUseCase.deactivateUsers {σ : Type} (uc : TeamUseCase σ) (now : Time) :
    List User → List String → σ → Except GoError (List String) × σ
  | [], deactivatedUserIDs, s => (Except.ok deactivatedUserIDs, s)
  | user :: rest, deactivatedUserIDs, s =>
    if user.IsActive then
      match uc.userRepo.Update { user with IsActive := false, UpdatedAt := now } s with
      | (Except.error err, s') =>
        (Except.error (GoError.wrapf ("failed to deactivate user " ++ user.UserID) err), s')
      | (Except.ok _, s') =>
        TeamUseCase.deactivateUsers uc now rest (deactivatedUserIDs ++ [user.UserID]) s'
    else TeamUseCase.deactivateUsers uc now rest deactivatedUserIDs s

/-- Step 4 of DeactivateTeamMembers, inner loop: for each open pull request of prs, load
it and reassign the deactivated reviewer; an error of the reassignment skips the pull
request (continue), otherwise reassignedCount is incremented. -/
def TeamUseCase.reassignOpenPRs {σ : Type} (uc : TeamUseCase σ) (userID : String) :
    List PullRequestShort → Nat → Rand → σ → Except GoError Nat × σ × Rand
  | [], reassignedCount, rnd, s => (Except.ok reassignedCount, s, rnd)
  | prShort :: rest, reassignedCount, rnd, s =>
    if prShort.Status = PRStatus.OPEN then
      match uc.prRepo.GetByID prShort.PullRequestID s with
      | Except.error err =>
        (Except.error (GoError.wrapf ("failed to get PR " ++ prShort.PullRequestID) err), s, rnd)
      | Except.ok pr =>
        match uc.reassignDeactivatedReviewer rnd pr userID s with
        | (Except.error _, s', rnd') =>
          TeamUseCase.reassignOpenPRs uc userID rest reassignedCount rnd' s'
        | (Except.ok _, s', rnd') =>
          TeamUseCase.reassignOpenPRs uc userID rest (reassignedCount + 1) rnd' s'
    else TeamUseCase.reassignOpenPRs uc userID rest reassignedCount rnd s

/-- Step 4 of DeactivateTeamMembers, outer loop over deactivatedUserIDs. -/
def TeamUseCase.reassignDeactivated {σ : Type} (uc : TeamUseCase σ) :
    List String → Nat → Rand → σ → Except GoError Nat × σ × Rand
  | [], reassignedCount, rnd, s => (Except.ok reassignedCount, s, rnd)
  | userID :: rest, reassignedCount, rnd, s =>
    match uc.prRepo.GetByReviewer userID s with
    | Except.error err =>
      (Except.error (GoError.wrapf ("failed to get PRs for user " ++ userID) err), s, rnd)
    | Except.ok prs =>
      match uc.reassignOpenPRs userID prs reassignedCount rnd s with
      | (Except.error err, s', rnd') => (Except.error err, s', rnd')
      | (Except.ok count, s', rnd') => TeamUseCase.reassignDeactivated uc rest count rnd' s'

/-- The function DeactivateTeamMembers passes to RunInTransaction. -/
def TeamUseCase.deactivateTeamMembersTx {σ : Type} (uc : TeamUseCase σ) (now : Time)
    (rnd : Rand) (teamName : String) (s : σ) : Except GoError DeactivateTeamMembersResult × σ :=
  match uc.teamRepo.GetByName teamName s with
  | Except.error err =>
    if err.Is ErrNotFound then
      (Except.error (NewDomainError "NOT_FOUND" "team not found" ErrNotFound), s)
    else (Except.error (GoError.wrapf "failed to get team" err), s)
  | Except.ok _ =>
    match uc.userRepo.GetByTeam teamName s with
    | Except.error err => (Except.error (GoError.wrapf "failed to get team members" err), s)
    | Except.ok users =>
      match uc.deactivateUsers now users [] s with
      | (Except.error err, s') => (Except.error err, s')
      | (Except.ok deactivatedUserIDs, s') =>
        match uc.reassignDeactivated deactivatedUserIDs 0 rnd s' with
        | (Except.error err, s'', _) => (Except.error err, s'')
        | (Except.ok reassignedCount, s'', _) =>
          (Except.ok
            { DeactivatedCount := deactivatedUserIDs.length, ReassignedPRs := reassignedCount,
              UserIDs := deactivatedUserIDs }, s'')

/-- DeactivateTeamMembers: deactivates the members of the team in bulk and reassigns
their open pull requests. -/
def TeamUseCase.DeactivateTeamMembers {σ : Type} (uc : TeamUseCase σ) (now : Time)
    (rnd : Rand) (teamName : String) (s : σ) : Except GoError DeactivateTeamMembersResult × σ :=
  RunInTransaction (uc.deactivateTeamMembersTx now rnd teamName) s

/-! ## internal/repository/postgres: the in-memory model of the SQL repositories -/

/-- A call of a writing repository method, with the record it was given. -/
inductive Write where
  | teamCreate (team : Team)
  | userUpsertBatch (users : List User)
  | userUpdate (user : User)
  | pullRequestCreate (pr : PullRequest)
  | pullRequestUpdate (pr : PullRequest)
deriving DecidableEq, Repr

/-- The database: the rows of teams, users and pull_requests (each pull request row
joined with its pr_reviewers rows), and the journal of the write calls made so far. -/
structure DB where
  teams : List Team
  users : List User
  pullRequests : List PullRequest
  journal : List Write
deriving DecidableEq, Repr

namespace Postgres

/-- ORDER BY username (code point order of the names). -/
def orderByUsername (rows : List User) : List User :=
  rows.insertionSort (fun a b => a.Username.data ≤ b.Username.data)

/-- UserRepository.Update: UPDATE users SET username, team_name, is_active, updated_at
WHERE user_id = $1; ErrNotFound when no row is affected. -/
def UserRepository.Update (user : User) (db : DB) : Except GoError Unit × DB :=
  if db.users.any (fun row => decide (row.UserID = user.UserID)) then
    (Except.ok (),
      { db with
        users := db.users.map (fun row =>
          if row.UserID = user.UserID then
            { row with
              Username := user.Username, TeamName := user.TeamName,
              IsActive := user.IsActive, UpdatedAt := user.UpdatedAt }
          else row),
        journal := db.journal ++ [Write.userUpdate user] })
  else (Except.error ErrNotFound, { db with journal := db.journal ++ [Write.userUpdate user] })

/-- UserRepository.GetByID: the row with the given user_id, ErrNotFound on no rows. -/
def UserRepository.GetByID (userID : String) (db : DB) : Except GoError User :=
  match db.users.find? (fun row => decide (row.UserID = userID)) with
  | some user => Except.ok user
  | none => Except.error ErrNotFound

/-- UserRepository.GetByTeam: WHERE team_name = $1 ORDER BY username. -/
def UserRepository.GetByTeam (teamName : String) (db : DB) : Except GoError (List User) :=
  Except.ok (orderByUsername (db.users.filter (fun row => decide (row.TeamName = teamName))))

/-- UserRepository.GetActiveByTeam: WHERE team_name = $1 AND is_active = true ORDER BY username. -/
def UserRepository.GetActiveByTeam (teamName : String) (db : DB) : Except GoError (List User) :=
  Except.ok (orderByUsername
    (db.users.filter (fun row => decide (row.TeamName = teamName) && row.IsActive)))

/-- One statement of UpsertBatch: INSERT ... ON CONFLICT (user_id) DO UPDATE SET username,
team_name, is_active, updated_at. -/
def upsertUser (user : User) (rows : List User) : List User :=
  if rows.any (fun row => decide (row.UserID = user.UserID)) then
    rows.map (fun row =>
      if row.UserID = user.UserID then
        { row with
          Username := user.Username, TeamName := user.TeamName,
          IsActive := user.IsActive, UpdatedAt := user.UpdatedAt }
      else row)
  else rows ++ [user]

/-- UserRepository.UpsertBatch: the upsert statement for each user in turn. -/
def UserRepository.UpsertBatch (users : List User) (db : DB) : Except GoError Unit × DB :=
  (Except.ok (),
    { db with
      users := users.foldl (fun rows user => upsertUser user rows) db.users,
      journal := db.journal ++ [Write.userUpsertBatch users] })

/-- TeamRepository.Create: INSERT INTO teams. -/
def TeamRepository.Create (team : Team) (db : DB) : Except GoError Unit × DB :=
  (Except.ok (),
    { db with teams := db.teams ++ [team], journal := db.journal ++ [Write.teamCreate team] })

/-- TeamRepository.GetByName: the row with the given team_name, ErrNotFound on no rows. -/
def TeamRepository.GetByName (teamName : String) (db : DB) : Except GoError Team :=
  match db.teams.find? (fun row => decide (row.TeamName = teamName)) with
  | some team => Except.ok team
  | none => Except.error ErrNotFound

/-- TeamRepository.Exists: SELECT EXISTS(SELECT 1 FROM teams WHERE team_name = $1). -/
def TeamRepository.Exists (teamName : String) (db : DB) : Except GoError Bool :=
  Except.ok (db.teams.any (fun row => decide (row.TeamName = teamName)))

/-- PullRequestRepository.Create: INSERT INTO pull_requests, then one pr_reviewers row
per assigned reviewer. -/
def PullRequestRepository.Create (pr : PullRequest) (db : DB) : Except GoError Unit × DB :=
  (Except.ok (),
    { db with
      pullRequests := db.pullRequests ++ [pr],
      journal := db.journal ++ [Write.pullRequestCreate pr] })

/-- The rows after the statements of Update: UPDATE pull_requests SET pull_request_name,
status, merged_at WHERE pull_request_id = $1, DELETE FROM pr_reviewers WHERE
pull_request_id = $1, and one INSERT INTO pr_reviewers per reviewer of the record. -/
def updatedRows (pr : PullRequest) (rows : List PullRequest) : List PullRequest :=
  rows.map (fun row =>
    if row.PullRequestID = pr.PullRequestID then
      { row with
        PullRequestName := pr.PullRequestName, Status := pr.Status,
        MergedAt := pr.MergedAt, AssignedReviewers := pr.AssignedReviewers }
    else row)

/-- PullRequestRepository.Update: updates the row and replaces its reviewers; ErrNotFound
when the UPDATE affects no row. -/
def PullRequestRepository.Update (pr : PullRequest) (db : DB) : Except GoError Unit × DB :=
  if db.pullRequests.any (fun row => decide (row.PullRequestID = pr.PullRequestID)) then
    (Except.ok (),
      { db with
        pullRequests := updatedRows pr db.pullRequests,
        journal := db.journal ++ [Write.pullRequestUpdate pr] })
  else
    (Except.error ErrNotFound, { db with journal := db.journal ++ [Write.pullRequestUpdate pr] })

/-- PullRequestRepository.GetByID: the row with the given pull_request_id and its
reviewers, ErrNotFound on no rows. -/
def PullRequestRepository.GetByID (prID : String) (db : DB) : Except GoError PullRequest :=
  match db.pullRequests.find? (fun row => decide (row.PullRequestID = prID)) with
  | some pr => Except.ok pr
  | none => Except.error ErrNotFound

/-- The columns GetByReviewer selects: the short record and created_at. -/
def shortColumns (pr : PullRequest) : PullRequestShort × Time :=
  ({ PullRequestID := pr.PullRequestID, PullRequestName := pr.PullRequestName,
     AuthorID := pr.AuthorID, Status := pr.Status }, pr.CreatedAt)

/-- PullRequestRepository.GetByReviewer: SELECT DISTINCT the pull requests joined with a
pr_reviewers row of the given reviewer_id, ORDER BY created_at DESC. -/
def PullRequestRepository.GetByReviewer (userID : String) (db : DB) :
    Except GoError (List PullRequestShort) :=
  Except.ok
    (((((db.pullRequests.filter (fun row => decide (userID ∈ row.AssignedReviewers))).map
      shortColumns).dedup).insertionSort (fun a b => b.2 ≤ a.2)).map Prod.fst)

/-- PullRequestRepository.Exists: SELECT EXISTS(SELECT 1 FROM pull_requests WHERE
pull_request_id = $1). -/
def PullRequestRepository.Exists (prID : String) (db : DB) : Except GoError Bool :=
  Except.ok (db.pullRequests.any (fun row => decide (row.PullRequestID = prID)))

/-- NewUserRepository. -/
def NewUserRepository : PRReviewer.UserRepository DB where
  Update := UserRepository.Update
  GetByID := UserRepository.GetByID
  GetByTeam := UserRepository.GetByTeam
  GetActiveByTeam := UserRepository.GetActiveByTeam
  UpsertBatch := UserRepository.UpsertBatch

/-- NewTeamRepository. -/
def NewTeamRepository : PRReviewer.TeamRepository DB where
  Create := TeamRepository.Create
  GetByName := TeamRepository.GetByName
  Exists := TeamRepository.Exists

/-- NewPullRequestRepository. -/
def NewPullRequestRepository : PRReviewer.PullRequestRepository DB where
  Create := PullRequestRepository.Create
  Update := PullRequestRepository.Update
  GetByID := PullRequestRepository.GetByID
  GetByReviewer := PullRequestRepository.GetByReviewer
  Exists := PullRequestRepository.Exists

end Postgres

/-! ## cmd/app/main.go: the use cases wired to the postgres repositories -/

/-- The prUseCase of main.go. -/
def prUseCase : PullRequestUseCase DB where
  prRepo := Postgres.NewPullRequestRepository
  userRepo := Postgres.NewUserRepository

/-- The teamUseCase of main.go. -/
def teamUseCase : TeamUseCase DB where
  teamRepo := Postgres.NewTeamRepository
  userRepo := Postgres.NewUserRepository
  prRepo := Postgres.NewPullRequestRepository

/-- One call of an engine operation, with the clock reading and random source it sees. -/
inductive Op where
  | CreatePullRequest (now : Time) (rnd : Rand) (prID prName authorID : String)
  | MergePullRequest (now : Time) (prID : String)
  | ReassignReviewer (rnd : Rand) (prID oldUserID : String)
  | DeactivateTeamMembers (now : Time) (rnd : Rand) (teamName : String)

/-- The error (if any) and the store after running an operation on the store db. -/
def Op.run (op : Op) (db : DB) : Option GoError × DB :=
  match op with
  | Op.CreatePullRequest now rnd prID prName authorID =>
    match prUseCase.CreatePullRequest now rnd prID prName authorID db with
    | (Except.ok _, db') => (none, db')
    | (Except.error err, db') => (some err, db')
  | Op.MergePullRequest now prID =>
    match prUseCase.MergePullRequest now prID db with
    | (Except.ok _, db') => (none, db')
    | (Except.error err, db') => (some err, db')
  | Op.ReassignReviewer rnd prID oldUserID =>
    match prUseCase.ReassignReviewer rnd prID oldUserID db with
    | ((Except.ok _, _), db') => (none, db')
    | ((Except.error err, _), db') => (some err, db')
  | Op.DeactivateTeamMembers now rnd teamName =>
    match teamUseCase.DeactivateTeamMembers now rnd teamName db with
    | (Except.ok _, db') => (none, db')
    | (Except.error err, db') => (some err, db')

/-! ## Sample store states -/

/-- A store with team eng (A, B, C active), team small (D active, E inactive), an open
pull request p1 by A reviewed by B and C, and a merged pull request p2 by A reviewed by B. -/
def sampleDB : DB where
  teams := [⟨"eng", 0, 0⟩, ⟨"small", 0, 0⟩]
  users :=
    [⟨"A", "alice", "eng", true, 0, 0⟩, ⟨"B", "bob", "eng", true, 0, 0⟩,
     ⟨"C", "carol", "eng", true, 0, 0⟩, ⟨"D", "dave", "small", true, 0, 0⟩,
     ⟨"E", "erin", "small", false, 0, 0⟩]
  pullRequests :=
    [⟨"p1", "feature", "A", PRStatus.OPEN, ["B", "C"], 1, none⟩,
     ⟨"p2", "fix", "A", PRStatus.MERGED, ["B"], 2, some 3⟩]
  journal := []

/-- The sample store with one more active member of team eng, F, who is assigned to no
pull request. -/
def spareDB : DB :=
  { sampleDB with users := sampleDB.users ++ [⟨"F", "frank", "eng", true, 0, 0⟩] }

/-! ## Predicates on store states -/

/-- The primary key of pull_requests: no two rows share a pull_request_id. -/
def UniquePullRequestIDs (db : DB) : Prop :=
  (db.pullRequests.map (fun row => row.PullRequestID)).Nodup

/-- No stored pull request lists its own author among its assigned reviewers. -/
def AuthorExcluded (db : DB) : Prop :=
  ∀ pr ∈ db.pullRequests, pr.AuthorID ∉ pr.AssignedReviewers

/-- Every stored pull request has no repeated reviewer id and at most 2 reviewers. -/
def ReviewersBounded (db : DB) : Prop :=
  ∀ pr ∈ db.pullRequests, pr.AssignedReviewers.Nodup ∧ pr.AssignedReviewers.length ≤ 2

instance (db : DB) : Decidable (UniquePullRequestIDs db) :=
  inferInstanceAs
    (Decidable ((db.pullRequests.map (fun (row : PullRequest) => row.PullRequestID)).Nodup))

instance (db : DB) : Decidable (AuthorExcluded db) :=
  inferInstanceAs (Decidable (∀ pr ∈ db.pullRequests, pr.AuthorID ∉ pr.AssignedReviewers))

instance (db : DB) : Decidable (ReviewersBounded db) :=
  inferInstanceAs (Decidable (∀ pr ∈ db.pullRequests,
    pr.AssignedReviewers.Nodup ∧ pr.AssignedReviewers.length ≤ 2))

/-- The user directory lists each user id at most once per team. -/
def UniqueUserIDsPerTeam (db : DB) : Prop :=
  ∀ teamName : String,
    ((db.users.filter (fun row => decide (row.TeamName = teamName))).map
      (fun row => row.UserID)).Nodup

/-- A property of pull request rows that the three edits of the engine keep: marking the
row merged, replacing the reviewer of one slot by an id that is neither the author nor an
assigned reviewer, and removing the reviewer of one slot. -/
structure RowInvariant (P : PullRequest → Prop) : Prop where
  merge : ∀ (pr : PullRequest) (now : Time),
    P pr → P { pr with Status := PRStatus.MERGED, MergedAt := some now }
  replace : ∀ (pr : PullRequest) (i : Nat) (c : String),
    P pr → i < pr.AssignedReviewers.length → c ≠ pr.AuthorID → c ∉ pr.AssignedReviewers →
      P { pr with AssignedReviewers := pr.AssignedReviewers.set i c }
  remove : ∀ (pr : PullRequest) (i : Nat),
    P pr → P { pr with
               AssignedReviewers :=
                 pr.AssignedReviewers.take i ++ pr.AssignedReviewers.drop (i + 1) }

/-- The primary key holds and every stored pull request satisfies P. -/
def StoreInvariant (P : PullRequest → Prop) (db : DB) : Prop :=
  UniquePullRequestIDs db ∧ ∀ row ∈ db.pullRequests, P row

/-- The active members of the team other than the author. -/
def eligibleUsers (db : DB) (teamName authorID : String) : List User :=
  db.users.filter (fun row =>
    decide (row.TeamName = teamName) && row.IsActive && decide (row.UserID ≠ authorID))

/-- The number of active members of the team other than the author. -/
def eligibleCount (db : DB) (teamName authorID : String) : Nat :=
  (eligibleUsers db teamName authorID).length

/-! ## Store failures -/

/-- A plan of store failures for the calls DeactivateTeamMembers makes after it has
deactivated the members: the pull request ids that fail to load (prRepo.GetByID), the
user ids that fail to be looked up (userRepo.GetByID), the team names whose active members
fail to be listed (userRepo.GetActiveByTeam), the pull request ids for which the UPDATE
statement of prRepo.Update fails, the reviewer ids whose pull requests fail to be listed
(prRepo.GetByReviewer), the pull request ids for which the DELETE statement of
prRepo.Update fails, the pull request and reviewer ids for which an INSERT statement
of prRepo.Update fails, and whether the commit of the transaction fails. A call fails
whenever the plan lists its argument, so a failure that makes the calls after it fail too
is a plan that lists those calls as well. -/
structure Faults where
  loadPullRequest : String → Bool
  lookupUser : String → Bool
  listActive : String → Bool
  updatePullRequest : String → Bool
  listReviews : String → Bool
  deleteReviewers : String → Bool
  insertReviewer : String → String → Bool
  commitTransaction : Bool

/-- The plan without any failure. -/
def noFaults : Faults :=
  ⟨fun _ => false, fun _ => false, fun _ => false, fun _ => false, fun _ => false,
    fun _ => false, fun _ _ => false, false⟩

/-- The plan has no failure of GetByReviewer and no failure of Update at the INSERT of a
reviewer: its Update fails, if at all, at the UPDATE or at the DELETE statement. -/
def Faults.early (f : Faults) : Prop :=
  (∀ userID, f.listReviews userID = false) ∧
    ∀ prID reviewerID, f.insertReviewer prID reviewerID = false

/-- The error of the database driver behind a failing call. -/
def driverError : GoError := GoError.new "connection refused"

/-- The user repository under a plan of failures: a failing call returns the error in
which the postgres method wraps the driver error. Whether a call fails depends on its
argument only: a call that follows a failed one fails when the plan lists it too. -/
def faultyUserRepository (f : Faults) : UserRepository DB where
  Update := Postgres.UserRepository.Update
  GetByID := fun userID db =>
    if f.lookupUser userID then Except.error (GoError.wrapf "failed to get user" driverError)
    else Postgres.UserRepository.GetByID userID db
  GetByTeam := Postgres.UserRepository.GetByTeam
  GetActiveByTeam := fun teamName db =>
    if f.listActive teamName then
      Except.error (GoError.wrapf "failed to get active users by team" driverError)
    else Postgres.UserRepository.GetActiveByTeam teamName db
  UpsertBatch := Postgres.UserRepository.UpsertBatch

/-- The rows after the first statement of Update alone: UPDATE pull_requests SET
pull_request_name, status, merged_at WHERE pull_request_id = $1. -/
def Postgres.updatedColumns (pr : PullRequest) (rows : List PullRequest) : List PullRequest :=
  rows.map (fun row =>
    if row.PullRequestID = pr.PullRequestID then
      { row with
        PullRequestName := pr.PullRequestName, Status := pr.Status, MergedAt := pr.MergedAt }
    else row)

/-- The pull request repository under a plan of failures. Update fails where its first
failing statement is: at the UPDATE, before any row is changed; at the DELETE, with the
columns of the row written and its reviewers still in place; or at the INSERT of a
reviewer, with the old reviewers deleted and the reviewers before the failing one
inserted. A failing call returns the error in which the postgres method wraps the driver
error. -/
def faultyPullRequestRepository (f : Faults) : PullRequestRepository DB where
  Create := Postgres.PullRequestRepository.Create
  Update := fun pr db =>
    if f.updatePullRequest pr.PullRequestID then
      (Except.error (GoError.wrapf "failed to update pull request" driverError), db)
    else if !db.pullRequests.any (fun row => decide (row.PullRequestID = pr.PullRequestID)) then
      Postgres.PullRequestRepository.Update pr db
    else if f.deleteReviewers pr.PullRequestID then
      (Except.error (GoError.wrapf "failed to delete old reviewers" driverError),
        { db with
          pullRequests := Postgres.updatedColumns pr db.pullRequests,
          journal := db.journal ++ [Write.pullRequestUpdate pr] })
    else
      match pr.AssignedReviewers.dropWhile (fun r => !f.insertReviewer pr.PullRequestID r) with
      | [] => Postgres.PullRequestRepository.Update pr db
      | reviewerID :: _ =>
        (Except.error (GoError.wrapf ("failed to assign reviewer " ++ reviewerID) driverError),
          { db with
            pullRequests :=
              Postgres.updatedRows
                { pr with
                  AssignedReviewers :=
                    pr.AssignedReviewers.takeWhile
                      (fun r => !f.insertReviewer pr.PullRequestID r) }
                db.pullRequests,
            journal := db.journal ++ [Write.pullRequestUpdate pr] })
  GetByID := fun prID db =>
    if f.loadPullRequest prID then
      Except.error (GoError.wrapf "failed to get pull request" driverError)
    else Postgres.PullRequestRepository.GetByID prID db
  GetByReviewer := fun userID db =>
    if f.listReviews userID then
      Except.error (GoError.wrapf "failed to get pull requests by reviewer" driverError)
    else Postgres.PullRequestRepository.GetByReviewer userID db
  Exists := Postgres.PullRequestRepository.Exists

/-- The teamUseCase of main.go over repositories that fail as the plan says. -/
def faultyTeamUseCase (f : Faults) : TeamUseCase DB where
  teamRepo := Postgres.NewTeamRepository
  userRepo := faultyUserRepository f
  prRepo := faultyPullRequestRepository f

/-- Handling the deactivated reviewer userID (of team teamName) on the pull request prID
meets a failure of the plan inside reassignDeactivatedReviewer before the INSERT of a
reviewer: at the lookup of the reviewer, at the listing of the active members, or at the
UPDATE or the DELETE statement of the update. -/
def Faults.skips (f : Faults) (teamName userID prID : String) : Bool :=
  f.lookupUser userID || f.listActive teamName || f.updatePullRequest prID ||
    f.deleteReviewers prID

/-! ## The effect of DeactivateTeamMembers, row by row -/

/-- The primary key of users: no two rows share a user_id. -/
def UniqueUserIDs (db : DB) : Prop :=
  (db.users.map (fun row => row.UserID)).Nodup

instance (db : DB) : Decidable (UniqueUserIDs db) :=
  inferInstanceAs (Decidable ((db.users.map (fun (row : User) => row.UserID)).Nodup))

/-- A users row after step 3 of DeactivateTeamMembers: an active member of the team gets
the active flag cleared and the update time set; any other row is as before. -/
def deactivatedRow (teamName : String) (now : Time) (row : User) : User :=
  if row.TeamName = teamName ∧ row.IsActive = true then
    { row with IsActive := false, UpdatedAt := now }
  else row

/-- The ids of the active members of the team, in the order GetByTeam lists them. -/
def activeMemberIDs (db : DB) (teamName : String) : List String :=
  ((Postgres.orderByUsername
    (db.users.filter (fun row => decide (row.TeamName = teamName)))).filter
      (fun row => row.IsActive)).map (fun row => row.UserID)

/-- A pull request row after the deactivated reviewer userID has been handled: an OPEN row
whose handling meets no failure loses the first occurrence of userID. -/
def removeDeactivated (f : Faults) (teamName userID : String) (row : PullRequest) :
    PullRequest :=
  if row.Status = PRStatus.OPEN ∧ f.skips teamName userID row.PullRequestID = false then
    { row with AssignedReviewers := row.AssignedReviewers.erase userID }
  else row

/-- The number of rows counted while the deactivated reviewer userID is handled: the OPEN
rows that list userID and whose handling meets no failure. -/
def reassignedFor (f : Faults) (teamName userID : String) (rows : List PullRequest) : Nat :=
  (rows.filter (fun row =>
    decide (row.Status = PRStatus.OPEN) && decide (userID ∈ row.AssignedReviewers) &&
      !f.skips teamName userID row.PullRequestID)).length

/-- The store after running a sequence of operations one after another. -/
def runAll (ops : List Op) (db : DB) : DB :=
  ops.foldl (fun s op => (op.run s).2) db

/-! ## The merge timestamp -/

/-- Every stored pull request has a merge timestamp exactly when its status is MERGED. -/
def MergedAtIffMerged (db : DB) : Prop :=
  ∀ pr ∈ db.pullRequests, pr.MergedAt.isSome = true ↔ pr.Status = PRStatus.MERGED

instance (db : DB) : Decidable (MergedAtIffMerged db) :=
  inferInstanceAs (Decidable (∀ pr ∈ db.pullRequests,
    pr.MergedAt.isSome = true ↔ pr.Status = PRStatus.MERGED))

/-- How the pull request read back under an id in the store db1 relates to the store db
before one operation: it keeps status and merge timestamp, or the operation is the merge
(at the time now) of that pull request, which was OPEN, or the pull request is new, OPEN
and without merge timestamp. -/
def TimestampStep (merges : Time → String → Prop) (db db1 : DB) : Prop :=
  ∀ prID after, Postgres.PullRequestRepository.GetByID prID db1 = Except.ok after →
    (∃ before, Postgres.PullRequestRepository.GetByID prID db = Except.ok before ∧
      after.Status = before.Status ∧ after.MergedAt = before.MergedAt) ∨
    (∃ before now, merges now prID ∧
      Postgres.PullRequestRepository.GetByID prID db = Except.ok before ∧
      before.Status = PRStatus.OPEN ∧ after.Status = PRStatus.MERGED ∧
      after.MergedAt = some now) ∨
    ((∀ row ∈ db.pullRequests, row.PullRequestID ≠ prID) ∧
      after.Status = PRStatus.OPEN ∧ after.MergedAt = none)

/-! ## internal/usecase/team.go and internal/usecase/user.go -/

/-- The entity.TeamMember struct. -/
structure TeamMember where
  UserID : String
  Username : String
  IsActive : Bool
deriving DecidableEq, Repr

/-- The entity.TeamWithMembers struct. -/
structure TeamWithMembers where
  TeamName : String
  Members : List TeamMember
deriving DecidableEq, Repr

/-- The users slice CreateTeam builds from the members, all stamped with the clock
reading now. -/
def memberUsers (teamName : String) (now : Time) (members : List TeamMember) : List User :=
  members.map (fun member =>
    { UserID := member.UserID, Username := member.Username, TeamName := teamName,
      IsActive := member.IsActive, CreatedAt := now, UpdatedAt := now })

/-- The function CreateTeam passes to RunInTransaction; createdAt, updatedAt and now are
its three readings of time.Now(). -/
def TeamUseCase.createTeamTx {σ : Type} (uc : TeamUseCase σ) (createdAt updatedAt now : Time)
    (teamWithMembers : TeamWithMembers) (s : σ) : Except GoError TeamWithMembers × σ :=
  match uc.teamRepo.Exists teamWithMembers.TeamName s with
  | Except.error err => (Except.error (GoError.wrapf "failed to check team existence" err), s)
  | Except.ok true =>
    (Except.error (NewDomainError "TEAM_EXISTS" "team_name already exists" ErrTeamExists), s)
  | Except.ok false =>
    let team : Team :=
      { TeamName := teamWithMembers.TeamName, CreatedAt := createdAt, UpdatedAt := updatedAt }
    match uc.teamRepo.Create team s with
    | (Except.error err, s') => (Except.error (GoError.wrapf "failed to create team" err), s')
    | (Except.ok _, s') =>
      let users := memberUsers teamWithMembers.TeamName now teamWithMembers.Members
      match uc.userRepo.UpsertBatch users s' with
      | (Except.error err, s'') =>
        (Except.error (GoError.wrapf "failed to upsert users" err), s'')
      | (Except.ok _, s'') => (Except.ok teamWithMembers, s'')

/-- CreateTeam: creates the team with its members. -/
def TeamUseCase.CreateTeam {σ : Type} (uc : TeamUseCase σ) (createdAt updatedAt now : Time)
    (teamWithMembers : TeamWithMembers) (s : σ) : Except GoError TeamWithMembers × σ :=
  RunInTransaction (uc.createTeamTx createdAt updatedAt now teamWithMembers) s

/-- GetTeamWithMembers: the team with the list of its members. -/
def TeamUseCase.GetTeamWithMembers {σ : Type} (uc : TeamUseCase σ) (teamName : String)
    (s : σ) : Except GoError TeamWithMembers :=
  match uc.teamRepo.GetByName teamName s with
  | Except.error err =>
    if err.Is ErrNotFound then
      Except.error (NewDomainError "NOT_FOUND" "team not found" ErrNotFound)
    else Except.error (GoError.wrapf "failed to get team" err)
  | Except.ok _ =>
    match uc.userRepo.GetByTeam teamName s with
    | Except.error err => Except.error (GoError.wrapf "failed to get team members" err)
    | Except.ok users =>
      Except.ok
        { TeamName := teamName,
          Members := users.map (fun user =>
            { UserID := user.UserID, Username := user.Username, IsActive := user.IsActive }) }

/-- The UserUseCase struct. -/
structure UserUseCase (σ : Type) where
  userRepo : UserRepository σ
  prRepo : PullRequestRepository σ

/-- SetIsActive: sets the activity flag of the user (outside any transaction). -/
def UserUseCase.SetIsActive {σ : Type} (uc : UserUseCase σ) (now : Time) (userID : String)
    (isActive : Bool) (s : σ) : Except GoError User × σ :=
  match uc.userRepo.GetByID userID s with
  | Except.error err =>
    if err.Is ErrNotFound then
      (Except.error (NewDomainError "NOT_FOUND" "user not found" ErrNotFound), s)
    else (Except.error (GoError.wrapf "failed to get user" err), s)
  | Except.ok user =>
    let updated : User := { user with IsActive := isActive, UpdatedAt := now }
    match uc.userRepo.Update updated s with
    | (Except.error err, s') => (Except.error (GoError.wrapf "failed to update user" err), s')
    | (Except.ok _, s') => (Except.ok updated, s')

/-- The userUseCase of main.go. -/
def userUseCase : UserUseCase DB where
  userRepo := Postgres.NewUserRepository
  prRepo := Postgres.NewPullRequestRepository

/-- The foreign key of users: the team of every user is a row of teams. -/
def UsersReferToTeams (db : DB) : Prop :=
  ∀ row ∈ db.users, ∃ team ∈ db.teams, team.TeamName = row.TeamName

instance (db : DB) : Decidable (UsersReferToTeams db) :=
  inferInstanceAs (Decidable (∀ row ∈ db.users, ∃ team ∈ db.teams, team.TeamName = row.TeamName))

/-! ## internal/transport/http: the failure classification and the admin middleware -/

/-- The status constants of net/http the handlers use. -/
def StatusBadRequest : Nat := 400

def StatusUnauthorized : Nat := 401

def StatusNotFound : Nat := 404

def StatusConflict : Nat := 409

def StatusInternalServerError : Nat := 500

/-- errors.As(err, &domainErr) with domainErr a *DomainError: the first domain failure on
the Unwrap chain of err, as its Code and Message. -/
def GoError.As : GoError → Option (String × String)
  | GoError.new _ => none
  | GoError.domain code message _ => some (code, message)
  | GoError.wrapf _ inner => GoError.As inner

/-- The dto.ErrorDetail struct. -/
structure ErrorDetail where
  Code : String
  Message : String
deriving DecidableEq, Repr

/-- The body a handler writes: a dto.ErrorResponse, or the encoding of another value. -/
inductive Body where
  | error (detail : ErrorDetail)
  | data (json : String)
deriving DecidableEq, Repr

/-- What a handler writes to its http.ResponseWriter: the status and the body. -/
structure Response where
  Status : Nat
  Body : Body
deriving DecidableEq, Repr

/-- respondError: writes the status and the ErrorResponse with the code and message. -/
def respondError (status : Nat) (code message : String) : Response :=
  { Status := status, Body := Body.error { Code := code, Message := message } }

/-- getStatusCodeByErrorCode: the switch over the code of a domain failure. -/
def getStatusCodeByErrorCode (code : String) : Nat :=
  if code = "TEAM_EXISTS" ∨ code = "PR_EXISTS" then StatusBadRequest
  else if code = "PR_MERGED" ∨ code = "NOT_ASSIGNED" ∨ code = "NO_CANDIDATE" then StatusConflict
  else if code = "NOT_FOUND" then StatusNotFound
  else if code = "UNAUTHORIZED" then StatusUnauthorized
  else if code = "INVALID_INPUT" then StatusBadRequest
  else StatusInternalServerError

/-- handleUseCaseError: the response for an error of the use case layer. -/
def handleUseCaseError (err : GoError) : Response :=
  match err.As with
  | some (code, message) => respondError (getStatusCodeByErrorCode code) code message
  | none => respondError StatusInternalServerError "INTERNAL_ERROR" "internal server error"

/-- The http.Header map: the values under each canonical key. -/
structure Header where
  entries : List (String × List String)
deriving DecidableEq, Repr

/-- Header.Get: the first value under the key, the empty string when there is none. -/
def Header.Get (h : Header) (key : String) : String :=
  match h.entries.lookup key with
  | some (value :: _) => value
  | _ => ""

/-- The http.Request fields the middleware and the handlers read. -/
structure Request where
  Header : Header
  Body : String
deriving DecidableEq, Repr

/-- An http.Handler, as the response it writes for a request. -/
abbrev Handler := Request → Response

/-- strings.HasPrefix(s, p), a string being the sequence of its characters. -/
def strings.HasPrefix (s p : String) : Bool :=
  p.data.isPrefixOf s.data

/-- strings.TrimPrefix(s, p). -/
def strings.TrimPrefix (s p : String) : String :=
  if strings.HasPrefix s p then ⟨s.data.drop p.data.length⟩ else s

/-- AdminAuth: the middleware that checks the admin token before calling next. -/
def AdminAuth (adminToken : String) (next : Handler) : Handler := fun r =>
  let authHeader := r.Header.Get "Authorization"
  if !strings.HasPrefix authHeader "Bearer " then
    respondError StatusUnauthorized "UNAUTHORIZED" "missing or invalid authorization header"
  else
    let token := strings.TrimPrefix authHeader "Bearer "
    if token ≠ adminToken then
      respondError StatusUnauthorized "UNAUTHORIZED" "invalid admin token"
    else next r

/-! ## internal/repository/postgres/transaction.go: the protocol of RunInTransaction -/

/-- The calls RunInTransaction makes on the pool and on the transaction. -/
inductive TxEvent where
  | begin
  | commit
  | rollback
deriving DecidableEq, Repr

/-- A pgx.Tx handle. -/
abbrev Tx := Nat

/-- The context.Context, as the value it carries under txKey. -/
structure Context where
  tx : Option Tx
deriving DecidableEq, Repr

/-- injectTx: the context with the transaction added. -/
def injectTx (ctx : Context) (tx : Tx) : Context :=
  { ctx with tx := some tx }

/-- extractTx: the transaction of the context, none for nil. -/
def extractTx (ctx : Context) : Option Tx :=
  ctx.tx

/-- The pool of the TransactionManager and the transactions it hands out, over a
connection state σ: pool.Begin, tx.Commit and tx.Rollback. -/
structure Pool (σ : Type) where
  Begin : σ → Except GoError Tx × σ
  Commit : Tx → σ → Option GoError × σ
  Rollback : Tx → σ → Option GoError × σ

/-- The text err.Error() of an error. -/
def GoError.Error : GoError → String
  | GoError.new text => text
  | GoError.domain _ message inner => message ++ ": " ++ GoError.Error inner
  | GoError.wrapf msg inner => msg ++ ": " ++ GoError.Error inner

/-- TransactionManager.RunInTransaction: joins the transaction of the context when there
is one; otherwise begins a transaction, runs fn with it in the context, rolls back when fn
returns an error and commits otherwise. A Go error result is an Option, none for nil. The
error built with the verbs %v and %w wraps err and carries the text of rbErr. -/
def TransactionManager.RunInTransaction {σ : Type} (pool : Pool σ) (ctx : Context)
    (fn : Context → σ → Option GoError × σ) (s : σ) : Option GoError × σ :=
  match extractTx ctx with
  | some _ => fn ctx s
  | none =>
    match pool.Begin s with
    | (Except.error err, s1) => (some (GoError.wrapf "failed to begin transaction" err), s1)
    | (Except.ok tx, s1) =>
      match fn (injectTx ctx tx) s1 with
      | (some err, s2) =>
        match pool.Rollback tx s2 with
        | (some rbErr, s3) =>
          (some (GoError.wrapf
            ("failed to rollback transaction: " ++ rbErr.Error ++ " (original error") err), s3)
        | (none, s3) => (some err, s3)
      | (none, s2) =>
        match pool.Commit tx s2 with
        | (some err, s3) => (some (GoError.wrapf "failed to commit transaction" err), s3)
        | (none, s3) => (none, s3)

/-- The outcomes of the pool calls: the error of each call, none when it succeeds. -/
structure TxFaults where
  Begin : Option GoError
  Commit : Option GoError
  Rollback : Option GoError

/-- The connection state of the recording pool: the calls made so far and the data the
function run in the transaction works on. -/
structure Conn (τ : Type) where
  log : List TxEvent
  data : τ

/-- A pool that records the transactions it begins and the commits and rollbacks issued
on them, with the outcomes the plan gives; it hands out the transaction 1. -/
def recordingPool {τ : Type} (f : TxFaults) : Pool (Conn τ) where
  Begin := fun s =>
    match f.Begin with
    | some err => (Except.error err, s)
    | none => (Except.ok 1, { s with log := s.log ++ [TxEvent.begin] })
  Commit := fun _ s => (f.Commit, { s with log := s.log ++ [TxEvent.commit] })
  Rollback := fun _ s => (f.Rollback, { s with log := s.log ++ [TxEvent.rollback] })

/-- A function run in the transaction that works on the data only. -/
def onData {τ : Type} (fn : Context → τ → Option GoError × τ) :
    Context → Conn τ → Option GoError × Conn τ :=
  fun ctx s => ((fn ctx s.data).1, { s with data := (fn ctx s.data).2 })

/-! ## Lemmas: math/rand -/

theorem cons_set_perm {α : Type} (a b : α) :
    ∀ (t : List α) (j : Nat), t[j]? = some b → (b :: t.set j a).Perm (a :: t) := by
  intro t
  induction t with
  | nil => intro j h; simp at h
  | cons c t ih =>
    intro j h
    cases j with
    | zero =>
      simp at h
      subst h
      simpa using List.Perm.swap a c t
    | succ j =>
      simp at h
      have h1 : (b :: t.set j a).Perm (a :: t) := ih j h
      have h2 : (b :: (c :: t).set (j + 1) a).Perm (c :: b :: t.set j a) := by
        simpa using List.Perm.swap c b (t.set j a)
      exact (h2.trans (List.Perm.cons c h1)).trans (List.Perm.swap a c t)

theorem swap_perm {α : Type} : ∀ (xs : List α) (i j : Nat), (swap xs i j).Perm xs := by
  intro xs
  induction xs with
  | nil => intro i j; simp [swap]
  | cons c t ih =>
    intro i j
    cases i with
    | zero =>
      cases j with
      | zero => simp [swap]
      | succ j =>
        cases h : t[j]? with
        | none => simp [swap, h]
        | some b =>
          simp only [swap, List.getElem?_cons_zero, List.getElem?_cons_succ, h, List.set_cons_zero,
            List.set_cons_succ]
          exact cons_set_perm c b t j h
    | succ i =>
      cases j with
      | zero =>
        cases h : t[i]? with
        | none => simp [swap, h]
        | some a =>
          simp only [swap, List.getElem?_cons_zero, List.getElem?_cons_succ, h, List.set_cons_zero,
            List.set_cons_succ]
          exact cons_set_perm c a t i h
      | succ j =>
        have h1 := ih i j
        cases hi : t[i]? with
        | none => simp [swap, hi]
        | some a =>
          cases hj : t[j]? with
          | none => simp [swap, hi, hj]
          | some b =>
            simp only [swap, hi, hj] at h1
            simp only [swap, List.getElem?_cons_succ, hi, hj, List.set_cons_succ]
            exact List.Perm.cons c h1

theorem shuffleLoop_perm {α : Type} :
    ∀ (n : Nat) (rnd : Rand) (xs : List α), (shuffleLoop n rnd xs).1.Perm xs := by
  intro n
  induction n with
  | zero => intro rnd xs; simp [shuffleLoop]
  | succ n ih =>
    intro rnd xs
    simp only [shuffleLoop]
    exact (ih _ _).trans (swap_perm xs _ _)

theorem Shuffle_perm {α : Type} (rnd : Rand) (xs : List α) : (Shuffle rnd xs).1.Perm xs :=
  shuffleLoop_perm _ rnd xs

theorem Intn_lt (rnd : Rand) (n : Nat) (h : 0 < n) : (Intn rnd n).1 < n := by
  cases rnd with
  | nil => simpa [Intn] using h
  | cons x rest => simpa [Intn] using Nat.mod_lt x h

/-! ## Lemmas: the reviewer index and the candidate filter -/

theorem findReviewerIndex_none {userID : String} :
    ∀ {reviewers : List String}, findReviewerIndex reviewers userID = none → userID ∉ reviewers := by
  intro reviewers
  induction reviewers with
  | nil => intro _; simp
  | cons r rest ih =>
    intro h
    simp only [findReviewerIndex] at h
    by_cases hr : r = userID
    · simp [hr] at h
    · simp only [hr, if_false, Option.map_eq_none'] at h
      have h2 := ih h
      simp only [List.mem_cons, not_or]
      exact ⟨fun e => hr e.symm, h2⟩

theorem findReviewerIndex_some {userID : String} :
    ∀ {reviewers : List String} {i : Nat}, findReviewerIndex reviewers userID = some i →
      reviewers[i]? = some userID := by
  intro reviewers
  induction reviewers with
  | nil => intro i h; simp [findReviewerIndex] at h
  | cons r rest ih =>
    intro i h
    simp only [findReviewerIndex] at h
    by_cases hr : r = userID
    · simp only [hr, if_true, Option.some.injEq] at h
      subst h
      simp [hr]
    · simp only [hr, if_false, Option.map_eq_some'] at h
      obtain ⟨k, hk, rfl⟩ := h
      simpa using ih hk

theorem findReviewerIndex_lt {userID : String} {reviewers : List String} {i : Nat}
    (h : findReviewerIndex reviewers userID = some i) : i < reviewers.length := by
  have h1 := findReviewerIndex_some h
  by_contra hlt
  have h2 : reviewers[i]? = none := List.getElem?_eq_none (Nat.le_of_not_lt hlt)
  rw [h2] at h1
  cases h1

theorem mem_filterCandidates {candidates : List User} {pr : PullRequest} {c : User}
    (h : c ∈ filterCandidates candidates pr) :
    c ∈ candidates ∧ c.UserID ≠ pr.AuthorID ∧ c.UserID ∉ pr.AssignedReviewers := by
  simpa [filterCandidates] using h

/-! ## Lemmas: the in-memory repositories -/

theorem getByID_mem {db : DB} {prID : String} {pr : PullRequest}
    (h : Postgres.PullRequestRepository.GetByID prID db = Except.ok pr) :
    pr ∈ db.pullRequests ∧ pr.PullRequestID = prID := by
  unfold Postgres.PullRequestRepository.GetByID at h
  split at h
  · next found hfind =>
    cases h
    exact ⟨List.mem_of_find?_eq_some hfind, by simpa using List.find?_some hfind⟩
  · cases h

theorem getByID_none {db : DB} {prID : String}
    (h : ∀ row ∈ db.pullRequests, row.PullRequestID ≠ prID) :
    Postgres.PullRequestRepository.GetByID prID db = Except.error ErrNotFound := by
  unfold Postgres.PullRequestRepository.GetByID
  have hfind : db.pullRequests.find? (fun row => decide (row.PullRequestID = prID)) = none := by
    simpa [List.find?_eq_none] using h
  rw [hfind]

theorem getByID_of_unique {db : DB} {pr : PullRequest} (hpk : UniquePullRequestIDs db)
    (hmem : pr ∈ db.pullRequests) :
    Postgres.PullRequestRepository.GetByID pr.PullRequestID db = Except.ok pr := by
  unfold Postgres.PullRequestRepository.GetByID
  cases hfind : db.pullRequests.find? (fun row => decide (row.PullRequestID = pr.PullRequestID)) with
  | none =>
    have := List.find?_eq_none.mp hfind pr hmem
    simp at this
  | some found =>
    have h1 : found ∈ db.pullRequests := List.mem_of_find?_eq_some hfind
    have h2 : found.PullRequestID = pr.PullRequestID := by simpa using List.find?_some hfind
    have h3 : found = pr := List.inj_on_of_nodup_map hpk h1 hmem h2
    rw [h3]

theorem exists_true_iff {db : DB} {prID : String} :
    Postgres.PullRequestRepository.Exists prID db = Except.ok true ↔
      ∃ row ∈ db.pullRequests, row.PullRequestID = prID := by
  simp [Postgres.PullRequestRepository.Exists]

theorem exists_false_iff {db : DB} {prID : String} :
    Postgres.PullRequestRepository.Exists prID db = Except.ok false ↔
      ∀ row ∈ db.pullRequests, row.PullRequestID ≠ prID := by
  simp [Postgres.PullRequestRepository.Exists]

theorem update_of_getByID {db : DB} {upd pr0 : PullRequest}
    (hget : Postgres.PullRequestRepository.GetByID upd.PullRequestID db = Except.ok pr0) :
    Postgres.PullRequestRepository.Update upd db =
      (Except.ok (),
        { db with
          pullRequests := Postgres.updatedRows upd db.pullRequests,
          journal := db.journal ++ [Write.pullRequestUpdate upd] }) := by
  have hmem := getByID_mem hget
  have hany : db.pullRequests.any (fun row => decide (row.PullRequestID = upd.PullRequestID)) = true := by
    simp only [List.any_eq_true, decide_eq_true_eq]
    exact ⟨pr0, hmem.1, hmem.2⟩
  simp only [Postgres.PullRequestRepository.Update, hany, if_true]

theorem update_pullRequests (upd : PullRequest) (db : DB) :
    (Postgres.PullRequestRepository.Update upd db).2.pullRequests = Postgres.updatedRows upd db.pullRequests ∨
      (Postgres.PullRequestRepository.Update upd db).2.pullRequests = db.pullRequests := by
  unfold Postgres.PullRequestRepository.Update
  split
  · left; rfl
  · right; rfl

theorem updatedRows_ids (upd : PullRequest) (rows : List PullRequest) :
    (Postgres.updatedRows upd rows).map (fun row => row.PullRequestID) =
      rows.map (fun row => row.PullRequestID) := by
  simp only [Postgres.updatedRows, List.map_map]
  apply List.map_congr_left
  intro row _
  simp only [Function.comp]
  split <;> rfl

theorem updatedRows_of_unique {rows : List PullRequest} {upd pr0 : PullRequest}
    (hpk : (rows.map (fun row => row.PullRequestID)).Nodup) (hmem : pr0 ∈ rows)
    (hid : pr0.PullRequestID = upd.PullRequestID) (hauthor : upd.AuthorID = pr0.AuthorID)
    (hcreated : upd.CreatedAt = pr0.CreatedAt) :
    Postgres.updatedRows upd rows =
      rows.map (fun row => if row.PullRequestID = upd.PullRequestID then upd else row) := by
  unfold Postgres.updatedRows
  apply List.map_congr_left
  intro row hrow
  by_cases h : row.PullRequestID = upd.PullRequestID
  · have h3 : row = pr0 := List.inj_on_of_nodup_map hpk hrow hmem (h.trans hid.symm)
    subst h3
    simp only [h, if_true]
    cases upd
    cases row
    simp_all
  · simp only [h, if_false]

theorem getActiveByTeam_eq (teamName : String) (db : DB) :
    ∃ users : List User,
      Postgres.UserRepository.GetActiveByTeam teamName db = Except.ok users ∧
        users.Perm (db.users.filter (fun row => decide (row.TeamName = teamName) && row.IsActive)) :=
  ⟨_, rfl, List.perm_insertionSort _ _⟩

theorem userGetByID_mem {db : DB} {userID : String} {user : User}
    (h : Postgres.UserRepository.GetByID userID db = Except.ok user) :
    user ∈ db.users ∧ user.UserID = userID := by
  unfold Postgres.UserRepository.GetByID at h
  split at h
  · next found hfind =>
    cases h
    exact ⟨List.mem_of_find?_eq_some hfind, by simpa using List.find?_some hfind⟩
  · cases h

theorem userGetByID_none {db : DB} {userID : String}
    (h : ∀ row ∈ db.users, row.UserID ≠ userID) :
    Postgres.UserRepository.GetByID userID db = Except.error ErrNotFound := by
  unfold Postgres.UserRepository.GetByID
  have hfind : db.users.find? (fun row => decide (row.UserID = userID)) = none := by
    simpa [List.find?_eq_none] using h
  rw [hfind]

/-! ## Lemmas: CreatePullRequest -/

theorem selectReviewers_spec (rnd : Rand) (teamName authorID : String) (db : DB) :
    ∃ chosen : List User,
      chosen.Perm (eligibleUsers db teamName authorID) ∧
        prUseCase.selectReviewers rnd teamName authorID db =
          Except.ok ((chosen.take 2).map (fun user => user.UserID)) := by
  obtain ⟨users, hget, hperm⟩ := getActiveByTeam_eq teamName db
  have hcand : (users.filter (fun user => decide (user.UserID ≠ authorID))).Perm
      (eligibleUsers db teamName authorID) := by
    have h1 := hperm.filter (fun user => decide (user.UserID ≠ authorID))
    simpa [eligibleUsers, List.filter_filter, Bool.and_comm, Bool.and_assoc,
      Bool.and_left_comm] using h1
  by_cases hlen : (users.filter (fun user => decide (user.UserID ≠ authorID))).length = 0
  · refine ⟨users.filter (fun user => decide (user.UserID ≠ authorID)), hcand, ?_⟩
    have hnil := List.length_eq_zero.mp hlen
    simp only [PullRequestUseCase.selectReviewers, prUseCase, Postgres.NewUserRepository, hget,
      hlen, if_true]
    rw [hnil]
    rfl
  · refine ⟨(Shuffle rnd (users.filter (fun user => decide (user.UserID ≠ authorID)))).1,
      (Shuffle_perm _ _).trans hcand, ?_⟩
    simp only [PullRequestUseCase.selectReviewers, prUseCase, Postgres.NewUserRepository, hget,
      hlen, if_false]
    congr 2
    split
    · next hlt =>
      rw [List.take_of_length_le (Nat.le_refl _), List.take_of_length_le (Nat.le_of_lt hlt)]
    · rfl

theorem createPullRequestTx_exists {db : DB} {prID : String} (now : Time) (rnd : Rand)
    (prName authorID : String) (h : ∃ row ∈ db.pullRequests, row.PullRequestID = prID) :
    prUseCase.createPullRequestTx now rnd prID prName authorID db =
      (Except.error (NewDomainError "PR_EXISTS" "PR id already exists" ErrPRExists), db) := by
  have hex := exists_true_iff.mpr h
  simp only [PullRequestUseCase.createPullRequestTx, prUseCase, Postgres.NewPullRequestRepository,
    hex]

theorem createPullRequestTx_noAuthor {db : DB} {prID authorID : String} (now : Time) (rnd : Rand)
    (prName : String) (hnew : ∀ row ∈ db.pullRequests, row.PullRequestID ≠ prID)
    (hauthor : ∀ row ∈ db.users, row.UserID ≠ authorID) :
    prUseCase.createPullRequestTx now rnd prID prName authorID db =
      (Except.error (NewDomainError "NOT_FOUND" "author not found" ErrNotFound), db) := by
  have hex := exists_false_iff.mpr hnew
  have hget := userGetByID_none hauthor
  have his : GoError.Is ErrNotFound ErrNotFound = true := by decide
  simp only [PullRequestUseCase.createPullRequestTx, prUseCase, Postgres.NewPullRequestRepository,
    Postgres.NewUserRepository, hex, hget, his, if_true]

theorem createPullRequestTx_author {db : DB} {prID authorID : String} {author : User} (now : Time)
    (rnd : Rand) (prName : String) (hnew : ∀ row ∈ db.pullRequests, row.PullRequestID ≠ prID)
    (hauthor : Postgres.UserRepository.GetByID authorID db = Except.ok author) :
    ∃ chosen : List User,
      chosen.Perm (eligibleUsers db author.TeamName authorID) ∧
        prUseCase.createPullRequestTx now rnd prID prName authorID db =
          (Except.ok
              { PullRequestID := prID, PullRequestName := prName, AuthorID := authorID,
                Status := PRStatus.OPEN,
                AssignedReviewers := (chosen.take 2).map (fun user => user.UserID),
                CreatedAt := now, MergedAt := none },
            { db with
              pullRequests := db.pullRequests ++
                [{ PullRequestID := prID, PullRequestName := prName, AuthorID := authorID,
                   Status := PRStatus.OPEN,
                   AssignedReviewers := (chosen.take 2).map (fun user => user.UserID),
                   CreatedAt := now, MergedAt := none }],
              journal := db.journal ++
                [Write.pullRequestCreate
                  { PullRequestID := prID, PullRequestName := prName, AuthorID := authorID,
                    Status := PRStatus.OPEN,
                    AssignedReviewers := (chosen.take 2).map (fun user => user.UserID),
                    CreatedAt := now, MergedAt := none }] }) := by
  obtain ⟨chosen, hperm, hsel⟩ := selectReviewers_spec rnd author.TeamName authorID db
  refine ⟨chosen, hperm, ?_⟩
  have hex := exists_false_iff.mpr hnew
  have hget : prUseCase.userRepo.GetByID authorID db = Except.ok author := hauthor
  have hexi : prUseCase.prRepo.Exists prID db = Except.ok false := hex
  simp only [PullRequestUseCase.createPullRequestTx, hexi, hget, hsel]
  rfl

/-- Every run of createPullRequestTx on the in-memory store falls in one of three cases. -/
theorem createPullRequestTx_cases (now : Time) (rnd : Rand) (prID prName authorID : String)
    (db : DB) :
    ((∃ row ∈ db.pullRequests, row.PullRequestID = prID) ∧
      prUseCase.createPullRequestTx now rnd prID prName authorID db =
        (Except.error (NewDomainError "PR_EXISTS" "PR id already exists" ErrPRExists), db)) ∨
    ((∀ row ∈ db.pullRequests, row.PullRequestID ≠ prID) ∧
      (∀ row ∈ db.users, row.UserID ≠ authorID) ∧
      prUseCase.createPullRequestTx now rnd prID prName authorID db =
        (Except.error (NewDomainError "NOT_FOUND" "author not found" ErrNotFound), db)) ∨
    ((∀ row ∈ db.pullRequests, row.PullRequestID ≠ prID) ∧
      ∃ author chosen,
        Postgres.UserRepository.GetByID authorID db = Except.ok author ∧
        List.Perm chosen (eligibleUsers db author.TeamName authorID) ∧
        prUseCase.createPullRequestTx now rnd prID prName authorID db =
          (Except.ok
              { PullRequestID := prID, PullRequestName := prName, AuthorID := authorID,
                Status := PRStatus.OPEN,
                AssignedReviewers := (chosen.take 2).map (fun user => user.UserID),
                CreatedAt := now, MergedAt := none },
            { db with
              pullRequests := db.pullRequests ++
                [{ PullRequestID := prID, PullRequestName := prName, AuthorID := authorID,
                   Status := PRStatus.OPEN,
                   AssignedReviewers := (chosen.take 2).map (fun user => user.UserID),
                   CreatedAt := now, MergedAt := none }],
              journal := db.journal ++
                [Write.pullRequestCreate
                  { PullRequestID := prID, PullRequestName := prName, AuthorID := authorID,
                    Status := PRStatus.OPEN,
                    AssignedReviewers := (chosen.take 2).map (fun user => user.UserID),
                    CreatedAt := now, MergedAt := none }] })) := by
  by_cases hex : ∃ row ∈ db.pullRequests, row.PullRequestID = prID
  · exact Or.inl ⟨hex, createPullRequestTx_exists now rnd prName authorID hex⟩
  · have hnew : ∀ row ∈ db.pullRequests, row.PullRequestID ≠ prID := by
      intro row hrow heq
      exact hex ⟨row, hrow, heq⟩
    right
    cases hget : Postgres.UserRepository.GetByID authorID db with
    | error err =>
      left
      have hnone : ∀ row ∈ db.users, row.UserID ≠ authorID := by
        intro row hrow heq
        unfold Postgres.UserRepository.GetByID at hget
        cases hfind : db.users.find? (fun row => decide (row.UserID = authorID)) with
        | none =>
          have := List.find?_eq_none.mp hfind row hrow
          simp [heq] at this
        | some found => rw [hfind] at hget; cases hget
      exact ⟨hnew, hnone, createPullRequestTx_noAuthor now rnd prName hnew hnone⟩
    | ok author =>
      right
      obtain ⟨chosen, hperm, heq⟩ := createPullRequestTx_author now rnd prName hnew hget
      exact ⟨hnew, author, chosen, rfl, hperm, heq⟩

theorem runInTransaction_ok {σ α : Type} {fn : σ → Except GoError α × σ} {s s' : σ} {a : α}
    (h : fn s = (Except.ok a, s')) : RunInTransaction fn s = (Except.ok a, s') := by
  simp [RunInTransaction, h]

theorem runInTransaction_error {σ α : Type} {fn : σ → Except GoError α × σ} {s s' : σ}
    {err : GoError} (h : fn s = (Except.error err, s')) :
    RunInTransaction fn s = (Except.error err, s) := by
  simp [RunInTransaction, h]

theorem runInTransaction_state {σ α : Type} (fn : σ → Except GoError α × σ) (s : σ) :
    (RunInTransaction fn s).2 = (fn s).2 ∨ (RunInTransaction fn s).2 = s := by
  unfold RunInTransaction
  split
  · next a s' h => left; rw [h]
  · right; rfl

theorem createPullRequest_ok_inv {now : Time} {rnd : Rand} {prID prName authorID : String}
    {db db' : DB} {pr : PullRequest}
    (h : prUseCase.CreatePullRequest now rnd prID prName authorID db = (Except.ok pr, db')) :
    (∀ row ∈ db.pullRequests, row.PullRequestID ≠ prID) ∧
      ∃ author chosen,
        Postgres.UserRepository.GetByID authorID db = Except.ok author ∧
        List.Perm chosen (eligibleUsers db author.TeamName authorID) ∧
        pr = { PullRequestID := prID, PullRequestName := prName, AuthorID := authorID,
               Status := PRStatus.OPEN,
               AssignedReviewers := (chosen.take 2).map (fun user => user.UserID),
               CreatedAt := now, MergedAt := none } ∧
        db' = { db with
                pullRequests := db.pullRequests ++ [pr],
                journal := db.journal ++ [Write.pullRequestCreate pr] } := by
  unfold PullRequestUseCase.CreatePullRequest at h
  rcases createPullRequestTx_cases now rnd prID prName authorID db with
    ⟨_, hc⟩ | ⟨_, _, hc⟩ | ⟨hnew, author, chosen, hget, hperm, hc⟩
  · rw [runInTransaction_error hc] at h
    cases h
  · rw [runInTransaction_error hc] at h
    cases h
  · rw [runInTransaction_ok hc] at h
    simp only [Prod.mk.injEq, Except.ok.injEq] at h
    obtain ⟨hpr, hdb⟩ := h
    refine ⟨hnew, author, chosen, hget, hperm, hpr.symm, ?_⟩
    rw [← hdb, ← hpr]

/-! ## Claims on CreatePullRequest -/

/-- C3: every reviewer id of the pull request returned by a successful CreatePullRequest
differs from authorID and is the id of a user that GetActiveByTeam reports for the author's
team, that is of a users row of that team with the active flag set; when user ids are
unique in the directory, the user with that id is therefore active and of the author's team. -/
theorem createPullRequest_reviewers_eligible (now : Time) (rnd : Rand)
    (prID prName authorID : String) (db db' : DB) (pr : PullRequest)
    (h : prUseCase.CreatePullRequest now rnd prID prName authorID db = (Except.ok pr, db')) :
    ∃ author users,
      Postgres.UserRepository.GetByID authorID db = Except.ok author ∧
      Postgres.UserRepository.GetActiveByTeam author.TeamName db = Except.ok users ∧
      ∀ reviewerID ∈ pr.AssignedReviewers,
        reviewerID ≠ authorID ∧
        (∃ user ∈ users, user.UserID = reviewerID) ∧
        (∃ user ∈ db.users,
          user.UserID = reviewerID ∧ user.TeamName = author.TeamName ∧ user.IsActive = true) ∧
        ((db.users.map (fun row => row.UserID)).Nodup →
          ∀ user ∈ db.users, user.UserID = reviewerID →
            user.TeamName = author.TeamName ∧ user.IsActive = true) := by
  obtain ⟨_, author, chosen, hget, hperm, hpr, _⟩ := createPullRequest_ok_inv h
  obtain ⟨users, husers, huperm⟩ := getActiveByTeam_eq author.TeamName db
  refine ⟨author, users, hget, husers, ?_⟩
  intro reviewerID hmem
  rw [hpr] at hmem
  simp only [List.mem_map] at hmem
  obtain ⟨user, huser, hid⟩ := hmem
  have helig : user ∈ eligibleUsers db author.TeamName authorID :=
    hperm.subset (List.mem_of_mem_take huser)
  simp only [eligibleUsers, List.mem_filter, Bool.and_eq_true, decide_eq_true_eq] at helig
  obtain ⟨hrow, ⟨hteam, hactive⟩, hne⟩ := helig
  refine ⟨hid ▸ hne, ⟨user, ?_, hid⟩, ⟨user, hrow, hid, hteam, hactive⟩, ?_⟩
  · apply huperm.symm.subset
    simp only [List.mem_filter, Bool.and_eq_true, decide_eq_true_eq]
    exact ⟨hrow, hteam, hactive⟩
  · intro hnodup other hother hoid
    have : other = user := List.inj_on_of_nodup_map hnodup hother hrow (hoid.trans hid.symm)
    rw [this]
    exact ⟨hteam, hactive⟩

theorem createPullRequest_reviewers_eligible_witness :
    prUseCase.CreatePullRequest 5 [1, 0] "p3" "docs" "A" sampleDB =
        (Except.ok ⟨"p3", "docs", "A", PRStatus.OPEN, ["B", "C"], 5, none⟩,
          (prUseCase.CreatePullRequest 5 [1, 0] "p3" "docs" "A" sampleDB).2) ∧
    ∃ author users,
      Postgres.UserRepository.GetByID "A" sampleDB = Except.ok author ∧
      Postgres.UserRepository.GetActiveByTeam author.TeamName sampleDB = Except.ok users ∧
      ∀ reviewerID ∈ ["B", "C"],
        reviewerID ≠ "A" ∧
        (∃ user ∈ users, user.UserID = reviewerID) ∧
        (∃ user ∈ sampleDB.users,
          user.UserID = reviewerID ∧ user.TeamName = author.TeamName ∧ user.IsActive = true) ∧
        ((sampleDB.users.map (fun row => row.UserID)).Nodup →
          ∀ user ∈ sampleDB.users, user.UserID = reviewerID →
            user.TeamName = author.TeamName ∧ user.IsActive = true) :=
  ⟨by decide,
    createPullRequest_reviewers_eligible 5 [1, 0] "p3" "docs" "A" sampleDB
      (prUseCase.CreatePullRequest 5 [1, 0] "p3" "docs" "A" sampleDB).2
      ⟨"p3", "docs", "A", PRStatus.OPEN, ["B", "C"], 5, none⟩ (by decide)⟩

/-- C4: a successful CreatePullRequest assigns min(2, n) reviewers, n being the number of
active members of the author's team other than the author; and when no pull request has
the id, the author resolves and n = 0, the call succeeds with an empty reviewer list. -/
theorem createPullRequest_reviewer_count (now : Time) (rnd : Rand)
    (prID prName authorID : String) (db : DB) :
    (∀ pr db', prUseCase.CreatePullRequest now rnd prID prName authorID db = (Except.ok pr, db') →
      ∃ author, Postgres.UserRepository.GetByID authorID db = Except.ok author ∧
        pr.AssignedReviewers.length = min 2 (eligibleCount db author.TeamName authorID)) ∧
    (∀ author, (∀ row ∈ db.pullRequests, row.PullRequestID ≠ prID) →
      Postgres.UserRepository.GetByID authorID db = Except.ok author →
      eligibleCount db author.TeamName authorID = 0 →
      ∃ db', prUseCase.CreatePullRequest now rnd prID prName authorID db =
        (Except.ok ⟨prID, prName, authorID, PRStatus.OPEN, [], now, none⟩, db')) := by
  constructor
  · intro pr db' h
    obtain ⟨_, author, chosen, hget, hperm, hpr, _⟩ := createPullRequest_ok_inv h
    refine ⟨author, hget, ?_⟩
    rw [hpr]
    simp only [List.length_map, List.length_take, eligibleCount, hperm.length_eq]
  · intro author hnew hget hzero
    obtain ⟨chosen, hperm, heq⟩ := createPullRequestTx_author now rnd prName hnew hget
    have hnil : chosen = [] := by
      apply List.length_eq_zero.mp
      rw [hperm.length_eq]
      exact hzero
    subst hnil
    exact ⟨_, runInTransaction_ok heq⟩

theorem createPullRequest_reviewer_count_witness :
    (∃ author, Postgres.UserRepository.GetByID "A" sampleDB = Except.ok author ∧
      (["B", "C"] : List String).length = min 2 (eligibleCount sampleDB author.TeamName "A")) ∧
    (∃ db', prUseCase.CreatePullRequest 5 [] "p3" "docs" "D" sampleDB =
      (Except.ok ⟨"p3", "docs", "D", PRStatus.OPEN, [], 5, none⟩, db')) :=
  ⟨(createPullRequest_reviewer_count 5 [1, 0] "p3" "docs" "A" sampleDB).1
      ⟨"p3", "docs", "A", PRStatus.OPEN, ["B", "C"], 5, none⟩
      (prUseCase.CreatePullRequest 5 [1, 0] "p3" "docs" "A" sampleDB).2 (by decide),
    (createPullRequest_reviewer_count 5 [] "p3" "docs" "D" sampleDB).2
      ⟨"D", "dave", "small", true, 0, 0⟩ (by decide) (by decide) (by decide)⟩

/-- C5: when the store already holds a pull request with the given id, CreatePullRequest
fails with the domain error PR_EXISTS for every name and author, carrying no pull request;
the function run in the transaction makes no write call (store and journal are as before),
and the store after the call is the store before it. -/
theorem createPullRequest_duplicate (now : Time) (rnd : Rand) (prID prName authorID : String)
    (db : DB) (h : ∃ row ∈ db.pullRequests, row.PullRequestID = prID) :
    prUseCase.createPullRequestTx now rnd prID prName authorID db =
        (Except.error (NewDomainError "PR_EXISTS" "PR id already exists" ErrPRExists), db) ∧
      prUseCase.CreatePullRequest now rnd prID prName authorID db =
        (Except.error (NewDomainError "PR_EXISTS" "PR id already exists" ErrPRExists), db) ∧
      (NewDomainError "PR_EXISTS" "PR id already exists" ErrPRExists).code? = some "PR_EXISTS" :=
  ⟨createPullRequestTx_exists now rnd prName authorID h,
    runInTransaction_error (createPullRequestTx_exists now rnd prName authorID h), rfl⟩

theorem createPullRequest_duplicate_witness :
    (∃ row ∈ sampleDB.pullRequests, row.PullRequestID = "p1") ∧
      prUseCase.createPullRequestTx 5 [] "p1" "other" "nobody" sampleDB =
        (Except.error (NewDomainError "PR_EXISTS" "PR id already exists" ErrPRExists), sampleDB) ∧
      prUseCase.CreatePullRequest 5 [] "p1" "other" "nobody" sampleDB =
        (Except.error (NewDomainError "PR_EXISTS" "PR id already exists" ErrPRExists), sampleDB) ∧
      (NewDomainError "PR_EXISTS" "PR id already exists" ErrPRExists).code? = some "PR_EXISTS" :=
  ⟨by decide, createPullRequest_duplicate 5 [] "p1" "other" "nobody" sampleDB (by decide)⟩

/-- C6: when no pull request has the given id and no user has the id authorID,
CreatePullRequest fails with the domain error NOT_FOUND; no write call is made and the
store is unchanged, so no pull request is persisted. -/
theorem createPullRequest_unknown_author (now : Time) (rnd : Rand)
    (prID prName authorID : String) (db : DB)
    (hnew : ∀ row ∈ db.pullRequests, row.PullRequestID ≠ prID)
    (hauthor : ∀ row ∈ db.users, row.UserID ≠ authorID) :
    prUseCase.createPullRequestTx now rnd prID prName authorID db =
        (Except.error (NewDomainError "NOT_FOUND" "author not found" ErrNotFound), db) ∧
      prUseCase.CreatePullRequest now rnd prID prName authorID db =
        (Except.error (NewDomainError "NOT_FOUND" "author not found" ErrNotFound), db) ∧
      (NewDomainError "NOT_FOUND" "author not found" ErrNotFound).code? = some "NOT_FOUND" :=
  ⟨createPullRequestTx_noAuthor now rnd prName hnew hauthor,
    runInTransaction_error (createPullRequestTx_noAuthor now rnd prName hnew hauthor), rfl⟩

theorem createPullRequest_unknown_author_witness :
    (∀ row ∈ sampleDB.pullRequests, row.PullRequestID ≠ "p3") ∧
      (∀ row ∈ sampleDB.users, row.UserID ≠ "nobody") ∧
      prUseCase.createPullRequestTx 5 [] "p3" "docs" "nobody" sampleDB =
        (Except.error (NewDomainError "NOT_FOUND" "author not found" ErrNotFound), sampleDB) ∧
      prUseCase.CreatePullRequest 5 [] "p3" "docs" "nobody" sampleDB =
        (Except.error (NewDomainError "NOT_FOUND" "author not found" ErrNotFound), sampleDB) ∧
      (NewDomainError "NOT_FOUND" "author not found" ErrNotFound).code? = some "NOT_FOUND" :=
  ⟨by decide, by decide,
    createPullRequest_unknown_author 5 [] "p3" "docs" "nobody" sampleDB (by decide) (by decide)⟩

/-- C7: the pull request returned by a successful CreatePullRequest has the given id, name
and author, status OPEN, creation time now and no merge time; the store after the call is
the store before it with exactly that record appended to pull_requests, the one write call
being Create with that record; GetByID reads the record back, and every other id reads as
before. -/
theorem createPullRequest_persists (now : Time) (rnd : Rand) (prID prName authorID : String)
    (db db' : DB) (pr : PullRequest)
    (h : prUseCase.CreatePullRequest now rnd prID prName authorID db = (Except.ok pr, db')) :
    pr.PullRequestID = prID ∧ pr.PullRequestName = prName ∧ pr.AuthorID = authorID ∧
      pr.Status = PRStatus.OPEN ∧ pr.CreatedAt = now ∧ pr.MergedAt = none ∧
      db' = { db with
              pullRequests := db.pullRequests ++ [pr],
              journal := db.journal ++ [Write.pullRequestCreate pr] } ∧
      Postgres.PullRequestRepository.GetByID prID db' = Except.ok pr ∧
      ∀ otherID, otherID ≠ prID →
        Postgres.PullRequestRepository.GetByID otherID db' =
          Postgres.PullRequestRepository.GetByID otherID db := by
  obtain ⟨hnew, author, chosen, _, _, hpr, hdb⟩ := createPullRequest_ok_inv h
  have hid : pr.PullRequestID = prID := by rw [hpr]
  refine ⟨hid, by rw [hpr], by rw [hpr], by rw [hpr], by rw [hpr], by rw [hpr], hdb, ?_, ?_⟩
  · have hfind : db.pullRequests.find? (fun row => decide (row.PullRequestID = prID)) = none := by
      simpa [List.find?_eq_none] using hnew
    rw [hdb]
    simp [Postgres.PullRequestRepository.GetByID, List.find?_append, hfind, hid]
  · intro otherID hne
    rw [hdb]
    have hne2 : ¬ pr.PullRequestID = otherID := by
      rw [hid]
      exact fun e => hne e.symm
    simp only [Postgres.PullRequestRepository.GetByID, List.find?_append, List.find?_cons,
      hne2, decide_False, List.find?_nil, Option.or_none]

theorem createPullRequest_persists_witness :
    prUseCase.CreatePullRequest 5 [1, 0] "p3" "docs" "A" sampleDB =
        (Except.ok ⟨"p3", "docs", "A", PRStatus.OPEN, ["B", "C"], 5, none⟩,
          { sampleDB with
            pullRequests := sampleDB.pullRequests ++
              [⟨"p3", "docs", "A", PRStatus.OPEN, ["B", "C"], 5, none⟩],
            journal := [Write.pullRequestCreate
              ⟨"p3", "docs", "A", PRStatus.OPEN, ["B", "C"], 5, none⟩] }) ∧
      Postgres.PullRequestRepository.GetByID "p3"
          { sampleDB with
            pullRequests := sampleDB.pullRequests ++
              [⟨"p3", "docs", "A", PRStatus.OPEN, ["B", "C"], 5, none⟩],
            journal := [Write.pullRequestCreate
              ⟨"p3", "docs", "A", PRStatus.OPEN, ["B", "C"], 5, none⟩] } =
        Except.ok ⟨"p3", "docs", "A", PRStatus.OPEN, ["B", "C"], 5, none⟩ :=
  ⟨by decide,
    (createPullRequest_persists 5 [1, 0] "p3" "docs" "A" sampleDB _ _ (by decide)).2.2.2.2.2.2.2.1⟩

/-! ## Lemmas: reading back after Update -/

theorem find?_updatedRows_same (upd : PullRequest) :
    ∀ (rows : List PullRequest) (pr0 : PullRequest),
      rows.find? (fun row => decide (row.PullRequestID = upd.PullRequestID)) = some pr0 →
      (Postgres.updatedRows upd rows).find?
          (fun row => decide (row.PullRequestID = upd.PullRequestID)) =
        some { pr0 with
               PullRequestName := upd.PullRequestName, Status := upd.Status,
               MergedAt := upd.MergedAt, AssignedReviewers := upd.AssignedReviewers } := by
  intro rows
  induction rows with
  | nil => intro pr0 h; simp at h
  | cons r rs ih =>
    intro pr0 h
    by_cases hr : r.PullRequestID = upd.PullRequestID
    · simp only [List.find?_cons, hr, decide_True, Option.some.injEq] at h
      subst h
      simp [Postgres.updatedRows, hr]
    · simp only [List.find?_cons, hr, decide_False] at h
      have h2 := ih pr0 h
      simp only [Postgres.updatedRows] at h2
      simp only [Postgres.updatedRows, List.map_cons, hr, if_false, List.find?_cons, decide_False]
      exact h2

theorem find?_updatedRows_other (upd : PullRequest) (otherID : String)
    (hne : otherID ≠ upd.PullRequestID) :
    ∀ rows : List PullRequest,
      (Postgres.updatedRows upd rows).find? (fun row => decide (row.PullRequestID = otherID)) =
        rows.find? (fun row => decide (row.PullRequestID = otherID)) := by
  intro rows
  induction rows with
  | nil => rfl
  | cons r rs ih =>
    simp only [Postgres.updatedRows] at ih
    by_cases hr : r.PullRequestID = upd.PullRequestID
    · have hro : ¬ r.PullRequestID = otherID := fun e => hne (e.symm.trans hr)
      have huo : ¬ upd.PullRequestID = otherID := fun e => hne e.symm
      simp only [Postgres.updatedRows, List.map_cons, hr, if_true, List.find?_cons, hro, huo,
        decide_False]
      exact ih
    · simp only [Postgres.updatedRows, List.map_cons, hr, if_false, List.find?_cons]
      rw [ih]

theorem getByID_update_other (upd : PullRequest) (db : DB) (otherID : String)
    (hne : otherID ≠ upd.PullRequestID) :
    Postgres.PullRequestRepository.GetByID otherID (Postgres.PullRequestRepository.Update upd db).2 =
      Postgres.PullRequestRepository.GetByID otherID db := by
  unfold Postgres.PullRequestRepository.Update
  split
  · simp only [Postgres.PullRequestRepository.GetByID, find?_updatedRows_other upd otherID hne]
  · rfl

/-! ## Lemmas: MergePullRequest -/

theorem mergePullRequestTx_notFound {db : DB} {prID : String} (now : Time)
    (h : ∀ row ∈ db.pullRequests, row.PullRequestID ≠ prID) :
    prUseCase.mergePullRequestTx now prID db =
      (Except.error (NewDomainError "NOT_FOUND" "PR not found" ErrNotFound), db) := by
  have hget : prUseCase.prRepo.GetByID prID db = Except.error ErrNotFound := getByID_none h
  have his : GoError.Is ErrNotFound ErrNotFound = true := by decide
  simp only [PullRequestUseCase.mergePullRequestTx, hget, his, if_true]

theorem mergePullRequestTx_merged {db : DB} {prID : String} {pr : PullRequest} (now : Time)
    (hget : Postgres.PullRequestRepository.GetByID prID db = Except.ok pr)
    (hstatus : pr.Status = PRStatus.MERGED) :
    prUseCase.mergePullRequestTx now prID db = (Except.ok pr, db) := by
  have hget2 : prUseCase.prRepo.GetByID prID db = Except.ok pr := hget
  simp only [PullRequestUseCase.mergePullRequestTx, hget2, hstatus, if_true]

theorem mergePullRequestTx_open {db : DB} {prID : String} {pr : PullRequest} (now : Time)
    (hget : Postgres.PullRequestRepository.GetByID prID db = Except.ok pr)
    (hstatus : pr.Status = PRStatus.OPEN) :
    prUseCase.mergePullRequestTx now prID db =
      (Except.ok { pr with Status := PRStatus.MERGED, MergedAt := some now },
        { db with
          pullRequests :=
            Postgres.updatedRows { pr with Status := PRStatus.MERGED, MergedAt := some now }
              db.pullRequests,
          journal := db.journal ++
            [Write.pullRequestUpdate
              { pr with Status := PRStatus.MERGED, MergedAt := some now }] }) := by
  have hget2 : prUseCase.prRepo.GetByID prID db = Except.ok pr := hget
  have hid := (getByID_mem hget).2
  have hget3 : Postgres.PullRequestRepository.GetByID
      ({ pr with Status := PRStatus.MERGED, MergedAt := some now } : PullRequest).PullRequestID db =
      Except.ok pr := by
    simpa [hid] using hget
  have hupd : prUseCase.prRepo.Update { pr with Status := PRStatus.MERGED, MergedAt := some now } db
      = _ := update_of_getByID hget3
  have hne : ¬ pr.Status = PRStatus.MERGED := by rw [hstatus]; decide
  simp only [PullRequestUseCase.mergePullRequestTx, hget2, hne, if_false, hupd]

theorem getByID_cases (prID : String) (db : DB) :
    (∀ row ∈ db.pullRequests, row.PullRequestID ≠ prID) ∨
      ∃ pr, Postgres.PullRequestRepository.GetByID prID db = Except.ok pr := by
  by_cases h : ∃ row ∈ db.pullRequests, row.PullRequestID = prID
  · right
    obtain ⟨row, hrow, hid⟩ := h
    unfold Postgres.PullRequestRepository.GetByID
    cases hfind : db.pullRequests.find? (fun row => decide (row.PullRequestID = prID)) with
    | none =>
      have := List.find?_eq_none.mp hfind row hrow
      simp [hid] at this
    | some found => exact ⟨found, rfl⟩
  · left
    intro row hrow hid
    exact h ⟨row, hrow, hid⟩

theorem getByID_after_merge {db : DB} {prID : String} {pr : PullRequest} (now : Time)
    (hget : Postgres.PullRequestRepository.GetByID prID db = Except.ok pr) :
    Postgres.PullRequestRepository.GetByID prID
        { db with
          pullRequests :=
            Postgres.updatedRows { pr with Status := PRStatus.MERGED, MergedAt := some now }
              db.pullRequests,
          journal := db.journal ++
            [Write.pullRequestUpdate
              { pr with Status := PRStatus.MERGED, MergedAt := some now }] } =
      Except.ok { pr with Status := PRStatus.MERGED, MergedAt := some now } := by
  have hid := (getByID_mem hget).2
  unfold Postgres.PullRequestRepository.GetByID at hget ⊢
  cases hfind : db.pullRequests.find? (fun row => decide (row.PullRequestID = prID)) with
  | none => rw [hfind] at hget; cases hget
  | some found =>
    rw [hfind] at hget
    cases hget
    subst hid
    have h3 := find?_updatedRows_same
      { pr with Status := PRStatus.MERGED, MergedAt := some now } db.pullRequests pr hfind
    simp only [h3]

theorem mergePullRequest_ok_inv {now : Time} {prID : String} {db db' : DB} {r : PullRequest}
    (h : prUseCase.MergePullRequest now prID db = (Except.ok r, db')) :
    ∃ pr, Postgres.PullRequestRepository.GetByID prID db = Except.ok pr ∧
      ((pr.Status = PRStatus.MERGED ∧ r = pr ∧ db' = db) ∨
        (pr.Status = PRStatus.OPEN ∧
          r = { pr with Status := PRStatus.MERGED, MergedAt := some now } ∧
          db' = { db with
                  pullRequests :=
                    Postgres.updatedRows
                      { pr with Status := PRStatus.MERGED, MergedAt := some now } db.pullRequests,
                  journal := db.journal ++
                    [Write.pullRequestUpdate
                      { pr with Status := PRStatus.MERGED, MergedAt := some now }] })) := by
  unfold PullRequestUseCase.MergePullRequest at h
  rcases getByID_cases prID db with hnone | ⟨pr, hget⟩
  · rw [runInTransaction_error (mergePullRequestTx_notFound now hnone)] at h
    cases h
  · refine ⟨pr, hget, ?_⟩
    cases hstatus : pr.Status with
    | MERGED =>
      rw [runInTransaction_ok (mergePullRequestTx_merged now hget hstatus)] at h
      simp only [Prod.mk.injEq, Except.ok.injEq] at h
      exact Or.inl ⟨rfl, h.1.symm, h.2.symm⟩
    | OPEN =>
      rw [runInTransaction_ok (mergePullRequestTx_open now hget hstatus)] at h
      simp only [Prod.mk.injEq, Except.ok.injEq] at h
      exact Or.inr ⟨rfl, h.1.symm, h.2.symm⟩

/-! ## Claims on MergePullRequest -/

/-- C8: for a stored pull request that is OPEN, MergePullRequest succeeds and returns the
record with status MERGED and merge time now, every other field (id, name, author, ordered
reviewers, creation time) as before; that record is what GetByID reads back afterwards,
the one write call is Update with it, and other pull requests, users and teams are as
before. For an id no stored pull request has, it fails with NOT_FOUND, makes no write call
and leaves the store unchanged. -/
theorem mergePullRequest_open_or_missing (now : Time) (prID : String) (db : DB) :
    (∀ pr, Postgres.PullRequestRepository.GetByID prID db = Except.ok pr →
      pr.Status = PRStatus.OPEN →
      ∃ db',
        prUseCase.MergePullRequest now prID db =
          (Except.ok { pr with Status := PRStatus.MERGED, MergedAt := some now }, db') ∧
        Postgres.PullRequestRepository.GetByID prID db' =
          Except.ok { pr with Status := PRStatus.MERGED, MergedAt := some now } ∧
        db'.journal = db.journal ++
          [Write.pullRequestUpdate { pr with Status := PRStatus.MERGED, MergedAt := some now }] ∧
        (∀ otherID, otherID ≠ prID →
          Postgres.PullRequestRepository.GetByID otherID db' =
            Postgres.PullRequestRepository.GetByID otherID db) ∧
        db'.users = db.users ∧ db'.teams = db.teams) ∧
    ((∀ row ∈ db.pullRequests, row.PullRequestID ≠ prID) →
      prUseCase.mergePullRequestTx now prID db =
          (Except.error (NewDomainError "NOT_FOUND" "PR not found" ErrNotFound), db) ∧
        prUseCase.MergePullRequest now prID db =
          (Except.error (NewDomainError "NOT_FOUND" "PR not found" ErrNotFound), db) ∧
        (NewDomainError "NOT_FOUND" "PR not found" ErrNotFound).code? = some "NOT_FOUND") := by
  constructor
  · intro pr hget hstatus
    have hid := (getByID_mem hget).2
    refine ⟨_, runInTransaction_ok (mergePullRequestTx_open now hget hstatus),
      getByID_after_merge now hget, rfl, ?_, rfl, rfl⟩
    intro otherID hne
    have hne2 : otherID ≠
        ({ pr with Status := PRStatus.MERGED, MergedAt := some now } : PullRequest).PullRequestID := by
      simpa [hid] using hne
    simp only [Postgres.PullRequestRepository.GetByID,
      find?_updatedRows_other _ otherID hne2]
  · intro hnone
    exact ⟨mergePullRequestTx_notFound now hnone,
      runInTransaction_error (mergePullRequestTx_notFound now hnone), rfl⟩

theorem mergePullRequest_open_or_missing_witness :
    (∃ db',
        prUseCase.MergePullRequest 9 "p1" sampleDB =
          (Except.ok ⟨"p1", "feature", "A", PRStatus.MERGED, ["B", "C"], 1, some 9⟩, db') ∧
        Postgres.PullRequestRepository.GetByID "p1" db' =
          Except.ok ⟨"p1", "feature", "A", PRStatus.MERGED, ["B", "C"], 1, some 9⟩ ∧
        db'.journal = sampleDB.journal ++
          [Write.pullRequestUpdate ⟨"p1", "feature", "A", PRStatus.MERGED, ["B", "C"], 1, some 9⟩] ∧
        (∀ otherID, otherID ≠ "p1" →
          Postgres.PullRequestRepository.GetByID otherID db' =
            Postgres.PullRequestRepository.GetByID otherID sampleDB) ∧
        db'.users = sampleDB.users ∧ db'.teams = sampleDB.teams) ∧
      (prUseCase.mergePullRequestTx 9 "p9" sampleDB =
          (Except.error (NewDomainError "NOT_FOUND" "PR not found" ErrNotFound), sampleDB) ∧
        prUseCase.MergePullRequest 9 "p9" sampleDB =
          (Except.error (NewDomainError "NOT_FOUND" "PR not found" ErrNotFound), sampleDB) ∧
        (NewDomainError "NOT_FOUND" "PR not found" ErrNotFound).code? = some "NOT_FOUND") :=
  ⟨(mergePullRequest_open_or_missing 9 "p1" sampleDB).1
      ⟨"p1", "feature", "A", PRStatus.OPEN, ["B", "C"], 1, none⟩ (by decide) (by decide),
    (mergePullRequest_open_or_missing 9 "p9" sampleDB).2 (by decide)⟩

/-- C9: for every stored pull request, a first MergePullRequest succeeds, and a second
MergePullRequest on the same id (at any later clock reading) succeeds too, returns the
record stored after the first call, which is MERGED and is the record the first call
returned, and makes no write call: store and journal are as the first call left them, so
the merge time of the first call is not overwritten. -/
theorem mergePullRequest_idempotent (now1 now2 : Time) (prID : String) (db : DB)
    (pr : PullRequest)
    (hget : Postgres.PullRequestRepository.GetByID prID db = Except.ok pr) :
    ∃ r1 db1,
      prUseCase.MergePullRequest now1 prID db = (Except.ok r1, db1) ∧
      Postgres.PullRequestRepository.GetByID prID db1 = Except.ok r1 ∧
      r1.Status = PRStatus.MERGED ∧
      prUseCase.mergePullRequestTx now2 prID db1 = (Except.ok r1, db1) ∧
      prUseCase.MergePullRequest now2 prID db1 = (Except.ok r1, db1) := by
  have key : ∃ r1 db1,
      prUseCase.MergePullRequest now1 prID db = (Except.ok r1, db1) ∧
      Postgres.PullRequestRepository.GetByID prID db1 = Except.ok r1 ∧
      r1.Status = PRStatus.MERGED := by
    cases hstatus : pr.Status with
    | MERGED =>
      exact ⟨pr, db, runInTransaction_ok (mergePullRequestTx_merged now1 hget hstatus), hget,
        hstatus⟩
    | OPEN =>
      exact ⟨_, _, runInTransaction_ok (mergePullRequestTx_open now1 hget hstatus),
        getByID_after_merge now1 hget, rfl⟩
  obtain ⟨r1, db1, hfirst, hstored, hmerged⟩ := key
  exact ⟨r1, db1, hfirst, hstored, hmerged, mergePullRequestTx_merged now2 hstored hmerged,
    runInTransaction_ok (mergePullRequestTx_merged now2 hstored hmerged)⟩

theorem mergePullRequest_idempotent_witness :
    Postgres.PullRequestRepository.GetByID "p1" sampleDB =
        Except.ok ⟨"p1", "feature", "A", PRStatus.OPEN, ["B", "C"], 1, none⟩ ∧
      ∃ r1 db1,
        prUseCase.MergePullRequest 9 "p1" sampleDB = (Except.ok r1, db1) ∧
        Postgres.PullRequestRepository.GetByID "p1" db1 = Except.ok r1 ∧
        r1.Status = PRStatus.MERGED ∧
        prUseCase.mergePullRequestTx 12 "p1" db1 = (Except.ok r1, db1) ∧
        prUseCase.MergePullRequest 12 "p1" db1 = (Except.ok r1, db1) :=
  ⟨by decide,
    mergePullRequest_idempotent 9 12 "p1" sampleDB
      ⟨"p1", "feature", "A", PRStatus.OPEN, ["B", "C"], 1, none⟩ (by decide)⟩

/-! ## Lemmas and claims on ReassignReviewer -/

theorem reassignReviewerTx_notFound {db : DB} {prID : String} (rnd : Rand) (oldUserID : String)
    (h : ∀ row ∈ db.pullRequests, row.PullRequestID ≠ prID) :
    prUseCase.reassignReviewerTx rnd prID oldUserID db =
      (Except.error (NewDomainError "NOT_FOUND" "PR not found" ErrNotFound), db) := by
  have hget : prUseCase.prRepo.GetByID prID db = Except.error ErrNotFound := getByID_none h
  have his : GoError.Is ErrNotFound ErrNotFound = true := by decide
  simp only [PullRequestUseCase.reassignReviewerTx, hget, his, if_true]

theorem reassignReviewerTx_merged {db : DB} {prID : String} {pr : PullRequest} (rnd : Rand)
    (oldUserID : String)
    (hget : Postgres.PullRequestRepository.GetByID prID db = Except.ok pr)
    (hstatus : pr.Status = PRStatus.MERGED) :
    prUseCase.reassignReviewerTx rnd prID oldUserID db =
      (Except.error (NewDomainError "PR_MERGED" "cannot reassign on merged PR" ErrPRMerged), db) := by
  have hget2 : prUseCase.prRepo.GetByID prID db = Except.ok pr := hget
  simp only [PullRequestUseCase.reassignReviewerTx, hget2, hstatus, if_true]

/-- C10: for a stored pull request that is MERGED and every oldUserID, ReassignReviewer
fails with the domain error PR_MERGED, returning no pull request and the empty string as
new reviewer id; the function run in the transaction makes no write call, and the store
(reviewers and metadata of the pull request included) is unchanged. -/
theorem reassignReviewer_merged (rnd : Rand) (prID oldUserID : String) (db : DB)
    (pr : PullRequest)
    (hget : Postgres.PullRequestRepository.GetByID prID db = Except.ok pr)
    (hstatus : pr.Status = PRStatus.MERGED) :
    prUseCase.reassignReviewerTx rnd prID oldUserID db =
        (Except.error (NewDomainError "PR_MERGED" "cannot reassign on merged PR" ErrPRMerged), db) ∧
      prUseCase.ReassignReviewer rnd prID oldUserID db =
        ((Except.error (NewDomainError "PR_MERGED" "cannot reassign on merged PR" ErrPRMerged), ""),
          db) ∧
      (NewDomainError "PR_MERGED" "cannot reassign on merged PR" ErrPRMerged).code? =
        some "PR_MERGED" := by
  have htx := reassignReviewerTx_merged rnd oldUserID hget hstatus
  refine ⟨htx, ?_, rfl⟩
  simp only [PullRequestUseCase.ReassignReviewer, runInTransaction_error htx]

theorem reassignReviewer_merged_witness :
    Postgres.PullRequestRepository.GetByID "p2" sampleDB =
        Except.ok ⟨"p2", "fix", "A", PRStatus.MERGED, ["B"], 2, some 3⟩ ∧
      prUseCase.reassignReviewerTx [4] "p2" "B" sampleDB =
        (Except.error (NewDomainError "PR_MERGED" "cannot reassign on merged PR" ErrPRMerged),
          sampleDB) ∧
      prUseCase.ReassignReviewer [4] "p2" "B" sampleDB =
        ((Except.error (NewDomainError "PR_MERGED" "cannot reassign on merged PR" ErrPRMerged), ""),
          sampleDB) ∧
      (NewDomainError "PR_MERGED" "cannot reassign on merged PR" ErrPRMerged).code? =
        some "PR_MERGED" :=
  ⟨by decide,
    reassignReviewer_merged [4] "p2" "B" sampleDB
      ⟨"p2", "fix", "A", PRStatus.MERGED, ["B"], 2, some 3⟩ (by decide) (by decide)⟩

/-! ## Lemmas: row invariants under Update -/

theorem rows_after_update {P : PullRequest → Prop} {db : DB} {pr0 upd : PullRequest}
    (hpk : UniquePullRequestIDs db)
    (hget : Postgres.PullRequestRepository.GetByID upd.PullRequestID db = Except.ok pr0)
    (hauthor : upd.AuthorID = pr0.AuthorID) (hcreated : upd.CreatedAt = pr0.CreatedAt)
    (hall : ∀ row ∈ db.pullRequests, P row) (hupd : P upd) :
    ∀ row ∈ Postgres.updatedRows upd db.pullRequests, P row := by
  have hmem := getByID_mem hget
  rw [updatedRows_of_unique hpk hmem.1 hmem.2 hauthor hcreated]
  intro row hrow
  simp only [List.mem_map] at hrow
  obtain ⟨r, hr, rfl⟩ := hrow
  split
  · exact hupd
  · exact hall r hr

theorem update_storeInvariant {P : PullRequest → Prop} {db : DB} {pr0 upd : PullRequest}
    (hinv : StoreInvariant P db)
    (hget : Postgres.PullRequestRepository.GetByID upd.PullRequestID db = Except.ok pr0)
    (hauthor : upd.AuthorID = pr0.AuthorID) (hcreated : upd.CreatedAt = pr0.CreatedAt)
    (hupd : P upd) :
    StoreInvariant P (Postgres.PullRequestRepository.Update upd db).2 := by
  rw [update_of_getByID hget]
  refine ⟨?_, rows_after_update hinv.1 hget hauthor hcreated hinv.2 hupd⟩
  show (List.map (fun row => row.PullRequestID)
    (Postgres.updatedRows upd db.pullRequests)).Nodup
  rw [updatedRows_ids]
  exact hinv.1

theorem userUpdate_pullRequests (user : User) (db : DB) :
    (Postgres.UserRepository.Update user db).2.pullRequests = db.pullRequests := by
  unfold Postgres.UserRepository.Update
  split <;> rfl

/-! ## Lemmas: DeactivateTeamMembers -/

/-- What reassignDeactivatedReviewer does to the store: nothing, or one Update of the pull
request with the slot of the deactivated reviewer removed or given to a candidate that is
neither the author nor an assigned reviewer. -/
theorem reassignDeactivatedReviewer_state (rnd : Rand) (pr : PullRequest) (userID : String)
    (db : DB) :
    (teamUseCase.reassignDeactivatedReviewer rnd pr userID db).2.1 = db ∨
      ∃ i, findReviewerIndex pr.AssignedReviewers userID = some i ∧
        ((teamUseCase.reassignDeactivatedReviewer rnd pr userID db).2.1 =
            (Postgres.PullRequestRepository.Update
              { pr with
                AssignedReviewers :=
                  pr.AssignedReviewers.take i ++ pr.AssignedReviewers.drop (i + 1) } db).2 ∨
          ∃ c : User, c ∈ db.users ∧ c.IsActive = true ∧ c.UserID ≠ pr.AuthorID ∧
            c.UserID ∉ pr.AssignedReviewers ∧
            (teamUseCase.reassignDeactivatedReviewer rnd pr userID db).2.1 =
              (Postgres.PullRequestRepository.Update
                { pr with AssignedReviewers := pr.AssignedReviewers.set i c.UserID } db).2) := by
  unfold TeamUseCase.reassignDeactivatedReviewer
  cases hidx : findReviewerIndex pr.AssignedReviewers userID with
  | none => left; rfl
  | some i =>
    simp only
    cases hold : teamUseCase.userRepo.GetByID userID db with
    | error err => left; rfl
    | ok oldReviewer =>
      simp only
      obtain ⟨users, husers, hperm⟩ := getActiveByTeam_eq oldReviewer.TeamName db
      have husers2 : teamUseCase.userRepo.GetActiveByTeam oldReviewer.TeamName db =
          Except.ok users := husers
      rw [husers2]
      simp only
      by_cases hlen : (filterCandidates users pr).length = 0
      · right
        refine ⟨i, rfl, Or.inl ?_⟩
        simp only [hlen, if_true]
        split <;> next heq => exact (congrArg Prod.snd heq).symm ▸ rfl
      · simp only [hlen, if_false]
        cases hc : (filterCandidates users pr)[(Intn rnd (filterCandidates users pr).length).1]? with
        | none => left; rfl
        | some c =>
          right
          have hcmem : c ∈ filterCandidates users pr := List.getElem?_mem hc
          obtain ⟨hcu, hca, hcr⟩ := mem_filterCandidates hcmem
          have hcdb := hperm.subset hcu
          simp only [List.mem_filter, Bool.and_eq_true, decide_eq_true_eq] at hcdb
          refine ⟨i, rfl, Or.inr ⟨c, hcdb.1, hcdb.2.2, hca, hcr, ?_⟩⟩
          simp only
          split <;> next heq => exact (congrArg Prod.snd heq).symm ▸ rfl

theorem reassignDeactivatedReviewer_storeInvariant {P : PullRequest → Prop}
    (hP : RowInvariant P) (rnd : Rand) (pr : PullRequest) (userID : String) (db : DB)
    (hinv : StoreInvariant P db)
    (hget : Postgres.PullRequestRepository.GetByID pr.PullRequestID db = Except.ok pr) :
    StoreInvariant P (teamUseCase.reassignDeactivatedReviewer rnd pr userID db).2.1 := by
  have hpr : P pr := hinv.2 pr (getByID_mem hget).1
  rcases reassignDeactivatedReviewer_state rnd pr userID db with
    h | ⟨i, hidx, h | ⟨c, _, _, hca, hcr, h⟩⟩
  · rw [h]; exact hinv
  · rw [h]
    exact update_storeInvariant hinv hget rfl rfl (hP.remove pr i hpr)
  · rw [h]
    exact update_storeInvariant hinv hget rfl rfl
      (hP.replace pr i c.UserID hpr (findReviewerIndex_lt hidx) hca hcr)

theorem deactivateUsers_invariant (Q : DB → Prop)
    (huser : ∀ db user, Q db → Q (Postgres.UserRepository.Update user db).2) (now : Time) :
    ∀ (users : List User) (ids : List String) (db : DB),
      Q db → Q (teamUseCase.deactivateUsers now users ids db).2 := by
  intro users
  induction users with
  | nil => intro ids db h; exact h
  | cons user rest ih =>
    intro ids db h
    unfold TeamUseCase.deactivateUsers
    by_cases hact : user.IsActive = true
    · simp only [hact, if_true]
      have h2 := huser db { user with IsActive := false, UpdatedAt := now } h
      split
      · next err s' heq =>
        have hs : s' = (Postgres.UserRepository.Update
            { user with IsActive := false, UpdatedAt := now } db).2 :=
          (congrArg Prod.snd heq).symm
        rw [hs]; exact h2
      · next u s' heq =>
        have hs : s' = (Postgres.UserRepository.Update
            { user with IsActive := false, UpdatedAt := now } db).2 :=
          (congrArg Prod.snd heq).symm
        rw [hs]; exact ih _ _ h2
    · simp only [hact]
      exact ih _ _ h

theorem reassignOpenPRs_invariant (Q : DB → Prop)
    (hpr : ∀ db rnd pr userID, Q db →
      Postgres.PullRequestRepository.GetByID pr.PullRequestID db = Except.ok pr →
      Q (teamUseCase.reassignDeactivatedReviewer rnd pr userID db).2.1)
    (userID : String) :
    ∀ (prs : List PullRequestShort) (count : Nat) (rnd : Rand) (db : DB),
      Q db → Q (teamUseCase.reassignOpenPRs userID prs count rnd db).2.1 := by
  intro prs
  induction prs with
  | nil => intro count rnd db h; exact h
  | cons prShort rest ih =>
    intro count rnd db h
    unfold TeamUseCase.reassignOpenPRs
    by_cases hopen : prShort.Status = PRStatus.OPEN
    · simp only [hopen, if_true]
      cases hget : teamUseCase.prRepo.GetByID prShort.PullRequestID db with
      | error err => exact h
      | ok pr =>
        simp only
        have hget2 : Postgres.PullRequestRepository.GetByID pr.PullRequestID db = Except.ok pr := by
          have hid := (getByID_mem hget).2
          rw [hid]; exact hget
        have h2 := hpr db rnd pr userID h hget2
        split
        · next e s' rnd' heq =>
          have hs : s' = (teamUseCase.reassignDeactivatedReviewer rnd pr userID db).2.1 := by
            rw [heq]
          rw [hs] at *
          exact ih _ _ _ h2
        · next u s' rnd' heq =>
          have hs : s' = (teamUseCase.reassignDeactivatedReviewer rnd pr userID db).2.1 := by
            rw [heq]
          rw [hs] at *
          exact ih _ _ _ h2
    · simp only [hopen, if_false]
      exact ih _ _ _ h

theorem reassignDeactivated_invariant (Q : DB → Prop)
    (hpr : ∀ db rnd pr userID, Q db →
      Postgres.PullRequestRepository.GetByID pr.PullRequestID db = Except.ok pr →
      Q (teamUseCase.reassignDeactivatedReviewer rnd pr userID db).2.1) :
    ∀ (ids : List String) (count : Nat) (rnd : Rand) (db : DB),
      Q db → Q (teamUseCase.reassignDeactivated ids count rnd db).2.1 := by
  intro ids
  induction ids with
  | nil => intro count rnd db h; exact h
  | cons userID rest ih =>
    intro count rnd db h
    unfold TeamUseCase.reassignDeactivated
    cases hprs : teamUseCase.prRepo.GetByReviewer userID db with
    | error err => exact h
    | ok prs =>
      simp only
      have h2 := reassignOpenPRs_invariant Q hpr userID prs count rnd db h
      split
      · next err s' rnd' heq =>
        rw [heq] at h2
        exact h2
      · next c s' rnd' heq =>
        rw [heq] at h2
        exact ih _ _ _ h2

/-- A store predicate kept by every user update and by every reassignment of a deactivated
reviewer on a pull request just read from the store is kept by the function
DeactivateTeamMembers runs in its transaction. -/
theorem deactivateTeamMembersTx_invariant (Q : DB → Prop)
    (huser : ∀ db user, Q db → Q (Postgres.UserRepository.Update user db).2)
    (hpr : ∀ db rnd pr userID, Q db →
      Postgres.PullRequestRepository.GetByID pr.PullRequestID db = Except.ok pr →
      Q (teamUseCase.reassignDeactivatedReviewer rnd pr userID db).2.1)
    (now : Time) (rnd : Rand) (teamName : String) (db : DB) (h : Q db) :
    Q (teamUseCase.deactivateTeamMembersTx now rnd teamName db).2 := by
  unfold TeamUseCase.deactivateTeamMembersTx
  cases hteam : teamUseCase.teamRepo.GetByName teamName db with
  | error err =>
    simp only
    split <;> exact h
  | ok team =>
    simp only
    cases husers : teamUseCase.userRepo.GetByTeam teamName db with
    | error err => exact h
    | ok users =>
      simp only
      have h2 := deactivateUsers_invariant Q huser now users [] db h
      split
      · next err s' heq =>
        rw [heq] at h2
        exact h2
      · next ids s' heq =>
        rw [heq] at h2
        have h3 := reassignDeactivated_invariant Q hpr ids 0 rnd s' h2
        split
        · next err s'' rnd'' heq2 =>
          rw [heq2] at h3
          exact h3
        · next c s'' rnd'' heq2 =>
          rw [heq2] at h3
          exact h3

/-! ## Lemmas: the store after ReassignReviewer and MergePullRequest -/

/-- What the function ReassignReviewer runs in its transaction does to the store: nothing,
or one Update of the pull request with the slot of oldUserID given to an active user that
is neither the author nor an assigned reviewer. -/
theorem reassignReviewerTx_state (rnd : Rand) (prID oldUserID : String) (db : DB) :
    (prUseCase.reassignReviewerTx rnd prID oldUserID db).2 = db ∨
      ∃ (pr : PullRequest) (i : Nat) (c : User),
        Postgres.PullRequestRepository.GetByID prID db = Except.ok pr ∧
        pr.Status = PRStatus.OPEN ∧
        findReviewerIndex pr.AssignedReviewers oldUserID = some i ∧
        c ∈ db.users ∧ c.IsActive = true ∧ c.UserID ≠ pr.AuthorID ∧
        c.UserID ∉ pr.AssignedReviewers ∧
        (prUseCase.reassignReviewerTx rnd prID oldUserID db).2 =
          (Postgres.PullRequestRepository.Update
            { pr with AssignedReviewers := pr.AssignedReviewers.set i c.UserID } db).2 := by
  unfold PullRequestUseCase.reassignReviewerTx
  cases hget : prUseCase.prRepo.GetByID prID db with
  | error err =>
    simp only
    split <;> exact Or.inl rfl
  | ok pr =>
    simp only
    by_cases hmerged : pr.Status = PRStatus.MERGED
    · simp only [hmerged, if_true]
      exact Or.inl trivial
    · have hstatus : pr.Status = PRStatus.OPEN := by
        cases hs : pr.Status with
        | OPEN => rfl
        | MERGED => exact absurd hs hmerged
      simp only [hmerged, if_false]
      cases hidx : findReviewerIndex pr.AssignedReviewers oldUserID with
      | none => exact Or.inl rfl
      | some i =>
        simp only
        cases hold : prUseCase.userRepo.GetByID oldUserID db with
        | error err =>
          simp only
          split <;> exact Or.inl rfl
        | ok oldReviewer =>
          simp only
          obtain ⟨users, husers, hperm⟩ := getActiveByTeam_eq oldReviewer.TeamName db
          have husers2 : prUseCase.userRepo.GetActiveByTeam oldReviewer.TeamName db =
              Except.ok users := husers
          rw [husers2]
          simp only
          by_cases hlen : (filterCandidates users pr).length = 0
          · simp only [hlen, if_true]
            exact Or.inl trivial
          · simp only [hlen, if_false]
            cases hc : (filterCandidates users pr)[(Intn rnd
                (filterCandidates users pr).length).1]? with
            | none => exact Or.inl rfl
            | some c =>
              right
              have hcmem : c ∈ filterCandidates users pr := List.getElem?_mem hc
              obtain ⟨hcu, hca, hcr⟩ := mem_filterCandidates hcmem
              have hcdb := hperm.subset hcu
              simp only [List.mem_filter, Bool.and_eq_true, decide_eq_true_eq] at hcdb
              refine ⟨pr, i, c, hget, hstatus, hidx, hcdb.1, hcdb.2.2, hca, hcr, ?_⟩
              simp only
              split <;> next heq => exact (congrArg Prod.snd heq).symm ▸ rfl

theorem reassignReviewer_state (rnd : Rand) (prID oldUserID : String) (db : DB) :
    (prUseCase.ReassignReviewer rnd prID oldUserID db).2 = db ∨
      (prUseCase.ReassignReviewer rnd prID oldUserID db).2 =
        (prUseCase.reassignReviewerTx rnd prID oldUserID db).2 := by
  unfold PullRequestUseCase.ReassignReviewer RunInTransaction
  cases h : prUseCase.reassignReviewerTx rnd prID oldUserID db with
  | mk res s' =>
    cases res with
    | error err => left; rfl
    | ok val => right; rfl

theorem reassignReviewer_storeInvariant {P : PullRequest → Prop} (hP : RowInvariant P)
    (rnd : Rand) (prID oldUserID : String) (db : DB) (hinv : StoreInvariant P db) :
    StoreInvariant P (prUseCase.ReassignReviewer rnd prID oldUserID db).2 := by
  rcases reassignReviewer_state rnd prID oldUserID db with h | h
  · rw [h]; exact hinv
  · rw [h]
    rcases reassignReviewerTx_state rnd prID oldUserID db with
      h2 | ⟨pr, i, c, hget, _, hidx, _, _, hca, hcr, h2⟩
    · rw [h2]; exact hinv
    · rw [h2]
      have hmem := getByID_mem hget
      have hget2 : Postgres.PullRequestRepository.GetByID
          ({ pr with AssignedReviewers := pr.AssignedReviewers.set i c.UserID } :
            PullRequest).PullRequestID db = Except.ok pr := by
        show Postgres.PullRequestRepository.GetByID pr.PullRequestID db = Except.ok pr
        rw [hmem.2]; exact hget
      exact update_storeInvariant hinv hget2 rfl rfl
        (hP.replace pr i c.UserID (hinv.2 pr hmem.1) (findReviewerIndex_lt hidx) hca hcr)

theorem mergePullRequest_storeInvariant {P : PullRequest → Prop} (hP : RowInvariant P)
    (now : Time) (prID : String) (db : DB) (hinv : StoreInvariant P db) :
    StoreInvariant P (prUseCase.MergePullRequest now prID db).2 := by
  rcases getByID_cases prID db with hnone | ⟨pr, hget⟩
  · unfold PullRequestUseCase.MergePullRequest
    rw [runInTransaction_error (mergePullRequestTx_notFound now hnone)]
    exact hinv
  · have hmem := getByID_mem hget
    unfold PullRequestUseCase.MergePullRequest
    cases hstatus : pr.Status with
    | MERGED =>
      rw [runInTransaction_ok (mergePullRequestTx_merged now hget hstatus)]
      exact hinv
    | OPEN =>
      rw [runInTransaction_ok (mergePullRequestTx_open now hget hstatus)]
      have hget2 : Postgres.PullRequestRepository.GetByID
          ({ pr with Status := PRStatus.MERGED, MergedAt := some now } :
            PullRequest).PullRequestID db = Except.ok pr := by
        show Postgres.PullRequestRepository.GetByID pr.PullRequestID db = Except.ok pr
        rw [hmem.2]; exact hget
      have h := update_storeInvariant hinv hget2 rfl rfl (hP.merge pr now (hinv.2 pr hmem.1))
      rw [update_of_getByID hget2] at h
      exact h

theorem deactivateTeamMembers_storeInvariant {P : PullRequest → Prop} (hP : RowInvariant P)
    (now : Time) (rnd : Rand) (teamName : String) (db : DB) (hinv : StoreInvariant P db) :
    StoreInvariant P (teamUseCase.DeactivateTeamMembers now rnd teamName db).2 := by
  unfold TeamUseCase.DeactivateTeamMembers
  rcases runInTransaction_state (teamUseCase.deactivateTeamMembersTx now rnd teamName) db with h | h
  · rw [h]
    apply deactivateTeamMembersTx_invariant (StoreInvariant P)
    · intro db user hdb
      unfold StoreInvariant UniquePullRequestIDs
      rw [userUpdate_pullRequests]
      exact hdb
    · intro db rnd pr userID hdb hget
      exact reassignDeactivatedReviewer_storeInvariant hP rnd pr userID db hdb hget
    · exact hinv
  · rw [h]; exact hinv

theorem createPullRequest_storeInvariant {P : PullRequest → Prop} (now : Time) (rnd : Rand)
    (prID prName authorID : String) (db : DB) (hinv : StoreInvariant P db)
    (hnew : ∀ pr db',
      prUseCase.CreatePullRequest now rnd prID prName authorID db = (Except.ok pr, db') → P pr) :
    StoreInvariant P (prUseCase.CreatePullRequest now rnd prID prName authorID db).2 := by
  cases h : prUseCase.CreatePullRequest now rnd prID prName authorID db with
  | mk res db' =>
    cases res with
    | error err =>
      have hdb : db' = db := by
        unfold PullRequestUseCase.CreatePullRequest RunInTransaction at h
        split at h
        · cases h
        · exact (congrArg Prod.snd h).symm
      rw [hdb]; exact hinv
    | ok pr =>
      obtain ⟨hfresh, _, _, _, _, hpr, hdb⟩ := createPullRequest_ok_inv h
      have hid : pr.PullRequestID = prID := by rw [hpr]
      show StoreInvariant P db'
      rw [hdb]
      constructor
      · show (List.map (fun row => row.PullRequestID) (db.pullRequests ++ [pr])).Nodup
        rw [List.map_append, List.nodup_append]
        refine ⟨hinv.1, by simp, ?_⟩
        intro a ha hb
        simp only [List.map_cons, List.map_nil, List.mem_singleton] at hb
        simp only [List.mem_map] at ha
        obtain ⟨row, hrow, hrid⟩ := ha
        exact hfresh row hrow (hrid.trans (hb.trans hid))
      · intro row hrow
        simp only [List.mem_append, List.mem_singleton] at hrow
        rcases hrow with hrow | hrow
        · exact hinv.2 row hrow
        · rw [hrow]; exact hnew pr db' h

theorem run_storeInvariant {P : PullRequest → Prop} (hP : RowInvariant P) (op : Op) (db : DB)
    (hinv : StoreInvariant P db)
    (hnew : ∀ now rnd prID prName authorID pr db',
      prUseCase.CreatePullRequest now rnd prID prName authorID db = (Except.ok pr, db') → P pr) :
    StoreInvariant P (op.run db).2 := by
  cases op with
  | CreatePullRequest now rnd prID prName authorID =>
    have h := createPullRequest_storeInvariant now rnd prID prName authorID db hinv
      (hnew now rnd prID prName authorID)
    unfold Op.run
    simp only
    split <;> next heq => rw [heq] at h; exact h
  | MergePullRequest now prID =>
    have h := mergePullRequest_storeInvariant hP now prID db hinv
    unfold Op.run
    simp only
    split <;> next heq => rw [heq] at h; exact h
  | ReassignReviewer rnd prID oldUserID =>
    have h := reassignReviewer_storeInvariant hP rnd prID oldUserID db hinv
    unfold Op.run
    simp only
    split <;> next heq => rw [heq] at h; exact h
  | DeactivateTeamMembers now rnd teamName =>
    have h := deactivateTeamMembers_storeInvariant hP now rnd teamName db hinv
    unfold Op.run
    simp only
    split <;> next heq => rw [heq] at h; exact h

theorem authorExcluded_rowInvariant :
    RowInvariant (fun pr => pr.AuthorID ∉ pr.AssignedReviewers) where
  merge := fun _ _ h => h
  replace := by
    intro pr i c h _ hc _ hmem
    rcases List.mem_or_eq_of_mem_set hmem with h1 | h1
    · exact h h1
    · exact hc h1.symm
  remove := by
    intro pr i h hmem
    simp only [List.mem_append] at hmem
    rcases hmem with h1 | h1
    · exact h (List.mem_of_mem_take h1)
    · exact h (List.mem_of_mem_drop h1)

theorem reviewersBounded_rowInvariant :
    RowInvariant (fun pr => pr.AssignedReviewers.Nodup ∧ pr.AssignedReviewers.length ≤ 2) where
  merge := fun _ _ h => h
  replace := by
    intro pr i c h _ _ hc
    exact ⟨h.1.set hc, by simpa using h.2⟩
  remove := by
    intro pr i h
    have hsub : (pr.AssignedReviewers.take i ++ pr.AssignedReviewers.drop (i + 1)).Sublist
        pr.AssignedReviewers := by
      rw [← List.eraseIdx_eq_take_drop_succ]
      exact List.eraseIdx_sublist _ _
    exact ⟨h.1.sublist hsub, Nat.le_trans hsub.length_le h.2⟩

/-! ## Claims on the invariants of the engine -/

/-- C1: on a store whose pull request ids are unique (the primary key) and in which no pull
request lists its own author among its reviewers, after any CreatePullRequest,
MergePullRequest, ReassignReviewer or DeactivateTeamMembers (successful or not, at any
clock reading and random source) no stored pull request, a newly created one included,
lists its own author among its reviewers; the primary key is kept as well. -/
theorem authorExcluded_invariant (op : Op) (db : DB) (hpk : UniquePullRequestIDs db)
    (hinv : AuthorExcluded db) :
    AuthorExcluded (op.run db).2 ∧ UniquePullRequestIDs (op.run db).2 := by
  have h := run_storeInvariant authorExcluded_rowInvariant op db ⟨hpk, hinv⟩ (by
    intro now rnd prID prName authorID pr db' hok
    obtain ⟨_, author, chosen, _, hperm, hpr, _⟩ := createPullRequest_ok_inv hok
    rw [hpr]
    intro hmem
    simp only [List.mem_map] at hmem
    obtain ⟨user, huser, hid⟩ := hmem
    have helig := hperm.subset (List.mem_of_mem_take huser)
    simp only [eligibleUsers, List.mem_filter, Bool.and_eq_true, decide_eq_true_eq] at helig
    exact helig.2.2 hid)
  exact ⟨h.2, h.1⟩

theorem authorExcluded_invariant_witness :
    UniquePullRequestIDs sampleDB ∧ AuthorExcluded sampleDB ∧
      AuthorExcluded ((Op.ReassignReviewer [7] "p1" "B").run
        ((Op.CreatePullRequest 5 [1, 0] "p3" "docs" "D").run sampleDB).2).2 :=
  ⟨by decide, by decide,
    (authorExcluded_invariant (Op.ReassignReviewer [7] "p1" "B") _
      (authorExcluded_invariant (Op.CreatePullRequest 5 [1, 0] "p3" "docs" "D") sampleDB
        (by decide) (by decide)).2
      (authorExcluded_invariant (Op.CreatePullRequest 5 [1, 0] "p3" "docs" "D") sampleDB
        (by decide) (by decide)).1).1⟩

/-- C2: on a store whose pull request ids are unique (the primary key), whose user
directory lists each user id at most once per team, and in which every pull request has
no repeated reviewer id and at most 2 reviewers, the same bound holds for every stored
pull request after any CreatePullRequest, MergePullRequest, ReassignReviewer or
DeactivateTeamMembers (successful or not); the primary key is kept as well. -/
theorem reviewersBounded_invariant (op : Op) (db : DB) (hpk : UniquePullRequestIDs db)
    (husers : UniqueUserIDsPerTeam db) (hinv : ReviewersBounded db) :
    ReviewersBounded (op.run db).2 ∧ UniquePullRequestIDs (op.run db).2 := by
  have h := run_storeInvariant reviewersBounded_rowInvariant op db ⟨hpk, hinv⟩ (by
    intro now rnd prID prName authorID pr db' hok
    obtain ⟨_, author, chosen, _, hperm, hpr, _⟩ := createPullRequest_ok_inv hok
    rw [hpr]
    refine ⟨?_, by simp [List.length_take]⟩
    have hsub : (eligibleUsers db author.TeamName authorID).Sublist
        (db.users.filter (fun row => decide (row.TeamName = author.TeamName))) := by
      apply List.monotone_filter_right
      intro row hrow
      simp only [Bool.and_eq_true, decide_eq_true_eq] at hrow
      simpa using hrow.1.1
    have hnodup : ((eligibleUsers db author.TeamName authorID).map
        (fun row => row.UserID)).Nodup :=
      (husers author.TeamName).sublist (hsub.map _)
    have hchosen : (chosen.map (fun row => row.UserID)).Nodup :=
      (hperm.map _).nodup_iff.mpr hnodup
    exact hchosen.sublist ((List.take_sublist 2 chosen).map _))
  exact ⟨h.2, h.1⟩

theorem reviewersBounded_invariant_witness :
    UniquePullRequestIDs sampleDB ∧ UniqueUserIDsPerTeam sampleDB ∧ ReviewersBounded sampleDB ∧
      ReviewersBounded ((Op.DeactivateTeamMembers 8 [2] "eng").run sampleDB).2 :=
  ⟨by decide, by
      intro teamName
      have hsub : ((sampleDB.users.filter (fun row => decide (row.TeamName = teamName))).map
          (fun row => row.UserID)).Sublist (sampleDB.users.map (fun row => row.UserID)) :=
        (List.filter_sublist _).map _
      exact List.Nodup.sublist hsub (by decide),
    by decide,
    (reviewersBounded_invariant (Op.DeactivateTeamMembers 8 [2] "eng") sampleDB (by decide)
      (by
        intro teamName
        have hsub : ((sampleDB.users.filter (fun row => decide (row.TeamName = teamName))).map
            (fun row => row.UserID)).Sublist (sampleDB.users.map (fun row => row.UserID)) :=
          (List.filter_sublist _).map _
        exact List.Nodup.sublist hsub (by decide))
      (by decide)).1⟩

/-! ## Lemmas: the outcomes of ReassignReviewer -/

theorem findReviewerIndex_of_not_mem {userID : String} {reviewers : List String}
    (h : userID ∉ reviewers) : findReviewerIndex reviewers userID = none := by
  cases hidx : findReviewerIndex reviewers userID with
  | none => rfl
  | some i => exact absurd (List.getElem?_mem (findReviewerIndex_some hidx)) h

theorem findReviewerIndex_of_mem {userID : String} {reviewers : List String}
    (h : userID ∈ reviewers) : ∃ i, findReviewerIndex reviewers userID = some i := by
  cases hidx : findReviewerIndex reviewers userID with
  | none => exact absurd h (findReviewerIndex_none hidx)
  | some i => exact ⟨i, rfl⟩

theorem reassignReviewerTx_notAssigned {db : DB} {prID oldUserID : String} {pr : PullRequest}
    (rnd : Rand)
    (hget : Postgres.PullRequestRepository.GetByID prID db = Except.ok pr)
    (hopen : pr.Status = PRStatus.OPEN) (hnot : oldUserID ∉ pr.AssignedReviewers) :
    prUseCase.reassignReviewerTx rnd prID oldUserID db =
      (Except.error
        (NewDomainError "NOT_ASSIGNED" "reviewer is not assigned to this PR" ErrNotAssigned), db) := by
  have hget2 : prUseCase.prRepo.GetByID prID db = Except.ok pr := hget
  have hne : ¬ pr.Status = PRStatus.MERGED := by rw [hopen]; decide
  simp only [PullRequestUseCase.reassignReviewerTx, hget2, hne, if_false,
    findReviewerIndex_of_not_mem hnot]

theorem reassignReviewerTx_noUser {db : DB} {prID oldUserID : String} {pr : PullRequest}
    (rnd : Rand)
    (hget : Postgres.PullRequestRepository.GetByID prID db = Except.ok pr)
    (hopen : pr.Status = PRStatus.OPEN) (hmem : oldUserID ∈ pr.AssignedReviewers)
    (hnone : ∀ row ∈ db.users, row.UserID ≠ oldUserID) :
    prUseCase.reassignReviewerTx rnd prID oldUserID db =
      (Except.error (NewDomainError "NOT_FOUND" "old reviewer not found" ErrNotFound), db) := by
  have hget2 : prUseCase.prRepo.GetByID prID db = Except.ok pr := hget
  have hne : ¬ pr.Status = PRStatus.MERGED := by rw [hopen]; decide
  obtain ⟨i, hidx⟩ := findReviewerIndex_of_mem hmem
  have hold : prUseCase.userRepo.GetByID oldUserID db = Except.error ErrNotFound :=
    userGetByID_none hnone
  have his : GoError.Is ErrNotFound ErrNotFound = true := by decide
  simp only [PullRequestUseCase.reassignReviewerTx, hget2, hne, if_false, hidx, hold, his,
    if_true]

/-- The two outcomes of the function ReassignReviewer runs in its transaction once the pull
request is OPEN, oldUserID is assigned at index i and resolves to a user: NO_CANDIDATE
when the candidate filter leaves nobody, otherwise the update of slot i with a candidate
the filter kept. -/
theorem reassignReviewerTx_open {db : DB} {prID oldUserID : String} {pr : PullRequest}
    {i : Nat} {oldReviewer : User} {users : List User} (rnd : Rand)
    (hget : Postgres.PullRequestRepository.GetByID prID db = Except.ok pr)
    (hopen : pr.Status = PRStatus.OPEN)
    (hidx : findReviewerIndex pr.AssignedReviewers oldUserID = some i)
    (hold : Postgres.UserRepository.GetByID oldUserID db = Except.ok oldReviewer)
    (husers : Postgres.UserRepository.GetActiveByTeam oldReviewer.TeamName db = Except.ok users) :
    (filterCandidates users pr = [] ∧
      prUseCase.reassignReviewerTx rnd prID oldUserID db =
        (Except.error
          (NewDomainError "NO_CANDIDATE" "no active replacement candidate in team"
            ErrNoCandidate), db)) ∨
    (∃ c ∈ filterCandidates users pr,
      prUseCase.reassignReviewerTx rnd prID oldUserID db =
        (Except.ok
            ({ pr with AssignedReviewers := pr.AssignedReviewers.set i c.UserID }, c.UserID),
          { db with
            pullRequests :=
              Postgres.updatedRows
                { pr with AssignedReviewers := pr.AssignedReviewers.set i c.UserID }
                db.pullRequests,
            journal := db.journal ++
              [Write.pullRequestUpdate
                { pr with AssignedReviewers := pr.AssignedReviewers.set i c.UserID }] })) := by
  have hget2 : prUseCase.prRepo.GetByID prID db = Except.ok pr := hget
  have hne : ¬ pr.Status = PRStatus.MERGED := by rw [hopen]; decide
  have hold2 : prUseCase.userRepo.GetByID oldUserID db = Except.ok oldReviewer := hold
  have husers2 : prUseCase.userRepo.GetActiveByTeam oldReviewer.TeamName db = Except.ok users :=
    husers
  have hid := (getByID_mem hget).2
  by_cases hlen : (filterCandidates users pr).length = 0
  · left
    refine ⟨List.length_eq_zero.mp hlen, ?_⟩
    simp only [PullRequestUseCase.reassignReviewerTx, hget2, hne, if_false, hidx, hold2, husers2,
      hlen, if_true]
  · right
    have hlt : (Intn rnd (filterCandidates users pr).length).1 < (filterCandidates users pr).length :=
      Intn_lt rnd _ (Nat.pos_of_ne_zero hlen)
    cases hc : (filterCandidates users pr)[(Intn rnd (filterCandidates users pr).length).1]? with
    | none =>
      have := List.getElem?_eq_none_iff.mp hc
      omega
    | some c =>
      refine ⟨c, List.getElem?_mem hc, ?_⟩
      have hget3 : Postgres.PullRequestRepository.GetByID
          ({ pr with AssignedReviewers := pr.AssignedReviewers.set i c.UserID } :
            PullRequest).PullRequestID db = Except.ok pr := by
        show Postgres.PullRequestRepository.GetByID pr.PullRequestID db = Except.ok pr
        rw [hid]; exact hget
      have hupd : prUseCase.prRepo.Update
          { pr with AssignedReviewers := pr.AssignedReviewers.set i c.UserID } db = _ :=
        update_of_getByID hget3
      simp only [PullRequestUseCase.reassignReviewerTx, hget2, hne, if_false, hidx, hold2,
        husers2, hlen, hc, hupd]

theorem reassignReviewer_of_tx_error {db s' : DB} {rnd : Rand} {prID oldUserID : String}
    {err : GoError}
    (h : prUseCase.reassignReviewerTx rnd prID oldUserID db = (Except.error err, s')) :
    prUseCase.ReassignReviewer rnd prID oldUserID db = ((Except.error err, ""), db) := by
  simp only [PullRequestUseCase.ReassignReviewer, runInTransaction_error h]

theorem reassignReviewer_of_tx_ok {db s' : DB} {rnd : Rand} {prID oldUserID : String}
    {r : PullRequest} {newID : String}
    (h : prUseCase.reassignReviewerTx rnd prID oldUserID db = (Except.ok (r, newID), s')) :
    prUseCase.ReassignReviewer rnd prID oldUserID db = ((Except.ok r, newID), s') := by
  simp only [PullRequestUseCase.ReassignReviewer, runInTransaction_ok h]

theorem userGetByID_cases (userID : String) (db : DB) :
    (∀ row ∈ db.users, row.UserID ≠ userID) ∨
      ∃ user, Postgres.UserRepository.GetByID userID db = Except.ok user := by
  by_cases h : ∃ row ∈ db.users, row.UserID = userID
  · right
    obtain ⟨row, hrow, hid⟩ := h
    unfold Postgres.UserRepository.GetByID
    cases hfind : db.users.find? (fun row => decide (row.UserID = userID)) with
    | none =>
      have := List.find?_eq_none.mp hfind row hrow
      simp [hid] at this
    | some found => exact ⟨found, rfl⟩
  · left
    intro row hrow hid
    exact h ⟨row, hrow, hid⟩

/-- A successful ReassignReviewer went through every check and updated slot i of the pull
request with a candidate kept by the filter. -/
theorem reassignReviewer_ok_inv {rnd : Rand} {prID oldUserID : String} {db db' : DB}
    {r : PullRequest} {newID : String}
    (h : prUseCase.ReassignReviewer rnd prID oldUserID db = ((Except.ok r, newID), db')) :
    ∃ (pr : PullRequest) (i : Nat) (oldReviewer : User) (users : List User) (c : User),
      Postgres.PullRequestRepository.GetByID prID db = Except.ok pr ∧
      pr.Status = PRStatus.OPEN ∧
      findReviewerIndex pr.AssignedReviewers oldUserID = some i ∧
      Postgres.UserRepository.GetByID oldUserID db = Except.ok oldReviewer ∧
      Postgres.UserRepository.GetActiveByTeam oldReviewer.TeamName db = Except.ok users ∧
      c ∈ filterCandidates users pr ∧
      r = { pr with AssignedReviewers := pr.AssignedReviewers.set i c.UserID } ∧
      newID = c.UserID ∧
      db' = { db with
              pullRequests := Postgres.updatedRows r db.pullRequests,
              journal := db.journal ++ [Write.pullRequestUpdate r] } := by
  rcases getByID_cases prID db with hnone | ⟨pr, hget⟩
  · rw [reassignReviewer_of_tx_error (reassignReviewerTx_notFound rnd oldUserID hnone)] at h
    simp at h
  · cases hstatus : pr.Status with
    | MERGED =>
      rw [reassignReviewer_of_tx_error (reassignReviewerTx_merged rnd oldUserID hget hstatus)] at h
      simp at h
    | OPEN =>
      by_cases hmem : oldUserID ∈ pr.AssignedReviewers
      · obtain ⟨i, hidx⟩ := findReviewerIndex_of_mem hmem
        rcases userGetByID_cases oldUserID db with hnouser | ⟨oldReviewer, hold⟩
        · rw [reassignReviewer_of_tx_error
            (reassignReviewerTx_noUser rnd hget hstatus hmem hnouser)] at h
          simp at h
        · obtain ⟨users, husers, _⟩ := getActiveByTeam_eq oldReviewer.TeamName db
          rcases reassignReviewerTx_open rnd hget hstatus hidx hold husers with
            ⟨_, htx⟩ | ⟨c, hc, htx⟩
          · rw [reassignReviewer_of_tx_error htx] at h
            simp at h
          · rw [reassignReviewer_of_tx_ok htx] at h
            simp only [Prod.mk.injEq, Except.ok.injEq] at h
            obtain ⟨⟨hr, hn⟩, hdb⟩ := h
            refine ⟨pr, i, oldReviewer, users, c, hget, hstatus, hidx, hold, husers, hc,
              hr.symm, hn.symm, ?_⟩
            rw [← hdb, ← hr]
      · rw [reassignReviewer_of_tx_error
          (reassignReviewerTx_notAssigned rnd hget hstatus hmem)] at h
        simp at h

theorem getByID_after_update {db : DB} {prID : String} {pr upd : PullRequest}
    (hget : Postgres.PullRequestRepository.GetByID prID db = Except.ok pr)
    (hid : upd.PullRequestID = prID) (hauthor : upd.AuthorID = pr.AuthorID)
    (hcreated : upd.CreatedAt = pr.CreatedAt) :
    Postgres.PullRequestRepository.GetByID prID
        { db with
          pullRequests := Postgres.updatedRows upd db.pullRequests,
          journal := db.journal ++ [Write.pullRequestUpdate upd] } = Except.ok upd := by
  have hpid := (getByID_mem hget).2
  unfold Postgres.PullRequestRepository.GetByID at hget ⊢
  cases hfind : db.pullRequests.find? (fun row => decide (row.PullRequestID = prID)) with
  | none => rw [hfind] at hget; cases hget
  | some found =>
    rw [hfind] at hget
    cases hget
    subst hid
    have h3 := find?_updatedRows_same upd db.pullRequests pr hfind
    simp only [h3]
    congr 1
    cases upd
    cases pr
    simp_all

theorem findReviewerIndex_first {userID : String} :
    ∀ {reviewers : List String} {i : Nat}, findReviewerIndex reviewers userID = some i →
      ∀ j, j < i → reviewers[j]? ≠ some userID := by
  intro reviewers
  induction reviewers with
  | nil => intro i h; simp [findReviewerIndex] at h
  | cons r rest ih =>
    intro i h j hj
    simp only [findReviewerIndex] at h
    by_cases hr : r = userID
    · simp only [hr, if_true, Option.some.injEq] at h
      omega
    · simp only [hr, if_false, Option.map_eq_some'] at h
      obtain ⟨k, hk, rfl⟩ := h
      cases j with
      | zero => simpa using hr
      | succ j =>
        simp only [List.getElem?_cons_succ]
        exact ih hk j (by omega)

theorem filterCandidates_eq_nil_iff {db : DB} {teamName : String} {users : List User}
    {pr : PullRequest}
    (husers : Postgres.UserRepository.GetActiveByTeam teamName db = Except.ok users) :
    filterCandidates users pr = [] ↔
      ∀ row ∈ db.users, row.TeamName = teamName → row.IsActive = true →
        row.UserID = pr.AuthorID ∨ row.UserID ∈ pr.AssignedReviewers := by
  obtain ⟨users2, husers2, hperm⟩ := getActiveByTeam_eq teamName db
  rw [husers] at husers2
  cases husers2
  constructor
  · intro hnil row hrow hteam hactive
    by_contra hnot
    simp only [not_or] at hnot
    have hmem : row ∈ filterCandidates users pr := by
      simp only [filterCandidates, List.mem_filter, Bool.and_eq_true, decide_eq_true_eq]
      refine ⟨hperm.symm.subset ?_, hnot.1, hnot.2⟩
      simp only [List.mem_filter, Bool.and_eq_true, decide_eq_true_eq]
      exact ⟨hrow, hteam, hactive⟩
    rw [hnil] at hmem
    cases hmem
  · intro hall
    apply List.eq_nil_iff_forall_not_mem.mpr
    intro c hc
    obtain ⟨hcu, hca, hcr⟩ := mem_filterCandidates hc
    have hcdb := hperm.subset hcu
    simp only [List.mem_filter, Bool.and_eq_true, decide_eq_true_eq] at hcdb
    rcases hall c hcdb.1 hcdb.2.1 hcdb.2.2 with h1 | h1
    · exact hca h1
    · exact hcr h1

/-! ## Claims on ReassignReviewer -/

/-- C11: for a stored pull request that is OPEN and every oldUserID that is not in its
reviewer list (the author's id and ids of no user included), ReassignReviewer fails with
the domain error NOT_ASSIGNED; the function run in the transaction makes no write call and
the store is unchanged. -/
theorem reassignReviewer_notAssigned (rnd : Rand) (prID oldUserID : String) (db : DB)
    (pr : PullRequest)
    (hget : Postgres.PullRequestRepository.GetByID prID db = Except.ok pr)
    (hopen : pr.Status = PRStatus.OPEN) (hnot : oldUserID ∉ pr.AssignedReviewers) :
    prUseCase.reassignReviewerTx rnd prID oldUserID db =
        (Except.error
          (NewDomainError "NOT_ASSIGNED" "reviewer is not assigned to this PR" ErrNotAssigned),
          db) ∧
      prUseCase.ReassignReviewer rnd prID oldUserID db =
        ((Except.error
          (NewDomainError "NOT_ASSIGNED" "reviewer is not assigned to this PR" ErrNotAssigned),
          ""), db) ∧
      (NewDomainError "NOT_ASSIGNED" "reviewer is not assigned to this PR" ErrNotAssigned).code? =
        some "NOT_ASSIGNED" :=
  ⟨reassignReviewerTx_notAssigned rnd hget hopen hnot,
    reassignReviewer_of_tx_error (reassignReviewerTx_notAssigned rnd hget hopen hnot), rfl⟩

theorem reassignReviewer_notAssigned_witness :
    Postgres.PullRequestRepository.GetByID "p1" sampleDB =
        Except.ok ⟨"p1", "feature", "A", PRStatus.OPEN, ["B", "C"], 1, none⟩ ∧
      prUseCase.ReassignReviewer [3] "p1" "A" sampleDB =
        ((Except.error
          (NewDomainError "NOT_ASSIGNED" "reviewer is not assigned to this PR" ErrNotAssigned),
          ""), sampleDB) ∧
      prUseCase.ReassignReviewer [3] "p1" "ghost" sampleDB =
        ((Except.error
          (NewDomainError "NOT_ASSIGNED" "reviewer is not assigned to this PR" ErrNotAssigned),
          ""), sampleDB) :=
  ⟨by decide,
    (reassignReviewer_notAssigned [3] "p1" "A" sampleDB
      ⟨"p1", "feature", "A", PRStatus.OPEN, ["B", "C"], 1, none⟩
      (by decide) (by decide) (by decide)).2.1,
    (reassignReviewer_notAssigned [3] "p1" "ghost" sampleDB
      ⟨"p1", "feature", "A", PRStatus.OPEN, ["B", "C"], 1, none⟩
      (by decide) (by decide) (by decide)).2.1⟩

/-- C12: after a successful ReassignReviewer on a pull request pr with reviewer list R,
oldUserID sits in R at an index i (the first such index, the only one when R has no
repetition); the returned record has a reviewer list of the length of R that holds the
returned new reviewer id at index i and agrees with R at every other index; its id, name,
author, status, creation and merge time are those of pr; and it is the record GetByID
reads back from the store after the call. -/
theorem reassignReviewer_position (rnd : Rand) (prID oldUserID : String) (db db' : DB)
    (r : PullRequest) (newID : String)
    (h : prUseCase.ReassignReviewer rnd prID oldUserID db = ((Except.ok r, newID), db')) :
    ∃ (pr : PullRequest) (i : Nat),
      Postgres.PullRequestRepository.GetByID prID db = Except.ok pr ∧
      pr.AssignedReviewers[i]? = some oldUserID ∧
      (∀ j, j < i → pr.AssignedReviewers[j]? ≠ some oldUserID) ∧
      (pr.AssignedReviewers.Nodup → ∀ j, pr.AssignedReviewers[j]? = some oldUserID → j = i) ∧
      r.AssignedReviewers.length = pr.AssignedReviewers.length ∧
      r.AssignedReviewers[i]? = some newID ∧
      (∀ j, j ≠ i → r.AssignedReviewers[j]? = pr.AssignedReviewers[j]?) ∧
      r.PullRequestID = pr.PullRequestID ∧ r.PullRequestName = pr.PullRequestName ∧
      r.AuthorID = pr.AuthorID ∧ r.Status = pr.Status ∧ r.CreatedAt = pr.CreatedAt ∧
      r.MergedAt = pr.MergedAt ∧
      Postgres.PullRequestRepository.GetByID prID db' = Except.ok r := by
  obtain ⟨pr, i, oldReviewer, users, c, hget, _, hidx, _, _, _, hr, hn, hdb⟩ :=
    reassignReviewer_ok_inv h
  have hat := findReviewerIndex_some hidx
  have hlt := findReviewerIndex_lt hidx
  have hid := (getByID_mem hget).2
  refine ⟨pr, i, hget, hat, findReviewerIndex_first hidx, ?_, ?_, ?_, ?_, ?_, ?_, ?_, ?_, ?_,
    ?_, ?_⟩
  · intro hnodup j hj
    exact (List.getElem?_inj hlt hnodup (hat.trans hj.symm)).symm
  · rw [hr]; simp
  · rw [hr, hn]; simp [List.getElem?_set_self hlt]
  · intro j hj
    rw [hr]
    simp [List.getElem?_set_ne (Ne.symm hj)]
  · rw [hr]
  · rw [hr]
  · rw [hr]
  · rw [hr]
  · rw [hr]
  · rw [hr]
  · rw [hdb]
    exact getByID_after_update hget (by rw [hr]; exact hid) (by rw [hr]) (by rw [hr])

theorem reassignReviewer_position_witness :
    prUseCase.ReassignReviewer [7] "p1" "B" spareDB =
        ((Except.ok ⟨"p1", "feature", "A", PRStatus.OPEN, ["F", "C"], 1, none⟩, "F"),
          (prUseCase.ReassignReviewer [7] "p1" "B" spareDB).2) ∧
      ∃ (pr : PullRequest) (i : Nat),
        Postgres.PullRequestRepository.GetByID "p1" spareDB = Except.ok pr ∧
        pr.AssignedReviewers[i]? = some "B" ∧
        (∀ j, j < i → pr.AssignedReviewers[j]? ≠ some "B") ∧
        (pr.AssignedReviewers.Nodup → ∀ j, pr.AssignedReviewers[j]? = some "B" → j = i) ∧
        (["F", "C"] : List String).length = pr.AssignedReviewers.length ∧
        (["F", "C"] : List String)[i]? = some "F" ∧
        (∀ j, j ≠ i → (["F", "C"] : List String)[j]? = pr.AssignedReviewers[j]?) ∧
        "p1" = pr.PullRequestID ∧ "feature" = pr.PullRequestName ∧
        "A" = pr.AuthorID ∧ PRStatus.OPEN = pr.Status ∧ 1 = pr.CreatedAt ∧
        none = pr.MergedAt ∧
        Postgres.PullRequestRepository.GetByID "p1"
            (prUseCase.ReassignReviewer [7] "p1" "B" spareDB).2 =
          Except.ok ⟨"p1", "feature", "A", PRStatus.OPEN, ["F", "C"], 1, none⟩ :=
  ⟨by decide,
    reassignReviewer_position [7] "p1" "B" spareDB
      (prUseCase.ReassignReviewer [7] "p1" "B" spareDB).2
      ⟨"p1", "feature", "A", PRStatus.OPEN, ["F", "C"], 1, none⟩ "F" (by decide)⟩

/-- C13: after a successful ReassignReviewer the returned new reviewer id is the id of a
user that GetActiveByTeam reports for the team of the replaced reviewer (a users row of
that team with the active flag set); it differs from the author of the pull request, from
every reviewer assigned before the call and so from oldUserID; and when the reviewer list
had no repetition, oldUserID no longer appears in the returned reviewer list. -/
theorem reassignReviewer_new_reviewer (rnd : Rand) (prID oldUserID : String) (db db' : DB)
    (r : PullRequest) (newID : String)
    (h : prUseCase.ReassignReviewer rnd prID oldUserID db = ((Except.ok r, newID), db')) :
    ∃ (pr : PullRequest) (oldReviewer : User) (users : List User),
      Postgres.PullRequestRepository.GetByID prID db = Except.ok pr ∧
      Postgres.UserRepository.GetByID oldUserID db = Except.ok oldReviewer ∧
      Postgres.UserRepository.GetActiveByTeam oldReviewer.TeamName db = Except.ok users ∧
      (∃ c ∈ users, c.UserID = newID ∧ c ∈ db.users ∧ c.TeamName = oldReviewer.TeamName ∧
        c.IsActive = true) ∧
      newID ≠ pr.AuthorID ∧
      (∀ reviewerID ∈ pr.AssignedReviewers, newID ≠ reviewerID) ∧
      newID ≠ oldUserID ∧
      (pr.AssignedReviewers.Nodup → oldUserID ∉ r.AssignedReviewers) := by
  obtain ⟨pr, i, oldReviewer, users, c, hget, _, hidx, hold, husers, hc, hr, hn, _⟩ :=
    reassignReviewer_ok_inv h
  obtain ⟨hcu, hca, hcr⟩ := mem_filterCandidates hc
  obtain ⟨users2, husers2, hperm⟩ := getActiveByTeam_eq oldReviewer.TeamName db
  rw [husers] at husers2
  cases husers2
  have hcdb := hperm.subset hcu
  simp only [List.mem_filter, Bool.and_eq_true, decide_eq_true_eq] at hcdb
  have hat := findReviewerIndex_some hidx
  have hlt := findReviewerIndex_lt hidx
  have holdmem : oldUserID ∈ pr.AssignedReviewers := List.getElem?_mem hat
  have hne : newID ≠ oldUserID := by
    intro e
    rw [hn] at e
    exact hcr (e ▸ holdmem)
  refine ⟨pr, oldReviewer, users, hget, hold, husers,
    ⟨c, hcu, hn.symm, hcdb.1, hcdb.2.1, hcdb.2.2⟩, hn ▸ hca, ?_, hne, ?_⟩
  · intro reviewerID hmem e
    rw [hn] at e
    exact hcr (e ▸ hmem)
  · intro hnodup hmem
    rw [hr] at hmem
    obtain ⟨j, hj⟩ := List.mem_iff_getElem?.mp hmem
    by_cases hji : j = i
    · subst hji
      simp only [List.getElem?_set_self hlt, Option.some.injEq] at hj
      exact hne (hn.trans hj)
    · simp only [List.getElem?_set_ne (Ne.symm hji)] at hj
      exact hji (List.getElem?_inj hlt hnodup (hat.trans hj.symm)).symm

theorem reassignReviewer_new_reviewer_witness :
    prUseCase.ReassignReviewer [7] "p1" "B" spareDB =
        ((Except.ok ⟨"p1", "feature", "A", PRStatus.OPEN, ["F", "C"], 1, none⟩, "F"),
          (prUseCase.ReassignReviewer [7] "p1" "B" spareDB).2) ∧
      ∃ (pr : PullRequest) (oldReviewer : User) (users : List User),
        Postgres.PullRequestRepository.GetByID "p1" spareDB = Except.ok pr ∧
        Postgres.UserRepository.GetByID "B" spareDB = Except.ok oldReviewer ∧
        Postgres.UserRepository.GetActiveByTeam oldReviewer.TeamName spareDB = Except.ok users ∧
        (∃ c ∈ users, c.UserID = "F" ∧ c ∈ spareDB.users ∧ c.TeamName = oldReviewer.TeamName ∧
          c.IsActive = true) ∧
        "F" ≠ pr.AuthorID ∧
        (∀ reviewerID ∈ pr.AssignedReviewers, "F" ≠ reviewerID) ∧
        "F" ≠ "B" ∧
        (pr.AssignedReviewers.Nodup → "B" ∉ (["F", "C"] : List String)) :=
  ⟨by decide,
    reassignReviewer_new_reviewer [7] "p1" "B" spareDB
      (prUseCase.ReassignReviewer [7] "p1" "B" spareDB).2
      ⟨"p1", "feature", "A", PRStatus.OPEN, ["F", "C"], 1, none⟩ "F" (by decide)⟩

/-- C14: for a stored pull request that is OPEN, with oldUserID in its reviewer list and
resolving to a user (the in-memory store raises no store error): ReassignReviewer fails
with NO_CANDIDATE exactly when every active member of the replaced reviewer's team is the
author of the pull request or one of its assigned reviewers; in that case no write call is
made and the store is unchanged; otherwise the call succeeds. -/
theorem reassignReviewer_noCandidate_iff (rnd : Rand) (prID oldUserID : String) (db : DB)
    (pr : PullRequest) (oldReviewer : User)
    (hget : Postgres.PullRequestRepository.GetByID prID db = Except.ok pr)
    (hopen : pr.Status = PRStatus.OPEN) (hmem : oldUserID ∈ pr.AssignedReviewers)
    (hold : Postgres.UserRepository.GetByID oldUserID db = Except.ok oldReviewer) :
    ((prUseCase.ReassignReviewer rnd prID oldUserID db).1.1 =
        Except.error
          (NewDomainError "NO_CANDIDATE" "no active replacement candidate in team"
            ErrNoCandidate) ↔
      ∀ row ∈ db.users, row.TeamName = oldReviewer.TeamName → row.IsActive = true →
        row.UserID = pr.AuthorID ∨ row.UserID ∈ pr.AssignedReviewers) ∧
    ((∀ row ∈ db.users, row.TeamName = oldReviewer.TeamName → row.IsActive = true →
        row.UserID = pr.AuthorID ∨ row.UserID ∈ pr.AssignedReviewers) →
      prUseCase.reassignReviewerTx rnd prID oldUserID db =
          (Except.error
            (NewDomainError "NO_CANDIDATE" "no active replacement candidate in team"
              ErrNoCandidate), db) ∧
        prUseCase.ReassignReviewer rnd prID oldUserID db =
          ((Except.error
            (NewDomainError "NO_CANDIDATE" "no active replacement candidate in team"
              ErrNoCandidate), ""), db)) ∧
    (¬ (∀ row ∈ db.users, row.TeamName = oldReviewer.TeamName → row.IsActive = true →
        row.UserID = pr.AuthorID ∨ row.UserID ∈ pr.AssignedReviewers) →
      ∃ r newID db',
        prUseCase.ReassignReviewer rnd prID oldUserID db = ((Except.ok r, newID), db')) := by
  obtain ⟨i, hidx⟩ := findReviewerIndex_of_mem hmem
  obtain ⟨users, husers, _⟩ := getActiveByTeam_eq oldReviewer.TeamName db
  have hiff := @filterCandidates_eq_nil_iff db oldReviewer.TeamName users pr husers
  rcases reassignReviewerTx_open rnd hget hopen hidx hold husers with
    ⟨hnil, htx⟩ | ⟨c, hc, htx⟩
  · have hall := hiff.mp hnil
    have hres := reassignReviewer_of_tx_error htx
    refine ⟨⟨fun _ => hall, fun _ => by rw [hres]⟩, fun _ => ⟨htx, hres⟩,
      fun hn => absurd hall hn⟩
  · have hnot : ¬ (∀ row ∈ db.users, row.TeamName = oldReviewer.TeamName →
        row.IsActive = true → row.UserID = pr.AuthorID ∨ row.UserID ∈ pr.AssignedReviewers) := by
      intro hall
      have hnil := hiff.mpr hall
      rw [hnil] at hc
      cases hc
    have hres := reassignReviewer_of_tx_ok htx
    refine ⟨⟨fun hfail => ?_, fun hall => absurd hall hnot⟩, fun hall => absurd hall hnot,
      fun _ => ⟨_, _, _, hres⟩⟩
    rw [hres] at hfail
    cases hfail

theorem reassignReviewer_noCandidate_iff_witness :
    (prUseCase.reassignReviewerTx [3] "p1" "B" sampleDB =
          (Except.error
            (NewDomainError "NO_CANDIDATE" "no active replacement candidate in team"
              ErrNoCandidate), sampleDB) ∧
        prUseCase.ReassignReviewer [3] "p1" "B" sampleDB =
          ((Except.error
            (NewDomainError "NO_CANDIDATE" "no active replacement candidate in team"
              ErrNoCandidate), ""), sampleDB)) ∧
      ∃ r newID db', prUseCase.ReassignReviewer [3] "p1" "B" spareDB = ((Except.ok r, newID), db') :=
  ⟨(reassignReviewer_noCandidate_iff [3] "p1" "B" sampleDB
      ⟨"p1", "feature", "A", PRStatus.OPEN, ["B", "C"], 1, none⟩
      ⟨"B", "bob", "eng", true, 0, 0⟩ (by decide) (by decide) (by decide) (by decide)).2.1
      (by decide),
    (reassignReviewer_noCandidate_iff [3] "p1" "B" spareDB
      ⟨"p1", "feature", "A", PRStatus.OPEN, ["B", "C"], 1, none⟩
      ⟨"B", "bob", "eng", true, 0, 0⟩ (by decide) (by decide) (by decide) (by decide)).2.2
      (by decide)⟩

/-! ## Lemmas: step 3 of DeactivateTeamMembers -/

theorem userUpdate_of_unique {db : DB} {user upd : User} (hpk : UniqueUserIDs db)
    (hmem : user ∈ db.users) (hid : upd.UserID = user.UserID)
    (hcreated : upd.CreatedAt = user.CreatedAt) :
    Postgres.UserRepository.Update upd db =
      (Except.ok (),
        { db with
          users := db.users.map (fun row => if row = user then upd else row),
          journal := db.journal ++ [Write.userUpdate upd] }) := by
  have hany : db.users.any (fun row => decide (row.UserID = upd.UserID)) = true := by
    simp only [List.any_eq_true, decide_eq_true_eq]
    exact ⟨user, hmem, hid.symm⟩
  simp only [Postgres.UserRepository.Update, hany, if_true]
  congr 2
  apply List.map_congr_left
  intro row hrow
  by_cases h : row.UserID = upd.UserID
  · have hru : row = user := List.inj_on_of_nodup_map hpk hrow hmem (h.trans hid)
    subst hru
    simp only [h, if_true]
    cases upd
    cases row
    simp_all
  · have hne : ¬ row = user := by
      intro e
      rw [e] at h
      exact h hid.symm
    simp only [h, hne, if_false]

theorem deactivateUsers_spec (f : Faults) (now : Time) :
    ∀ (users : List User) (ids : List String) (db : DB),
      UniqueUserIDs db → (users.map (fun row => row.UserID)).Nodup →
      (∀ user ∈ users, user ∈ db.users) →
      ∃ db',
        (faultyTeamUseCase f).deactivateUsers now users ids db =
          (Except.ok (ids ++ (users.filter (fun row => row.IsActive)).map
            (fun row => row.UserID)), db') ∧
        db'.users = db.users.map (fun row =>
          if row ∈ users ∧ row.IsActive = true then
            { row with IsActive := false, UpdatedAt := now }
          else row) ∧
        db'.pullRequests = db.pullRequests ∧ db'.teams = db.teams := by
  intro users
  induction users with
  | nil =>
    intro ids db _ _ _
    refine ⟨db, by simp [TeamUseCase.deactivateUsers], ?_, rfl, rfl⟩
    simp
  | cons user rest ih =>
    intro ids db hpk hnodup hsub
    have huser : user ∈ db.users := hsub user (List.mem_cons_self _ _)
    have hnodup2 := List.nodup_cons.mp hnodup
    by_cases hact : user.IsActive = true
    · have hupd : (faultyTeamUseCase f).userRepo.Update
          { user with IsActive := false, UpdatedAt := now } db = _ :=
        userUpdate_of_unique hpk huser rfl rfl
      have hpk1 : UniqueUserIDs
          { db with
            users := db.users.map (fun row =>
              if row = user then { user with IsActive := false, UpdatedAt := now } else row),
            journal := db.journal ++
              [Write.userUpdate { user with IsActive := false, UpdatedAt := now }] } := by
        unfold UniqueUserIDs
        simp only [List.map_map]
        have : (db.users.map ((fun row => row.UserID) ∘ fun row =>
            if row = user then { user with IsActive := false, UpdatedAt := now } else row)) =
            db.users.map (fun row => row.UserID) := by
          apply List.map_congr_left
          intro row _
          simp only [Function.comp]
          split
          · next e => rw [e]
          · rfl
        rw [this]
        exact hpk
      have hsub1 : ∀ u ∈ rest, u ∈
          ({ db with
            users := db.users.map (fun row =>
              if row = user then { user with IsActive := false, UpdatedAt := now } else row),
            journal := db.journal ++
              [Write.userUpdate { user with IsActive := false, UpdatedAt := now }] } : DB).users := by
        intro u hu
        simp only [List.mem_map]
        refine ⟨u, hsub u (List.mem_cons_of_mem _ hu), ?_⟩
        have hne : ¬ u = user := by
          intro e
          apply hnodup2.1
          rw [← e]
          exact List.mem_map_of_mem _ hu
        simp only [hne, if_false]
      obtain ⟨db', hrun, husers, hprs, hteams⟩ := ih (ids ++ [user.UserID]) _ hpk1 hnodup2.2 hsub1
      refine ⟨db', ?_, ?_, hprs, hteams⟩
      · simp only [TeamUseCase.deactivateUsers, hact, if_true, hupd, hrun]
        simp [List.filter_cons, hact]
      · rw [husers]
        simp only [List.map_map]
        apply List.map_congr_left
        intro row hrow
        simp only [Function.comp]
        by_cases hru : row = user
        · subst hru
          simp [hact]
        · simp only [hru, if_false, List.mem_cons, false_or]
    · obtain ⟨db', hrun, husers, hprs, hteams⟩ :=
        ih ids db hpk hnodup2.2 (fun u hu => hsub u (List.mem_cons_of_mem _ hu))
      refine ⟨db', ?_, ?_, hprs, hteams⟩
      · simp only [TeamUseCase.deactivateUsers, hact, hrun]
        simp [List.filter_cons, hact]
      · rw [husers]
        apply List.map_congr_left
        intro row hrow
        by_cases hru : row = user
        · subst hru
          simp [hact]
        · simp only [hru, List.mem_cons, false_or]

theorem orderByUsername_perm (rows : List User) : (Postgres.orderByUsername rows).Perm rows :=
  List.perm_insertionSort _ _

theorem deactivateUsers_team (f : Faults) (now : Time) (teamName : String) (db : DB)
    (hpk : UniqueUserIDs db) :
    ∃ db1,
      (faultyTeamUseCase f).deactivateUsers now
          (Postgres.orderByUsername (db.users.filter (fun row => decide (row.TeamName = teamName))))
          [] db =
        (Except.ok (activeMemberIDs db teamName), db1) ∧
      db1.users = db.users.map (deactivatedRow teamName now) ∧
      db1.pullRequests = db.pullRequests ∧ db1.teams = db.teams := by
  have hperm := orderByUsername_perm (db.users.filter (fun row => decide (row.TeamName = teamName)))
  have hmem : ∀ row, row ∈ Postgres.orderByUsername
      (db.users.filter (fun row => decide (row.TeamName = teamName))) ↔
      row ∈ db.users ∧ row.TeamName = teamName := by
    intro row
    rw [hperm.mem_iff]
    simp [List.mem_filter]
  have hnodup : ((Postgres.orderByUsername
      (db.users.filter (fun row => decide (row.TeamName = teamName)))).map
        (fun row => row.UserID)).Nodup := by
    apply (hperm.map _).nodup_iff.mpr
    exact List.Nodup.sublist ((List.filter_sublist _).map _) hpk
  obtain ⟨db1, hrun, husers, hprs, hteams⟩ :=
    deactivateUsers_spec f now _ [] db hpk hnodup (fun u hu => ((hmem u).mp hu).1)
  refine ⟨db1, ?_, ?_, hprs, hteams⟩
  · rw [hrun]
    simp [activeMemberIDs]
  · rw [husers]
    apply List.map_congr_left
    intro row hrow
    simp only [deactivatedRow, hmem row, hrow, true_and]

theorem activeMemberIDs_nodup {db : DB} (teamName : String) (hpk : UniqueUserIDs db) :
    (activeMemberIDs db teamName).Nodup := by
  unfold activeMemberIDs
  have hperm := orderByUsername_perm (db.users.filter (fun row => decide (row.TeamName = teamName)))
  have h1 : ((Postgres.orderByUsername
      (db.users.filter (fun row => decide (row.TeamName = teamName)))).map
        (fun row => row.UserID)).Nodup := by
    apply (hperm.map _).nodup_iff.mpr
    exact List.Nodup.sublist ((List.filter_sublist _).map _) hpk
  exact List.Nodup.sublist ((List.filter_sublist _).map _) h1

theorem mem_activeMemberIDs {db : DB} {teamName userID : String} :
    userID ∈ activeMemberIDs db teamName ↔
      ∃ row ∈ db.users, row.TeamName = teamName ∧ row.IsActive = true ∧ row.UserID = userID := by
  unfold activeMemberIDs
  have hperm := orderByUsername_perm (db.users.filter (fun row => decide (row.TeamName = teamName)))
  simp only [List.mem_map, List.mem_filter, hperm.mem_iff, decide_eq_true_eq]
  constructor
  · rintro ⟨row, ⟨⟨hrow, hteam⟩, hact⟩, hid⟩
    exact ⟨row, hrow, hteam, hact, hid⟩
  · rintro ⟨row, hrow, hteam, hact, hid⟩
    exact ⟨row, ⟨⟨hrow, hteam⟩, hact⟩, hid⟩

theorem activeMemberIDs_perm (db : DB) (teamName : String) :
    (activeMemberIDs db teamName).Perm
      ((db.users.filter (fun row => decide (row.TeamName = teamName) && row.IsActive)).map
        (fun row => row.UserID)) := by
  unfold activeMemberIDs
  have hperm := orderByUsername_perm (db.users.filter (fun row => decide (row.TeamName = teamName)))
  have h1 := (hperm.filter (fun row => row.IsActive)).map (fun row => row.UserID)
  simpa [List.filter_filter, Bool.and_comm] using h1

theorem userGetByID_map {g : User → User} (hg : ∀ row, (g row).UserID = row.UserID)
    (userID : String) (db db1 : DB) (husers : db1.users = db.users.map g) :
    Postgres.UserRepository.GetByID userID db1 =
      (Postgres.UserRepository.GetByID userID db).map g := by
  unfold Postgres.UserRepository.GetByID
  rw [husers, List.find?_map]
  have : ((fun row => decide (row.UserID = userID)) ∘ g) =
      (fun row => decide (row.UserID = userID)) := by
    funext row
    simp [Function.comp, hg row]
  rw [this]
  cases db.users.find? (fun row => decide (row.UserID = userID)) <;> rfl

theorem deactivatedRow_userID (teamName : String) (now : Time) (row : User) :
    (deactivatedRow teamName now row).UserID = row.UserID := by
  unfold deactivatedRow
  split <;> rfl

theorem deactivatedRow_teamName (teamName : String) (now : Time) (row : User) :
    (deactivatedRow teamName now row).TeamName = row.TeamName := by
  unfold deactivatedRow
  split <;> rfl

/-- After step 3 every deactivated id resolves to a member of the team and no member of
the team is active. -/
theorem quiet_after_deactivation {db db1 : DB} {teamName : String} {now : Time}
    (hpk : UniqueUserIDs db) (husers : db1.users = db.users.map (deactivatedRow teamName now)) :
    (∀ userID ∈ activeMemberIDs db teamName,
      ∃ old, Postgres.UserRepository.GetByID userID db1 = Except.ok old ∧
        old.TeamName = teamName) ∧
    (∀ row ∈ db1.users, row.TeamName = teamName → row.IsActive = false) := by
  constructor
  · intro userID hmem
    obtain ⟨row, hrow, hteam, _, hid⟩ := mem_activeMemberIDs.mp hmem
    rw [userGetByID_map (deactivatedRow_userID teamName now) userID db db1 husers]
    rcases userGetByID_cases userID db with hnone | ⟨found, hfound⟩
    · exact absurd hid (hnone row hrow)
    · have hf := userGetByID_mem hfound
      have heq : found = row := List.inj_on_of_nodup_map hpk hf.1 hrow (hf.2.trans hid.symm)
      rw [hfound]
      refine ⟨deactivatedRow teamName now found, rfl, ?_⟩
      rw [deactivatedRow_teamName, heq, hteam]
  · intro row hrow hteam
    rw [husers] at hrow
    simp only [List.mem_map] at hrow
    obtain ⟨row0, _, rfl⟩ := hrow
    rw [deactivatedRow_teamName] at hteam
    unfold deactivatedRow
    by_cases hact : row0.IsActive = true
    · simp [hteam, hact]
    · simp only [hteam, hact, and_false, if_false]
      simpa using hact

/-! ## Lemmas: step 4 of DeactivateTeamMembers -/

theorem getByReviewer_perm {db : DB} (userID : String) (hpk : UniquePullRequestIDs db) :
    ∃ prs, Postgres.PullRequestRepository.GetByReviewer userID db = Except.ok prs ∧
      prs.Perm ((db.pullRequests.filter
        (fun row => decide (userID ∈ row.AssignedReviewers))).map
          (fun row => (Postgres.shortColumns row).1)) := by
  refine ⟨_, rfl, ?_⟩
  have hnodup : ((db.pullRequests.filter
      (fun row => decide (userID ∈ row.AssignedReviewers))).map Postgres.shortColumns).Nodup := by
    apply List.Nodup.of_map (fun x => x.1.PullRequestID)
    rw [List.map_map]
    exact List.Nodup.sublist ((List.filter_sublist _).map _) hpk
  rw [hnodup.dedup]
  have h1 := (List.perm_insertionSort (fun a b : PullRequestShort × Time => b.2 ≤ a.2)
    ((db.pullRequests.filter
      (fun row => decide (userID ∈ row.AssignedReviewers))).map Postgres.shortColumns)).map
        Prod.fst
  rw [List.map_map] at h1
  exact h1

theorem erase_of_findReviewerIndex {userID : String} :
    ∀ {reviewers : List String} {i : Nat}, findReviewerIndex reviewers userID = some i →
      reviewers.take i ++ reviewers.drop (i + 1) = reviewers.erase userID := by
  intro reviewers
  induction reviewers with
  | nil => intro i h; simp [findReviewerIndex] at h
  | cons r rest ih =>
    intro i h
    simp only [findReviewerIndex] at h
    by_cases hr : r = userID
    · simp only [hr, if_true, Option.some.injEq] at h
      subst h
      simp [hr]
    · simp only [hr, if_false, Option.map_eq_some'] at h
      obtain ⟨k, hk, rfl⟩ := h
      rw [List.erase_cons_tail (by simpa using hr)]
      simp only [List.take_succ_cons, List.drop_succ_cons, List.cons_append]
      rw [ih hk]

theorem getActiveByTeam_quiet {db : DB} {teamName : String}
    (hquiet : ∀ row ∈ db.users, row.TeamName = teamName → row.IsActive = false) :
    Postgres.UserRepository.GetActiveByTeam teamName db = Except.ok [] := by
  have hnil : db.users.filter (fun row => decide (row.TeamName = teamName) && row.IsActive) = [] := by
    apply List.filter_eq_nil_iff.mpr
    intro row hrow
    simp only [Bool.and_eq_true, decide_eq_true_eq, not_and, Bool.not_eq_true]
    exact hquiet row hrow
  simp only [Postgres.UserRepository.GetActiveByTeam, hnil]
  rfl

/-- Under a plan without failure of an INSERT, the faulty Update is the Update of the
postgres package unless the plan makes its UPDATE statement fail or, the row being there,
its DELETE statement. -/
theorem faultyUpdate_early {f : Faults} (hearly : f.early) (pr : PullRequest) (db : DB) :
    (faultyPullRequestRepository f).Update pr db =
      if f.updatePullRequest pr.PullRequestID then
        (Except.error (GoError.wrapf "failed to update pull request" driverError), db)
      else if !db.pullRequests.any (fun row => decide (row.PullRequestID = pr.PullRequestID)) then
        Postgres.PullRequestRepository.Update pr db
      else if f.deleteReviewers pr.PullRequestID then
        (Except.error (GoError.wrapf "failed to delete old reviewers" driverError),
          { db with
            pullRequests := Postgres.updatedColumns pr db.pullRequests,
            journal := db.journal ++ [Write.pullRequestUpdate pr] })
      else Postgres.PullRequestRepository.Update pr db := by
  have hdrop : pr.AssignedReviewers.dropWhile
      (fun r => !f.insertReviewer pr.PullRequestID r) = [] := by
    rw [List.dropWhile_eq_nil_iff]
    intro r _
    rw [hearly.2]
    rfl
  simp only [faultyPullRequestRepository, hdrop]

/-- The UPDATE statement of an update that changes the reviewers only, of a pull request
as it was loaded, leaves the rows as they are. -/
theorem updatedColumns_self {db : DB} {pr : PullRequest} (hpk : UniquePullRequestIDs db)
    (hget : Postgres.PullRequestRepository.GetByID pr.PullRequestID db = Except.ok pr)
    (reviewers : List String) :
    Postgres.updatedColumns { pr with AssignedReviewers := reviewers } db.pullRequests =
      db.pullRequests := by
  have hmem := (getByID_mem hget).1
  unfold Postgres.updatedColumns
  have hid : ∀ row ∈ db.pullRequests,
      (if row.PullRequestID = pr.PullRequestID then
        { row with
          PullRequestName := pr.PullRequestName, Status := pr.Status, MergedAt := pr.MergedAt }
      else row) = id row := by
    intro row hrow
    by_cases e : row.PullRequestID = pr.PullRequestID
    · have hrp : row = pr := List.inj_on_of_nodup_map hpk hrow hmem e
      subst hrp
      rw [if_pos rfl]
      rfl
    · rw [if_neg e]
      rfl
  exact (List.map_congr_left hid).trans (List.map_id _)

/-- The handling of one pull request that lists the deactivated reviewer, in a store where
the reviewer resolves to a member of a team without active members: a failure of the plan
before the INSERT of a reviewer returns an error and leaves the rows of the store as they
are; otherwise the reviewer is removed from the list and the pull request is updated. -/
theorem reassignDeactivatedReviewer_quiet (f : Faults) {db : DB} {pr : PullRequest}
    {userID teamName : String} {old : User} (rnd : Rand)
    (hpk : UniquePullRequestIDs db)
    (hget : Postgres.PullRequestRepository.GetByID pr.PullRequestID db = Except.ok pr)
    (hmem : userID ∈ pr.AssignedReviewers)
    (hold : Postgres.UserRepository.GetByID userID db = Except.ok old)
    (hteam : old.TeamName = teamName)
    (hquiet : ∀ row ∈ db.users, row.TeamName = teamName → row.IsActive = false)
    (hearly : f.early) :
    (f.skips teamName userID pr.PullRequestID = true →
      ∃ err journal, (faultyTeamUseCase f).reassignDeactivatedReviewer rnd pr userID db =
        (Except.error err, { db with journal := journal }, rnd)) ∧
    (f.skips teamName userID pr.PullRequestID = false →
      (faultyTeamUseCase f).reassignDeactivatedReviewer rnd pr userID db =
        (Except.ok (),
          { db with
            pullRequests :=
              Postgres.updatedRows
                { pr with AssignedReviewers := pr.AssignedReviewers.erase userID }
                db.pullRequests,
            journal := db.journal ++
              [Write.pullRequestUpdate
                { pr with AssignedReviewers := pr.AssignedReviewers.erase userID }] }, rnd)) := by
  subst hteam
  obtain ⟨i, hidx⟩ := findReviewerIndex_of_mem hmem
  have herase := erase_of_findReviewerIndex hidx
  have hlist := getActiveByTeam_quiet hquiet
  have hcand : filterCandidates [] pr = [] := rfl
  have hpmem := getByID_mem hget
  have hany : db.pullRequests.any (fun row => decide (row.PullRequestID =
      ({ pr with AssignedReviewers := pr.AssignedReviewers.erase userID } :
        PullRequest).PullRequestID)) = true := by
    rw [List.any_eq_true]
    exact ⟨pr, hpmem.1, by simp⟩
  have hupdf := faultyUpdate_early hearly
    { pr with AssignedReviewers := pr.AssignedReviewers.erase userID } db
  rw [hany] at hupdf
  by_cases h1 : f.lookupUser userID = true
  · refine ⟨fun _ => ⟨GoError.wrapf "failed to get old reviewer"
        (GoError.wrapf "failed to get user" driverError), db.journal, ?_⟩, fun h => ?_⟩
    · simp only [TeamUseCase.reassignDeactivatedReviewer, hidx, faultyTeamUseCase,
        faultyUserRepository, h1, if_true]
    · simp [Faults.skips, h1] at h
  · by_cases h2 : f.listActive old.TeamName = true
    · refine ⟨fun _ => ⟨GoError.wrapf "failed to get team members"
          (GoError.wrapf "failed to get active users by team" driverError), db.journal, ?_⟩,
        fun h => ?_⟩
      · simp only [TeamUseCase.reassignDeactivatedReviewer, hidx, faultyTeamUseCase,
          faultyUserRepository, h1, Bool.false_eq_true, if_false, hold, h2, if_true]
      · simp [Faults.skips, h2] at h
    · by_cases h3 : f.updatePullRequest pr.PullRequestID = true
      · refine ⟨fun _ => ⟨GoError.wrapf "failed to update PR"
            (GoError.wrapf "failed to update pull request" driverError), db.journal, ?_⟩,
          fun h => ?_⟩
        · rw [if_pos h3] at hupdf
          simp only [TeamUseCase.reassignDeactivatedReviewer, hidx, faultyTeamUseCase,
            faultyUserRepository, h1, Bool.false_eq_true, if_false, hold,
            h2, hlist, hcand, List.length_nil, if_true, herase, hupdf]
        · simp [Faults.skips, h3] at h
      · by_cases h4 : f.deleteReviewers pr.PullRequestID = true
        · refine ⟨fun _ => ⟨GoError.wrapf "failed to update PR"
              (GoError.wrapf "failed to delete old reviewers" driverError),
              db.journal ++ [Write.pullRequestUpdate
                { pr with AssignedReviewers := pr.AssignedReviewers.erase userID }], ?_⟩,
            fun h => ?_⟩
          · rw [if_neg h3, if_pos h4] at hupdf
            simp only [Bool.not_true, Bool.false_eq_true, if_false] at hupdf
            rw [updatedColumns_self hpk hget] at hupdf
            simp only [TeamUseCase.reassignDeactivatedReviewer, hidx, faultyTeamUseCase,
              faultyUserRepository, h1, Bool.false_eq_true, if_false, hold,
              h2, hlist, hcand, List.length_nil, if_true, herase, hupdf]
          · simp [Faults.skips, h4] at h
        · refine ⟨fun h => ?_, fun _ => ?_⟩
          · simp [Faults.skips, h1, h2, h3, h4] at h
          · have hget3 : Postgres.PullRequestRepository.GetByID
                ({ pr with AssignedReviewers := pr.AssignedReviewers.erase userID } :
                  PullRequest).PullRequestID db = Except.ok pr := hget
            have hupd := update_of_getByID hget3
            rw [if_neg h3, if_neg h4] at hupdf
            simp only [Bool.not_true, Bool.false_eq_true, if_false] at hupdf
            rw [hupd] at hupdf
            simp only [TeamUseCase.reassignDeactivatedReviewer, hidx, faultyTeamUseCase,
              faultyUserRepository, h1, Bool.false_eq_true, if_false, hold,
              h2, hlist, hcand, List.length_nil, if_true, herase, hupdf]

theorem userGetByID_congr {db db1 : DB} (h : db1.users = db.users) (userID : String) :
    Postgres.UserRepository.GetByID userID db1 = Postgres.UserRepository.GetByID userID db := by
  unfold Postgres.UserRepository.GetByID
  rw [h]

theorem removeDeactivated_id (f : Faults) (teamName userID : String) (row : PullRequest) :
    (removeDeactivated f teamName userID row).PullRequestID = row.PullRequestID := by
  unfold removeDeactivated
  split <;> rfl

theorem removeDeactivated_status (f : Faults) (teamName userID : String) (row : PullRequest) :
    (removeDeactivated f teamName userID row).Status = row.Status := by
  unfold removeDeactivated
  split <;> rfl

/-- The inner loop of step 4 for one deactivated reviewer, over pull requests that list
the reviewer, in a store where the reviewer's team has no active member and no pull request
fails to load: it never fails, counts the OPEN pull requests handled without failure and
removes the reviewer from exactly those. -/
theorem reassignOpenPRs_quiet (f : Faults) {userID teamName : String} {old : User}
    (hload : ∀ prID, f.loadPullRequest prID = false) (hearly : f.early) :
    ∀ (prs : List PullRequestShort) (count : Nat) (rnd : Rand) (db : DB),
      UniquePullRequestIDs db →
      Postgres.UserRepository.GetByID userID db = Except.ok old → old.TeamName = teamName →
      (∀ row ∈ db.users, row.TeamName = teamName → row.IsActive = false) →
      (prs.map (fun p => p.PullRequestID)).Nodup →
      (∀ p ∈ prs, ∃ row ∈ db.pullRequests,
        row.PullRequestID = p.PullRequestID ∧ row.Status = p.Status ∧
          userID ∈ row.AssignedReviewers) →
      ∃ db',
        (faultyTeamUseCase f).reassignOpenPRs userID prs count rnd db =
          (Except.ok (count + (prs.filter (fun p =>
            decide (p.Status = PRStatus.OPEN) &&
              !f.skips teamName userID p.PullRequestID)).length), db', rnd) ∧
        db'.pullRequests = db.pullRequests.map (fun row =>
          if row.PullRequestID ∈ prs.map (fun p => p.PullRequestID) then
            removeDeactivated f teamName userID row
          else row) ∧
        db'.users = db.users ∧ db'.teams = db.teams := by
  intro prs
  induction prs with
  | nil =>
    intro count rnd db _ _ _ _ _ _
    refine ⟨db, by simp [TeamUseCase.reassignOpenPRs], ?_, rfl, rfl⟩
    simp
  | cons p rest ih =>
    intro count rnd db hpk hold hteam hquiet hnodup hrows
    have hnodup2 : p.PullRequestID ∉ rest.map (fun q => q.PullRequestID) ∧
        (rest.map (fun q => q.PullRequestID)).Nodup := List.nodup_cons.mp hnodup
    obtain ⟨row, hrow, hid, hstatus, hmem⟩ := hrows p (List.mem_cons_self _ _)
    have hget : Postgres.PullRequestRepository.GetByID row.PullRequestID db = Except.ok row :=
      getByID_of_unique hpk hrow
    have hgetf : (faultyTeamUseCase f).prRepo.GetByID p.PullRequestID db = Except.ok row := by
      simp only [faultyTeamUseCase, faultyPullRequestRepository, hload, Bool.false_eq_true,
        if_false]
      rw [← hid]; exact hget
    have hrest : ∀ q ∈ rest, ∃ r ∈ db.pullRequests,
        r.PullRequestID = q.PullRequestID ∧ r.Status = q.Status ∧ userID ∈ r.AssignedReviewers :=
      fun q hq => hrows q (List.mem_cons_of_mem _ hq)
    have hunique : ∀ r ∈ db.pullRequests, r.PullRequestID = p.PullRequestID → r = row :=
      fun r hr e => List.inj_on_of_nodup_map hpk hr hrow (e.trans hid.symm)
    obtain ⟨hskip, hdone⟩ :=
      reassignDeactivatedReviewer_quiet f rnd hpk hget hmem hold hteam hquiet hearly
    by_cases hopen : p.Status = PRStatus.OPEN
    · cases hs : f.skips teamName userID p.PullRequestID with
      | true =>
        obtain ⟨err, journal, hstep⟩ := hskip (by rw [hid]; exact hs)
        obtain ⟨db', hrun, hprs, husers, hteams⟩ :=
          ih count rnd { db with journal := journal } hpk hold hteam hquiet hnodup2.2 hrest
        refine ⟨db', ?_, ?_, husers, hteams⟩
        · simp only [TeamUseCase.reassignOpenPRs, hopen, if_true, hgetf, hstep, hrun]
          simp [List.filter_cons, hopen, hs]
        · rw [hprs]
          apply List.map_congr_left
          intro r hr
          by_cases hrp : r.PullRequestID = p.PullRequestID
          · have hrm : removeDeactivated f teamName userID r = r := by
              simp [removeDeactivated, hrp, hs]
            simp only [hrm, ite_self]
          · simp only [List.map_cons, List.mem_cons, hrp, false_or]
      | false =>
        have hstep := hdone (by rw [hid]; exact hs)
        have hpk1 : UniquePullRequestIDs
            { db with
              pullRequests :=
                Postgres.updatedRows
                  { row with AssignedReviewers := row.AssignedReviewers.erase userID }
                  db.pullRequests,
              journal := db.journal ++
                [Write.pullRequestUpdate
                  { row with AssignedReviewers := row.AssignedReviewers.erase userID }] } := by
          unfold UniquePullRequestIDs
          simp only [updatedRows_ids]
          exact hpk
        have hrest1 : ∀ q ∈ rest, ∃ r ∈
            ({ db with
              pullRequests :=
                Postgres.updatedRows
                  { row with AssignedReviewers := row.AssignedReviewers.erase userID }
                  db.pullRequests,
              journal := db.journal ++
                [Write.pullRequestUpdate
                  { row with AssignedReviewers := row.AssignedReviewers.erase userID }] } :
              DB).pullRequests,
            r.PullRequestID = q.PullRequestID ∧ r.Status = q.Status ∧
              userID ∈ r.AssignedReviewers := by
          intro q hq
          obtain ⟨r, hr, hrid, hrst, hrmem⟩ := hrest q hq
          refine ⟨r, ?_, hrid, hrst, hrmem⟩
          simp only [Postgres.updatedRows, List.mem_map]
          refine ⟨r, hr, ?_⟩
          have hne : ¬ r.PullRequestID = row.PullRequestID := by
            intro e
            have hpq : p.PullRequestID = q.PullRequestID := hid.symm.trans (e.symm.trans hrid)
            apply hnodup2.1
            rw [hpq]
            exact List.mem_map_of_mem _ hq
          simp only [hne, if_false]
        obtain ⟨db', hrun, hprs, husers, hteams⟩ :=
          ih (count + 1) rnd _ hpk1 (by rw [userGetByID_congr rfl]; exact hold) hteam hquiet
            hnodup2.2 hrest1
        refine ⟨db', ?_, ?_, husers, hteams⟩
        · simp only [TeamUseCase.reassignOpenPRs, hopen, if_true, hgetf, hstep, hrun]
          simp [List.filter_cons, hopen, hs]
          omega
        · rw [hprs]
          simp only [Postgres.updatedRows, List.map_map]
          apply List.map_congr_left
          intro r hr
          simp only [Function.comp]
          by_cases hrp : r.PullRequestID = p.PullRequestID
          · have hrr := hunique r hr hrp
            subst hrr
            have hnotin : ¬ r.PullRequestID ∈ rest.map (fun q => q.PullRequestID) := by
              rw [hid]; exact hnodup2.1
            have hin : r.PullRequestID ∈ (p :: rest).map (fun q => q.PullRequestID) := by
              rw [hid]; exact List.mem_map_of_mem _ (List.mem_cons_self _ _)
            have hopen2 : r.Status = PRStatus.OPEN := hstatus.trans hopen
            have hs2 : f.skips teamName userID r.PullRequestID = false := by rw [hid]; exact hs
            rw [if_pos rfl, if_pos hin]
            dsimp only
            rw [if_neg hnotin]
            unfold removeDeactivated
            rw [if_pos ⟨hopen2, hs2⟩]
          · have hrr : ¬ r.PullRequestID = row.PullRequestID := by rw [hid]; exact hrp
            simp only [hrr, if_false, List.map_cons, List.mem_cons, hrp, false_or]
    · obtain ⟨db', hrun, hprs, husers, hteams⟩ :=
        ih count rnd db hpk hold hteam hquiet hnodup2.2 hrest
      refine ⟨db', ?_, ?_, husers, hteams⟩
      · simp only [TeamUseCase.reassignOpenPRs, hopen, if_false, hrun]
        simp [List.filter_cons, hopen]
      · rw [hprs]
        apply List.map_congr_left
        intro r hr
        by_cases hrp : r.PullRequestID = p.PullRequestID
        · have hrr := hunique r hr hrp
          subst hrr
          have hrm : removeDeactivated f teamName userID r = r := by
            have hno : ¬ r.Status = PRStatus.OPEN := by rw [hstatus]; exact hopen
            simp [removeDeactivated, hno]
          simp only [hrm, ite_self]
        · simp only [List.map_cons, List.mem_cons, hrp, false_or]

theorem removeDeactivated_of_not_mem (f : Faults) (teamName : String) {userID : String}
    {row : PullRequest} (h : userID ∉ row.AssignedReviewers) :
    removeDeactivated f teamName userID row = row := by
  unfold removeDeactivated
  split
  · rw [List.erase_of_not_mem h]
  · rfl

/-- Handling one deactivated reviewer: GetByReviewer followed by the inner loop removes the
reviewer from every OPEN pull request whose handling meets no failure, and counts those
among them that listed the reviewer. -/
theorem reassignUser_quiet (f : Faults) (hload : ∀ prID, f.loadPullRequest prID = false)
    (hearly : f.early)
    {userID teamName : String} {old : User} (count : Nat) (rnd : Rand) (db : DB)
    (hpk : UniquePullRequestIDs db)
    (hold : Postgres.UserRepository.GetByID userID db = Except.ok old)
    (hteam : old.TeamName = teamName)
    (hquiet : ∀ row ∈ db.users, row.TeamName = teamName → row.IsActive = false) :
    ∃ prs db',
      Postgres.PullRequestRepository.GetByReviewer userID db = Except.ok prs ∧
      (faultyTeamUseCase f).reassignOpenPRs userID prs count rnd db =
        (Except.ok (count + reassignedFor f teamName userID db.pullRequests), db', rnd) ∧
      db'.pullRequests = db.pullRequests.map (removeDeactivated f teamName userID) ∧
      db'.users = db.users ∧ db'.teams = db.teams := by
  obtain ⟨prs, hprs, hperm⟩ := getByReviewer_perm userID hpk
  have hmemprs : ∀ p, p ∈ prs ↔ ∃ row ∈ db.pullRequests,
      userID ∈ row.AssignedReviewers ∧ (Postgres.shortColumns row).1 = p := by
    intro p
    rw [hperm.mem_iff]
    simp only [List.mem_map, List.mem_filter, decide_eq_true_eq]
    constructor
    · rintro ⟨row, ⟨hrow, hmem⟩, hp⟩
      exact ⟨row, hrow, hmem, hp⟩
    · rintro ⟨row, hrow, hmem, hp⟩
      exact ⟨row, ⟨hrow, hmem⟩, hp⟩
  have hnodup : (prs.map (fun p => p.PullRequestID)).Nodup := by
    apply (hperm.map _).nodup_iff.mpr
    rw [List.map_map]
    exact List.Nodup.sublist ((List.filter_sublist _).map _) hpk
  have hrows : ∀ p ∈ prs, ∃ row ∈ db.pullRequests,
      row.PullRequestID = p.PullRequestID ∧ row.Status = p.Status ∧
        userID ∈ row.AssignedReviewers := by
    intro p hp
    obtain ⟨row, hrow, hmem, hsc⟩ := (hmemprs p).mp hp
    refine ⟨row, hrow, ?_, ?_, hmem⟩
    · rw [← hsc]; rfl
    · rw [← hsc]; rfl
  obtain ⟨db', hrun, hdbprs, husers, hteams⟩ :=
    reassignOpenPRs_quiet f hload hearly prs count rnd db hpk hold hteam hquiet hnodup hrows
  refine ⟨prs, db', hprs, ?_, ?_, husers, hteams⟩
  · rw [hrun]
    have hcount : (prs.filter (fun p =>
        decide (p.Status = PRStatus.OPEN) && !f.skips teamName userID p.PullRequestID)).length =
        reassignedFor f teamName userID db.pullRequests := by
      rw [(hperm.filter _).length_eq, List.filter_map, List.length_map, List.filter_filter]
      unfold reassignedFor
      congr 1
      apply List.filter_congr
      intro row _
      simp only [Function.comp, Postgres.shortColumns]
      cases decide (row.Status = PRStatus.OPEN) <;>
        cases decide (userID ∈ row.AssignedReviewers) <;>
        cases f.skips teamName userID row.PullRequestID <;> rfl
    rw [hcount]
  · rw [hdbprs]
    apply List.map_congr_left
    intro row hrow
    by_cases hin : row.PullRequestID ∈ prs.map (fun p => p.PullRequestID)
    · simp only [hin, if_true]
    · simp only [hin, if_false]
      have hnot : userID ∉ row.AssignedReviewers := by
        intro hmem
        apply hin
        have hp : (Postgres.shortColumns row).1 ∈ prs := (hmemprs _).mpr ⟨row, hrow, hmem, rfl⟩
        exact List.mem_map.mpr ⟨_, hp, rfl⟩
      exact (removeDeactivated_of_not_mem f teamName hnot).symm

theorem reassignedFor_removeDeactivated (f : Faults) (teamName : String) {u v : String}
    (hne : v ≠ u) (rows : List PullRequest) :
    reassignedFor f teamName v (rows.map (removeDeactivated f teamName u)) =
      reassignedFor f teamName v rows := by
  unfold reassignedFor
  rw [List.filter_map, List.length_map]
  congr 1
  apply List.filter_congr
  intro row _
  simp only [Function.comp, removeDeactivated_id, removeDeactivated_status]
  have hmem : (v ∈ (removeDeactivated f teamName u row).AssignedReviewers) ↔
      v ∈ row.AssignedReviewers := by
    unfold removeDeactivated
    split
    · exact List.mem_erase_of_ne hne
    · exact Iff.rfl
  simp only [hmem]

theorem uniquePullRequestIDs_map {db db1 : DB} {g : PullRequest → PullRequest}
    (hg : ∀ row, (g row).PullRequestID = row.PullRequestID)
    (hrows : db1.pullRequests = db.pullRequests.map g) (hpk : UniquePullRequestIDs db) :
    UniquePullRequestIDs db1 := by
  unfold UniquePullRequestIDs at *
  rw [hrows, List.map_map]
  have : db.pullRequests.map ((fun row => row.PullRequestID) ∘ g) =
      db.pullRequests.map (fun row => row.PullRequestID) := by
    apply List.map_congr_left
    intro row _
    simp [Function.comp, hg row]
  rw [this]
  exact hpk

/-- Step 4 of DeactivateTeamMembers over the deactivated ids, in a store where every id
resolves to a member of the team, the team has no active member and no pull request fails
to load: it never fails; the count is the sum over the ids of the pull requests counted
for each, and every row is the old row with the ids handled in turn. -/
theorem reassignDeactivated_quiet (f : Faults) (hload : ∀ prID, f.loadPullRequest prID = false)
    (hearly : f.early)
    (teamName : String) :
    ∀ (ids : List String) (count : Nat) (rnd : Rand) (db : DB),
      UniquePullRequestIDs db → ids.Nodup →
      (∀ userID ∈ ids, ∃ old, Postgres.UserRepository.GetByID userID db = Except.ok old ∧
        old.TeamName = teamName) →
      (∀ row ∈ db.users, row.TeamName = teamName → row.IsActive = false) →
      ∃ db',
        (faultyTeamUseCase f).reassignDeactivated ids count rnd db =
          (Except.ok (count +
            (ids.map (fun u => reassignedFor f teamName u db.pullRequests)).sum), db', rnd) ∧
        db'.pullRequests = db.pullRequests.map (fun row =>
          ids.foldl (fun r u => removeDeactivated f teamName u r) row) ∧
        db'.users = db.users ∧ db'.teams = db.teams := by
  intro ids
  induction ids with
  | nil =>
    intro count rnd db _ _ _ _
    refine ⟨db, by simp [TeamUseCase.reassignDeactivated], by simp, rfl, rfl⟩
  | cons u rest ih =>
    intro count rnd db hpk hnodup hres hquiet
    have hnodup2 := List.nodup_cons.mp hnodup
    obtain ⟨old, hold, hteam⟩ := hres u (List.mem_cons_self _ _)
    obtain ⟨prs, db1, hprs, hrun1, hrows1, husers1, hteams1⟩ :=
      reassignUser_quiet f hload hearly count rnd db hpk hold hteam hquiet
    have hpk1 : UniquePullRequestIDs db1 :=
      uniquePullRequestIDs_map (removeDeactivated_id f teamName u) hrows1 hpk
    have hres1 : ∀ userID ∈ rest, ∃ old,
        Postgres.UserRepository.GetByID userID db1 = Except.ok old ∧ old.TeamName = teamName := by
      intro userID hmem
      rw [userGetByID_congr husers1]
      exact hres userID (List.mem_cons_of_mem _ hmem)
    have hquiet1 : ∀ row ∈ db1.users, row.TeamName = teamName → row.IsActive = false := by
      rw [husers1]; exact hquiet
    obtain ⟨db', hrun, hrows, husers, hteams⟩ :=
      ih (count + reassignedFor f teamName u db.pullRequests) rnd db1 hpk1 hnodup2.2 hres1 hquiet1
    have hprsf : (faultyTeamUseCase f).prRepo.GetByReviewer u db = Except.ok prs := by
      simp only [faultyTeamUseCase, faultyPullRequestRepository, hearly.1, Bool.false_eq_true,
        if_false]
      exact hprs
    refine ⟨db', ?_, ?_, husers.trans husers1, hteams.trans hteams1⟩
    · simp only [TeamUseCase.reassignDeactivated, hprsf, hrun1, hrun]
      have hsum : (rest.map (fun v => reassignedFor f teamName v db1.pullRequests)).sum =
          (rest.map (fun v => reassignedFor f teamName v db.pullRequests)).sum := by
        congr 1
        apply List.map_congr_left
        intro v hv
        rw [hrows1]
        apply reassignedFor_removeDeactivated
        intro e
        exact hnodup2.1 (e ▸ hv)
      simp only [hsum, List.map_cons, List.sum_cons, Nat.add_assoc]
    · rw [hrows, hrows1, List.map_map]
      apply List.map_congr_left
      intro row _
      simp [Function.comp, List.foldl_cons]

/-! ## Lemmas: DeactivateTeamMembers as a whole -/

theorem teamGetByName_cases (teamName : String) (db : DB) :
    (∀ team ∈ db.teams, team.TeamName ≠ teamName) ∨
      ∃ team, Postgres.TeamRepository.GetByName teamName db = Except.ok team := by
  by_cases h : ∃ team ∈ db.teams, team.TeamName = teamName
  · right
    obtain ⟨team, hteam, hname⟩ := h
    unfold Postgres.TeamRepository.GetByName
    cases hfind : db.teams.find? (fun row => decide (row.TeamName = teamName)) with
    | none =>
      have := List.find?_eq_none.mp hfind team hteam
      simp [hname] at this
    | some found => exact ⟨found, rfl⟩
  · left
    intro team hteam hname
    exact h ⟨team, hteam, hname⟩

theorem teamGetByName_none {db : DB} {teamName : String}
    (h : ∀ team ∈ db.teams, team.TeamName ≠ teamName) :
    Postgres.TeamRepository.GetByName teamName db = Except.error ErrNotFound := by
  unfold Postgres.TeamRepository.GetByName
  have hfind : db.teams.find? (fun row => decide (row.TeamName = teamName)) = none := by
    simpa [List.find?_eq_none] using h
  rw [hfind]

theorem deactivateTeamMembersTx_notFound (f : Faults) {db : DB} {teamName : String} (now : Time)
    (rnd : Rand) (h : ∀ team ∈ db.teams, team.TeamName ≠ teamName) :
    (faultyTeamUseCase f).deactivateTeamMembersTx now rnd teamName db =
      (Except.error (NewDomainError "NOT_FOUND" "team not found" ErrNotFound), db) := by
  have hget : (faultyTeamUseCase f).teamRepo.GetByName teamName db = Except.error ErrNotFound :=
    teamGetByName_none h
  have his : GoError.Is ErrNotFound ErrNotFound = true := by decide
  simp only [TeamUseCase.deactivateTeamMembersTx, hget, his, if_true]

/-- The function DeactivateTeamMembers runs in its transaction, on an existing team, over a
store with unique user ids and unique pull request ids and a plan without load failure: it
succeeds; it reports the active members of the team; every users row is the old row
deactivated when it was an active member; every pull request row is the old row with the
deactivated ids handled in turn; and the count adds up the pull requests counted for each
deactivated id. -/
theorem deactivateTeamMembersTx_spec (f : Faults)
    (hload : ∀ prID, f.loadPullRequest prID = false) (hearly : f.early) (now : Time) (rnd : Rand)
    (teamName : String) (db : DB) (team : Team)
    (hteam : Postgres.TeamRepository.GetByName teamName db = Except.ok team)
    (hupk : UniqueUserIDs db) (hpk : UniquePullRequestIDs db) :
    ∃ db',
      (faultyTeamUseCase f).deactivateTeamMembersTx now rnd teamName db =
        (Except.ok
          { DeactivatedCount := (activeMemberIDs db teamName).length,
            ReassignedPRs :=
              ((activeMemberIDs db teamName).map
                (fun u => reassignedFor f teamName u db.pullRequests)).sum,
            UserIDs := activeMemberIDs db teamName }, db') ∧
      db'.users = db.users.map (deactivatedRow teamName now) ∧
      db'.pullRequests = db.pullRequests.map (fun row =>
        (activeMemberIDs db teamName).foldl (fun r u => removeDeactivated f teamName u r) row) ∧
      db'.teams = db.teams := by
  obtain ⟨db1, hrun1, husers1, hprs1, hteams1⟩ := deactivateUsers_team f now teamName db hupk
  obtain ⟨hres, hquiet⟩ := @quiet_after_deactivation db db1 teamName now hupk husers1
  have hpk1 : UniquePullRequestIDs db1 := by
    unfold UniquePullRequestIDs
    rw [hprs1]
    exact hpk
  obtain ⟨db', hrun, hrows, husers, hteams⟩ :=
    reassignDeactivated_quiet f hload hearly teamName (activeMemberIDs db teamName) 0 rnd db1 hpk1
      (activeMemberIDs_nodup teamName hupk) hres hquiet
  refine ⟨db', ?_, husers.trans husers1, ?_, hteams.trans hteams1⟩
  · have hteamf : (faultyTeamUseCase f).teamRepo.GetByName teamName db = Except.ok team := hteam
    have husersf : (faultyTeamUseCase f).userRepo.GetByTeam teamName db =
        Except.ok (Postgres.orderByUsername
          (db.users.filter (fun row => decide (row.TeamName = teamName)))) := rfl
    simp only [TeamUseCase.deactivateTeamMembersTx, hteamf, husersf, hrun1, hrun, hprs1,
      Nat.zero_add]
  · rw [hrows, hprs1]

theorem noFaults_early : noFaults.early :=
  ⟨fun _ => rfl, fun _ _ => rfl⟩

theorem faultyTeamUseCase_noFaults : faultyTeamUseCase noFaults = teamUseCase := by
  have hupd : (faultyPullRequestRepository noFaults).Update =
      Postgres.PullRequestRepository.Update := by
    funext pr db
    rw [faultyUpdate_early noFaults_early]
    have h1 : noFaults.updatePullRequest pr.PullRequestID = false := rfl
    have h2 : noFaults.deleteReviewers pr.PullRequestID = false := rfl
    simp only [h1, h2, Bool.false_eq_true, if_false, ite_self]
  have hrepo : faultyPullRequestRepository noFaults = Postgres.NewPullRequestRepository := by
    have h : faultyPullRequestRepository noFaults =
        { Create := Postgres.PullRequestRepository.Create,
          Update := (faultyPullRequestRepository noFaults).Update,
          GetByID := Postgres.PullRequestRepository.GetByID,
          GetByReviewer := Postgres.PullRequestRepository.GetByReviewer,
          Exists := Postgres.PullRequestRepository.Exists } := rfl
    rw [h, hupd]
    rfl
  unfold faultyTeamUseCase teamUseCase
  rw [hrepo]
  rfl

theorem noFaults_skips (teamName userID prID : String) :
    noFaults.skips teamName userID prID = false := rfl

theorem foldl_removeDeactivated_fixed (f : Faults) (teamName : String) :
    ∀ (ids : List String) (row : PullRequest),
      (∀ u ∈ ids, removeDeactivated f teamName u row = row) →
      ids.foldl (fun r u => removeDeactivated f teamName u r) row = row := by
  intro ids
  induction ids with
  | nil => intro row _; rfl
  | cons u rest ih =>
    intro row h
    rw [List.foldl_cons, h u (List.mem_cons_self _ _)]
    exact ih row (fun v hv => h v (List.mem_cons_of_mem _ hv))

theorem foldl_removeDeactivated_open (teamName : String) :
    ∀ (ids : List String) (row : PullRequest), row.Status = PRStatus.OPEN →
      ids.foldl (fun r u => removeDeactivated noFaults teamName u r) row =
        { row with AssignedReviewers := row.AssignedReviewers.diff ids } := by
  intro ids
  induction ids with
  | nil => intro row _; simp
  | cons u rest ih =>
    intro row hopen
    have hstep : removeDeactivated noFaults teamName u row =
        { row with AssignedReviewers := row.AssignedReviewers.erase u } := by
      simp [removeDeactivated, hopen, noFaults_skips]
    simp only [List.foldl_cons]
    rw [hstep, ih { row with AssignedReviewers := row.AssignedReviewers.erase u } hopen,
      List.diff_cons]

theorem getByID_map {g : PullRequest → PullRequest}
    (hg : ∀ row, (g row).PullRequestID = row.PullRequestID) (prID : String) (db db1 : DB)
    (hrows : db1.pullRequests = db.pullRequests.map g) :
    Postgres.PullRequestRepository.GetByID prID db1 =
      (Postgres.PullRequestRepository.GetByID prID db).map g := by
  unfold Postgres.PullRequestRepository.GetByID
  rw [hrows, List.find?_map]
  have : ((fun row => decide (row.PullRequestID = prID)) ∘ g) =
      (fun row => decide (row.PullRequestID = prID)) := by
    funext row
    simp [Function.comp, hg row]
  rw [this]
  cases db.pullRequests.find? (fun row => decide (row.PullRequestID = prID)) <;> rfl

/-- DeactivateTeamMembers of main.go on an existing team, over a store with unique user ids
and unique pull request ids: it succeeds; it reports the active members of the team; every
users row is the old row, deactivated when it was an active member; every OPEN pull request
row is the old row with the deactivated ids erased from its reviewer list and every other
row is unchanged; the count adds up, over the deactivated ids, the OPEN pull requests that
list the id. -/
theorem deactivateTeamMembers_spec (now : Time) (rnd : Rand) (teamName : String) (db : DB)
    (team : Team)
    (hteam : Postgres.TeamRepository.GetByName teamName db = Except.ok team)
    (hupk : UniqueUserIDs db) (hpk : UniquePullRequestIDs db) :
    ∃ db',
      teamUseCase.DeactivateTeamMembers now rnd teamName db =
        (Except.ok
          { DeactivatedCount := (activeMemberIDs db teamName).length,
            ReassignedPRs :=
              ((activeMemberIDs db teamName).map
                (fun u => reassignedFor noFaults teamName u db.pullRequests)).sum,
            UserIDs := activeMemberIDs db teamName }, db') ∧
      db'.users = db.users.map (deactivatedRow teamName now) ∧
      db'.pullRequests = db.pullRequests.map (fun row =>
        if row.Status = PRStatus.OPEN then
          { row with
            AssignedReviewers := row.AssignedReviewers.diff (activeMemberIDs db teamName) }
        else row) ∧
      db'.teams = db.teams := by
  obtain ⟨db', hrun, husers, hrows, hteams⟩ :=
    deactivateTeamMembersTx_spec noFaults (fun _ => rfl) noFaults_early now rnd teamName db team
      hteam hupk hpk
  rw [faultyTeamUseCase_noFaults] at hrun
  refine ⟨db', runInTransaction_ok hrun, husers, ?_, hteams⟩
  rw [hrows]
  apply List.map_congr_left
  intro row _
  by_cases hopen : row.Status = PRStatus.OPEN
  · rw [if_pos hopen]
    exact foldl_removeDeactivated_open teamName _ row hopen
  · rw [if_neg hopen]
    apply foldl_removeDeactivated_fixed
    intro u _
    simp [removeDeactivated, hopen]

theorem deactivateTeamMembers_notFound {db : DB} {teamName : String} (now : Time) (rnd : Rand)
    (h : ∀ team ∈ db.teams, team.TeamName ≠ teamName) :
    teamUseCase.deactivateTeamMembersTx now rnd teamName db =
        (Except.error (NewDomainError "NOT_FOUND" "team not found" ErrNotFound), db) ∧
      teamUseCase.DeactivateTeamMembers now rnd teamName db =
        (Except.error (NewDomainError "NOT_FOUND" "team not found" ErrNotFound), db) := by
  have htx := deactivateTeamMembersTx_notFound noFaults now rnd h
  rw [faultyTeamUseCase_noFaults] at htx
  exact ⟨htx, runInTransaction_error htx⟩

/-! ## Claims on DeactivateTeamMembers -/

/-- C15: over a store with unique user ids and unique pull request ids, for an existing
team with N active members DeactivateTeamMembers succeeds and returns DeactivatedCount = N
and a UserIDs list of length N without repetition whose elements are exactly the ids of the
members that were active before the call; afterwards the users table is the old one with
those members deactivated, so every member of the team is inactive. For a team name no
teams row has it fails with NOT_FOUND, makes no write call and leaves the store unchanged. -/
theorem deactivateTeamMembers_deactivates (now : Time) (rnd : Rand) (teamName : String)
    (db : DB) (hupk : UniqueUserIDs db) (hpk : UniquePullRequestIDs db) :
    (∀ team, Postgres.TeamRepository.GetByName teamName db = Except.ok team →
      ∃ res db',
        teamUseCase.DeactivateTeamMembers now rnd teamName db = (Except.ok res, db') ∧
        res.DeactivatedCount =
          (db.users.filter (fun row => decide (row.TeamName = teamName) && row.IsActive)).length ∧
        res.UserIDs.length =
          (db.users.filter (fun row => decide (row.TeamName = teamName) && row.IsActive)).length ∧
        res.UserIDs.Nodup ∧
        (∀ userID, userID ∈ res.UserIDs ↔
          ∃ row ∈ db.users, row.TeamName = teamName ∧ row.IsActive = true ∧
            row.UserID = userID) ∧
        db'.users = db.users.map (deactivatedRow teamName now) ∧
        (∀ row ∈ db'.users, row.TeamName = teamName → row.IsActive = false)) ∧
    ((∀ team ∈ db.teams, team.TeamName ≠ teamName) →
      teamUseCase.deactivateTeamMembersTx now rnd teamName db =
          (Except.error (NewDomainError "NOT_FOUND" "team not found" ErrNotFound), db) ∧
        teamUseCase.DeactivateTeamMembers now rnd teamName db =
          (Except.error (NewDomainError "NOT_FOUND" "team not found" ErrNotFound), db) ∧
        (NewDomainError "NOT_FOUND" "team not found" ErrNotFound).code? = some "NOT_FOUND") := by
  constructor
  · intro team hteam
    obtain ⟨db', hrun, husers, _, _⟩ :=
      deactivateTeamMembers_spec now rnd teamName db team hteam hupk hpk
    have hlen : (activeMemberIDs db teamName).length =
        (db.users.filter (fun row => decide (row.TeamName = teamName) && row.IsActive)).length := by
      rw [(activeMemberIDs_perm db teamName).length_eq, List.length_map]
    refine ⟨_, db', hrun, hlen, hlen, activeMemberIDs_nodup teamName hupk,
      fun userID => mem_activeMemberIDs, husers,
      (@quiet_after_deactivation db db' teamName now hupk husers).2⟩
  · intro hnone
    obtain ⟨htx, hres⟩ := deactivateTeamMembers_notFound now rnd hnone
    exact ⟨htx, hres, rfl⟩

theorem deactivateTeamMembers_deactivates_witness :
    UniqueUserIDs sampleDB ∧ UniquePullRequestIDs sampleDB ∧
      (∃ res db',
        teamUseCase.DeactivateTeamMembers 9 [] "eng" sampleDB = (Except.ok res, db') ∧
        res.DeactivatedCount =
          (sampleDB.users.filter (fun row => decide (row.TeamName = "eng") && row.IsActive)).length ∧
        res.UserIDs.length =
          (sampleDB.users.filter (fun row => decide (row.TeamName = "eng") && row.IsActive)).length ∧
        res.UserIDs.Nodup ∧
        (∀ userID, userID ∈ res.UserIDs ↔
          ∃ row ∈ sampleDB.users, row.TeamName = "eng" ∧ row.IsActive = true ∧
            row.UserID = userID) ∧
        db'.users = sampleDB.users.map (deactivatedRow "eng" 9) ∧
        (∀ row ∈ db'.users, row.TeamName = "eng" → row.IsActive = false)) ∧
      teamUseCase.DeactivateTeamMembers 9 [] "nowhere" sampleDB =
        (Except.error (NewDomainError "NOT_FOUND" "team not found" ErrNotFound), sampleDB) :=
  ⟨by decide, by decide,
    (deactivateTeamMembers_deactivates 9 [] "eng" sampleDB (by decide) (by decide)).1
      ⟨"eng", 0, 0⟩ (by decide),
    ((deactivateTeamMembers_deactivates 9 [] "nowhere" sampleDB (by decide) (by decide)).2
      (by decide)).2.1⟩

/-- C16 (the code at the failing input): on the sample store, team eng has the active
members A, B and C and exactly one OPEN pull request, p1, lists a deactivated member (it
lists two, B and C); DeactivateTeamMembers returns the reassigned count 2, one for each of
the two deactivated reviewers of p1, and not 1. -/
theorem deactivateTeamMembers_counts_pairs :
    (teamUseCase.DeactivateTeamMembers 9 [] "eng" sampleDB).1 =
        Except.ok { DeactivatedCount := 3, ReassignedPRs := 2, UserIDs := ["A", "B", "C"] } ∧
      (sampleDB.pullRequests.filter (fun row =>
        decide (row.Status = PRStatus.OPEN) &&
          decide (∃ userID ∈ activeMemberIDs sampleDB "eng",
            userID ∈ row.AssignedReviewers))).length = 1 ∧
      ((teamUseCase.DeactivateTeamMembers 9 [] "eng" sampleDB).2.pullRequests.map
        (fun row => (row.PullRequestID, row.AssignedReviewers))) =
        [("p1", []), ("p2", ["B"])] := by
  decide

/-! ## Store failures while DeactivateTeamMembers handles a pull request -/

/-- The removal branch of reassignDeactivatedReviewer in main.go: when the deactivated
reviewer is on the pull request and the candidate pool is empty, the step succeeds and
writes the pull request with the reviewer erased. -/
theorem reassignDeactivatedReviewer_noCandidate {db : DB} {pr : PullRequest} {userID : String}
    {old : User} (rnd : Rand)
    (hget : Postgres.PullRequestRepository.GetByID pr.PullRequestID db = Except.ok pr)
    (hmem : userID ∈ pr.AssignedReviewers)
    (hold : Postgres.UserRepository.GetByID userID db = Except.ok old)
    (hnone : ∀ row ∈ db.users, row.TeamName = old.TeamName → row.IsActive = true →
      row.UserID = pr.AuthorID ∨ row.UserID ∈ pr.AssignedReviewers) :
    teamUseCase.reassignDeactivatedReviewer rnd pr userID db =
      (Except.ok (),
        { db with
          pullRequests :=
            Postgres.updatedRows
              { pr with AssignedReviewers := pr.AssignedReviewers.erase userID } db.pullRequests,
          journal := db.journal ++
            [Write.pullRequestUpdate
              { pr with AssignedReviewers := pr.AssignedReviewers.erase userID }] }, rnd) := by
  obtain ⟨i, hidx⟩ := findReviewerIndex_of_mem hmem
  have herase := erase_of_findReviewerIndex hidx
  obtain ⟨users, husers, _⟩ := getActiveByTeam_eq old.TeamName db
  have hcand : filterCandidates users pr = [] := (filterCandidates_eq_nil_iff husers).mpr hnone
  have hget3 : Postgres.PullRequestRepository.GetByID
      ({ pr with AssignedReviewers := pr.AssignedReviewers.erase userID } :
        PullRequest).PullRequestID db = Except.ok pr := hget
  have hupd := update_of_getByID hget3
  simp only [TeamUseCase.reassignDeactivatedReviewer, hidx, teamUseCase,
    Postgres.NewUserRepository, Postgres.NewPullRequestRepository, hold, husers, hcand,
    List.length_nil, if_true, herase, hupd]

/-- C18: in the loop of DeactivateTeamMembers over the pull requests of a deactivated
reviewer, when the OPEN pull request pr lists the reviewer and no active member of the
reviewer's team is eligible (each is the author or already a reviewer), the handling
succeeds and is counted, and the pull request read back afterwards is pr with the reviewer
list replaced by the previous list with the first occurrence of that id erased: the other
reviewers keep their order, one slot is gone, and when the previous list had no duplicate
the new list is the previous list without that id, has no duplicate and no longer holds
the id; when the previous list did not hold the author the new one does not either. -/
theorem deactivation_removes_slot (rnd : Rand) (db : DB) (pr : PullRequest) (userID : String)
    (old : User) (p : PullRequestShort) (rest : List PullRequestShort) (count : Nat)
    (hget : Postgres.PullRequestRepository.GetByID pr.PullRequestID db = Except.ok pr)
    (hopen : pr.Status = PRStatus.OPEN)
    (hmem : userID ∈ pr.AssignedReviewers)
    (hold : Postgres.UserRepository.GetByID userID db = Except.ok old)
    (hnone : ∀ row ∈ db.users, row.TeamName = old.TeamName → row.IsActive = true →
      row.UserID = pr.AuthorID ∨ row.UserID ∈ pr.AssignedReviewers)
    (hid : p.PullRequestID = pr.PullRequestID) (hstatus : p.Status = pr.Status) :
    ∃ db',
      teamUseCase.reassignDeactivatedReviewer rnd pr userID db = (Except.ok (), db', rnd) ∧
      teamUseCase.reassignOpenPRs userID (p :: rest) count rnd db =
        teamUseCase.reassignOpenPRs userID rest (count + 1) rnd db' ∧
      Postgres.PullRequestRepository.GetByID pr.PullRequestID db' =
        Except.ok { pr with AssignedReviewers := pr.AssignedReviewers.erase userID } ∧
      (pr.AssignedReviewers.erase userID).Sublist pr.AssignedReviewers ∧
      (pr.AssignedReviewers.erase userID).length + 1 = pr.AssignedReviewers.length ∧
      (∀ r ∈ pr.AssignedReviewers, r ≠ userID → r ∈ pr.AssignedReviewers.erase userID) ∧
      (pr.AssignedReviewers.Nodup →
        pr.AssignedReviewers.erase userID =
            pr.AssignedReviewers.filter (fun r => decide (r ≠ userID)) ∧
          userID ∉ pr.AssignedReviewers.erase userID ∧
          (pr.AssignedReviewers.erase userID).Nodup) ∧
      (pr.AuthorID ∉ pr.AssignedReviewers →
        pr.AuthorID ∉ pr.AssignedReviewers.erase userID) := by
  have hstep := reassignDeactivatedReviewer_noCandidate rnd hget hmem hold hnone
  refine ⟨_, hstep, ?_, ?_, List.erase_sublist _ _, ?_, ?_, ?_, ?_⟩
  · have hget2 : teamUseCase.prRepo.GetByID p.PullRequestID db = Except.ok pr := by
      rw [hid]; exact hget
    have hopen2 : p.Status = PRStatus.OPEN := hstatus.trans hopen
    simp only [TeamUseCase.reassignOpenPRs, hopen2, if_true, hget2, hstep]
  · exact getByID_after_update hget rfl rfl rfl
  · rw [List.length_erase_of_mem hmem]
    have : 0 < pr.AssignedReviewers.length := List.length_pos_of_mem hmem
    omega
  · intro r hr hne
    exact (List.mem_erase_of_ne hne).mpr hr
  · intro hnodup
    refine ⟨?_, ?_, hnodup.erase _⟩
    · rw [hnodup.erase_eq_filter]
      apply List.filter_congr
      intro r _
      by_cases hr : r = userID <;> simp [bne, hr]
    · exact hnodup.not_mem_erase
  · intro hauthor hin
    exact hauthor (List.mem_of_mem_erase hin)

theorem deactivation_removes_slot_witness :
    Postgres.PullRequestRepository.GetByID "p1" sampleDB =
        Except.ok ⟨"p1", "feature", "A", PRStatus.OPEN, ["B", "C"], 1, none⟩ ∧
      Postgres.UserRepository.GetByID "B" sampleDB =
        Except.ok ⟨"B", "bob", "eng", true, 0, 0⟩ ∧
      (∀ row ∈ sampleDB.users, row.TeamName = "eng" → row.IsActive = true →
        row.UserID = "A" ∨ row.UserID ∈ ["B", "C"]) ∧
      ∃ db',
        teamUseCase.reassignDeactivatedReviewer [] ⟨"p1", "feature", "A", PRStatus.OPEN,
          ["B", "C"], 1, none⟩ "B" sampleDB = (Except.ok (), db', []) ∧
        teamUseCase.reassignOpenPRs "B" [⟨"p1", "feature", "A", PRStatus.OPEN⟩] 0 [] sampleDB =
          teamUseCase.reassignOpenPRs "B" [] (0 + 1) [] db' ∧
        Postgres.PullRequestRepository.GetByID "p1" db' =
          Except.ok ⟨"p1", "feature", "A", PRStatus.OPEN, ["C"], 1, none⟩ :=
  ⟨by decide, by decide, by decide,
    (deactivation_removes_slot [] sampleDB
      ⟨"p1", "feature", "A", PRStatus.OPEN, ["B", "C"], 1, none⟩ "B"
      ⟨"B", "bob", "eng", true, 0, 0⟩ ⟨"p1", "feature", "A", PRStatus.OPEN⟩ [] 0
      (by decide) rfl (by decide) (by decide) (by decide) rfl rfl).imp
      (fun _ h => ⟨h.1, h.2.1, h.2.2.1⟩)⟩

theorem runInTransaction_rollback {σ α : Type} {fn : σ → Except GoError α × σ} {s s' : σ}
    {err : GoError} (h : RunInTransaction fn s = (Except.error err, s')) : s' = s := by
  unfold RunInTransaction at h
  split at h
  · cases h
  · cases h; rfl

theorem diff_of_disjoint : ∀ (ids reviewers : List String),
    (∀ u ∈ reviewers, u ∉ ids) → reviewers.diff ids = reviewers := by
  intro ids
  induction ids with
  | nil => intro reviewers _; simp
  | cons u rest ih =>
    intro reviewers h
    have hu : u ∉ reviewers := fun hin => h u hin (List.mem_cons_self _ _)
    rw [List.diff_cons, List.erase_of_not_mem hu]
    exact ih reviewers (fun r hr hin => h r hr (List.mem_cons_of_mem _ hin))

/-- C19: over a store with unique user ids and unique pull request ids, after a successful
DeactivateTeamMembers of the team teamName every pull request row that is MERGED, and
every row none of whose reviewers is among the returned deactivated ids, reads back as the
same record; every user reads back with the same id, name, team and creation time, and
reads back as the same record when the user is not a member of the team (or was already
inactive); no users row is added or removed and the teams table is unchanged. A failing
call leaves the whole store as it was. -/
theorem deactivateTeamMembers_frame (now : Time) (rnd : Rand) (teamName : String) (db : DB)
    (hupk : UniqueUserIDs db) (hpk : UniquePullRequestIDs db) :
    (∀ res db', teamUseCase.DeactivateTeamMembers now rnd teamName db = (Except.ok res, db') →
      (∀ row ∈ db.pullRequests,
        (row.Status = PRStatus.MERGED ∨ ∀ u ∈ row.AssignedReviewers, u ∉ res.UserIDs) →
        Postgres.PullRequestRepository.GetByID row.PullRequestID db' = Except.ok row) ∧
      (∀ userID before, Postgres.UserRepository.GetByID userID db = Except.ok before →
        ∃ after, Postgres.UserRepository.GetByID userID db' = Except.ok after ∧
          after.UserID = before.UserID ∧ after.Username = before.Username ∧
          after.TeamName = before.TeamName ∧ after.CreatedAt = before.CreatedAt ∧
          (before.TeamName ≠ teamName → after = before) ∧
          (before.IsActive = false → after = before)) ∧
      db'.users.map (fun row => row.UserID) = db.users.map (fun row => row.UserID) ∧
      db'.pullRequests.map (fun row => row.PullRequestID) =
        db.pullRequests.map (fun row => row.PullRequestID) ∧
      db'.teams = db.teams) ∧
    (∀ err db', teamUseCase.DeactivateTeamMembers now rnd teamName db = (Except.error err, db') →
      db' = db) := by
  refine ⟨?_, fun err db' h => runInTransaction_rollback h⟩
  intro res db' h
  rcases teamGetByName_cases teamName db with hnone | ⟨team, hteam⟩
  · rw [(deactivateTeamMembers_notFound now rnd hnone).2] at h
    cases h
  · obtain ⟨db0, hrun, husers, hrows, hteams⟩ :=
      deactivateTeamMembers_spec now rnd teamName db team hteam hupk hpk
    rw [hrun] at h
    cases h
    have hgid : ∀ row : PullRequest,
        (if row.Status = PRStatus.OPEN then
          { row with
            AssignedReviewers := row.AssignedReviewers.diff (activeMemberIDs db teamName) }
        else row).PullRequestID = row.PullRequestID := by
      intro row
      split <;> rfl
    refine ⟨?_, ?_, ?_, ?_, hteams⟩
    · intro row hrow hcase
      rw [getByID_map hgid row.PullRequestID db db' hrows, getByID_of_unique hpk hrow]
      apply congrArg Except.ok
      dsimp only
      by_cases hopen : row.Status = PRStatus.OPEN
      · rw [if_pos hopen]
        rcases hcase with hmerged | hdisj
        · rw [hopen] at hmerged
          cases hmerged
        · rw [diff_of_disjoint _ _ hdisj]
      · rw [if_neg hopen]
    · intro userID before hbefore
      refine ⟨deactivatedRow teamName now before, ?_, ?_, ?_, ?_, ?_, ?_, ?_⟩
      · rw [userGetByID_map (deactivatedRow_userID teamName now) userID db db' husers, hbefore]
        rfl
      all_goals unfold deactivatedRow
      · split <;> rfl
      · split <;> rfl
      · split <;> rfl
      · split <;> rfl
      · intro hne
        rw [if_neg (fun hc => hne hc.1)]
      · intro hinactive
        rw [if_neg (fun hc => by rw [hinactive] at hc; exact Bool.noConfusion hc.2)]
    · rw [husers, List.map_map]
      apply List.map_congr_left
      intro row _
      exact deactivatedRow_userID teamName now row
    · rw [hrows, List.map_map]
      apply List.map_congr_left
      intro row _
      exact hgid row

theorem deactivateTeamMembers_frame_witness :
    UniqueUserIDs sampleDB ∧ UniquePullRequestIDs sampleDB ∧
      (∃ res db',
        teamUseCase.DeactivateTeamMembers 9 [] "small" sampleDB = (Except.ok res, db') ∧
        res.UserIDs = ["D"] ∧
        (∀ row ∈ sampleDB.pullRequests,
          (row.Status = PRStatus.MERGED ∨ ∀ u ∈ row.AssignedReviewers, u ∉ res.UserIDs) →
          Postgres.PullRequestRepository.GetByID row.PullRequestID db' = Except.ok row) ∧
        db'.teams = sampleDB.teams) ∧
      (teamUseCase.DeactivateTeamMembers 9 [] "nowhere" sampleDB).2 = sampleDB :=
  ⟨by decide, by decide,
    ⟨_, _, rfl, by decide,
      ((deactivateTeamMembers_frame 9 [] "small" sampleDB (by decide) (by decide)).1 _ _ rfl).1,
      ((deactivateTeamMembers_frame 9 [] "small" sampleDB (by decide)
        (by decide)).1 _ _ rfl).2.2.2.2⟩,
    (deactivateTeamMembers_frame 9 [] "nowhere" sampleDB (by decide) (by decide)).2
      (NewDomainError "NOT_FOUND" "team not found" ErrNotFound) _ (by decide)⟩

/-! ## MERGED pull requests are frozen -/

/-- What one operation keeps: the primary keys of users and pull_requests, and every
MERGED pull request record. -/
theorem frozen_refl {db : DB} (hupk : UniqueUserIDs db) (hpk : UniquePullRequestIDs db) :
    UniqueUserIDs db ∧ UniquePullRequestIDs db ∧
      ∀ prID pr, Postgres.PullRequestRepository.GetByID prID db = Except.ok pr →
        pr.Status = PRStatus.MERGED →
        Postgres.PullRequestRepository.GetByID prID db = Except.ok pr :=
  ⟨hupk, hpk, fun _ _ h _ => h⟩

theorem getByID_append {db : DB} {prID : String} {pr new : PullRequest} (j : List Write)
    (hget : Postgres.PullRequestRepository.GetByID prID db = Except.ok pr) :
    Postgres.PullRequestRepository.GetByID prID
      { db with pullRequests := db.pullRequests ++ [new], journal := j } = Except.ok pr := by
  unfold Postgres.PullRequestRepository.GetByID at hget ⊢
  simp only [List.find?_append]
  cases hfind : db.pullRequests.find? (fun row => decide (row.PullRequestID = prID)) with
  | none => rw [hfind] at hget; cases hget
  | some row => rw [hfind] at hget; simpa using hget

/-- Writing an OPEN pull request row keeps the primary keys and every MERGED record. -/
theorem frozen_update {db : DB} {prID0 : String} {pr0 upd : PullRequest}
    (hupk : UniqueUserIDs db) (hpk : UniquePullRequestIDs db)
    (hget0 : Postgres.PullRequestRepository.GetByID prID0 db = Except.ok pr0)
    (hopen : pr0.Status = PRStatus.OPEN) (hid : upd.PullRequestID = pr0.PullRequestID) :
    UniqueUserIDs { db with
        pullRequests := Postgres.updatedRows upd db.pullRequests,
        journal := db.journal ++ [Write.pullRequestUpdate upd] } ∧
      UniquePullRequestIDs { db with
        pullRequests := Postgres.updatedRows upd db.pullRequests,
        journal := db.journal ++ [Write.pullRequestUpdate upd] } ∧
      ∀ prID pr, Postgres.PullRequestRepository.GetByID prID db = Except.ok pr →
        pr.Status = PRStatus.MERGED →
        Postgres.PullRequestRepository.GetByID prID { db with
          pullRequests := Postgres.updatedRows upd db.pullRequests,
          journal := db.journal ++ [Write.pullRequestUpdate upd] } = Except.ok pr := by
  refine ⟨hupk, ?_, ?_⟩
  · unfold UniquePullRequestIDs
    rw [updatedRows_ids]
    exact hpk
  · intro prID pr hget hmerged
    have hne : prID ≠ upd.PullRequestID := by
      intro heq
      rw [hid, (getByID_mem hget0).2] at heq
      rw [heq, hget0] at hget
      cases hget
      rw [hopen] at hmerged
      cases hmerged
    unfold Postgres.PullRequestRepository.GetByID at hget ⊢
    simp only [find?_updatedRows_other upd prID hne]
    exact hget

theorem createPullRequest_frozen (now : Time) (rnd : Rand) (prID0 prName authorID : String)
    (db : DB) (hupk : UniqueUserIDs db) (hpk : UniquePullRequestIDs db) :
    UniqueUserIDs (prUseCase.CreatePullRequest now rnd prID0 prName authorID db).2 ∧
      UniquePullRequestIDs (prUseCase.CreatePullRequest now rnd prID0 prName authorID db).2 ∧
      ∀ prID pr, Postgres.PullRequestRepository.GetByID prID db = Except.ok pr →
        pr.Status = PRStatus.MERGED →
        Postgres.PullRequestRepository.GetByID prID
          (prUseCase.CreatePullRequest now rnd prID0 prName authorID db).2 = Except.ok pr := by
  rcases hc : prUseCase.CreatePullRequest now rnd prID0 prName authorID db with ⟨res, db'⟩
  cases res with
  | error err =>
    have hdb : db' = db := runInTransaction_rollback hc
    subst hdb
    exact frozen_refl hupk hpk
  | ok r =>
    obtain ⟨hnew, _, _, _, _, hr, hdb⟩ := createPullRequest_ok_inv hc
    subst hdb
    refine ⟨hupk, ?_, fun prID pr hget _ => getByID_append _ hget⟩
    unfold UniquePullRequestIDs
    simp only [List.map_append, List.map_cons, List.map_nil]
    have hrid : r.PullRequestID = prID0 := by rw [hr]
    rw [hrid]
    refine List.Nodup.append hpk (List.nodup_singleton _) ?_
    intro x hx hx2
    rw [List.mem_singleton] at hx2
    subst hx2
    obtain ⟨row, hrow, hid⟩ := List.mem_map.mp hx
    exact hnew row hrow hid

theorem mergePullRequest_frozen (now : Time) (prID0 : String)
    (db : DB) (hupk : UniqueUserIDs db) (hpk : UniquePullRequestIDs db) :
    UniqueUserIDs (prUseCase.MergePullRequest now prID0 db).2 ∧
      UniquePullRequestIDs (prUseCase.MergePullRequest now prID0 db).2 ∧
      ∀ prID pr, Postgres.PullRequestRepository.GetByID prID db = Except.ok pr →
        pr.Status = PRStatus.MERGED →
        Postgres.PullRequestRepository.GetByID prID
          (prUseCase.MergePullRequest now prID0 db).2 = Except.ok pr := by
  rcases hc : prUseCase.MergePullRequest now prID0 db with ⟨res, db'⟩
  cases res with
  | error err =>
    have hdb : db' = db := runInTransaction_rollback hc
    subst hdb
    exact frozen_refl hupk hpk
  | ok r =>
    obtain ⟨pr0, hget0, ⟨_, _, hdb⟩ | ⟨hopen, _, hdb⟩⟩ := mergePullRequest_ok_inv hc
    · subst hdb
      exact frozen_refl hupk hpk
    · subst hdb
      exact frozen_update hupk hpk hget0 hopen rfl

theorem reassignReviewer_frozen (rnd : Rand) (prID0 oldUserID : String)
    (db : DB) (hupk : UniqueUserIDs db) (hpk : UniquePullRequestIDs db) :
    UniqueUserIDs (prUseCase.ReassignReviewer rnd prID0 oldUserID db).2 ∧
      UniquePullRequestIDs (prUseCase.ReassignReviewer rnd prID0 oldUserID db).2 ∧
      ∀ prID pr, Postgres.PullRequestRepository.GetByID prID db = Except.ok pr →
        pr.Status = PRStatus.MERGED →
        Postgres.PullRequestRepository.GetByID prID
          (prUseCase.ReassignReviewer rnd prID0 oldUserID db).2 = Except.ok pr := by
  rcases hc : prUseCase.ReassignReviewer rnd prID0 oldUserID db with ⟨⟨res, newID⟩, db'⟩
  cases res with
  | error err =>
    have hdb : db' = db := by
      unfold PullRequestUseCase.ReassignReviewer at hc
      split at hc
      · next heq =>
        cases hc
        exact runInTransaction_rollback heq
      · cases hc
    subst hdb
    exact frozen_refl hupk hpk
  | ok r =>
    obtain ⟨pr0, i, _, _, c, hget0, hopen, _, _, _, _, hr, _, hdb⟩ := reassignReviewer_ok_inv hc
    subst hdb
    have hid : r.PullRequestID = pr0.PullRequestID := by rw [hr]
    exact frozen_update hupk hpk hget0 hopen hid

theorem deactivateTeamMembers_frozen (now : Time) (rnd : Rand) (teamName : String)
    (db : DB) (hupk : UniqueUserIDs db) (hpk : UniquePullRequestIDs db) :
    UniqueUserIDs (teamUseCase.DeactivateTeamMembers now rnd teamName db).2 ∧
      UniquePullRequestIDs (teamUseCase.DeactivateTeamMembers now rnd teamName db).2 ∧
      ∀ prID pr, Postgres.PullRequestRepository.GetByID prID db = Except.ok pr →
        pr.Status = PRStatus.MERGED →
        Postgres.PullRequestRepository.GetByID prID
          (teamUseCase.DeactivateTeamMembers now rnd teamName db).2 = Except.ok pr := by
  rcases teamGetByName_cases teamName db with hnone | ⟨team, hteam⟩
  · rw [(deactivateTeamMembers_notFound now rnd hnone).2]
    exact frozen_refl hupk hpk
  · obtain ⟨db', hrun, husers, hrows, _⟩ :=
      deactivateTeamMembers_spec now rnd teamName db team hteam hupk hpk
    rw [hrun]
    have hgid : ∀ row : PullRequest,
        (if row.Status = PRStatus.OPEN then
          { row with
            AssignedReviewers := row.AssignedReviewers.diff (activeMemberIDs db teamName) }
        else row).PullRequestID = row.PullRequestID := by
      intro row
      split <;> rfl
    refine ⟨?_, ?_, ?_⟩
    · show (db'.users.map (fun row => row.UserID)).Nodup
      rw [husers, List.map_map]
      have : ((fun row => row.UserID) ∘ deactivatedRow teamName now) =
          (fun row : User => row.UserID) := by
        funext row
        exact deactivatedRow_userID teamName now row
      rw [this]
      exact hupk
    · show (db'.pullRequests.map (fun row => row.PullRequestID)).Nodup
      rw [hrows, List.map_map]
      have : ((fun row : PullRequest => row.PullRequestID) ∘ (fun row : PullRequest =>
          if row.Status = PRStatus.OPEN then
            { row with
              AssignedReviewers := row.AssignedReviewers.diff (activeMemberIDs db teamName) }
          else row)) = (fun row : PullRequest => row.PullRequestID) := by
        funext row
        exact hgid row
      rw [this]
      exact hpk
    · intro prID pr hget hmerged
      show Postgres.PullRequestRepository.GetByID prID db' = Except.ok pr
      rw [getByID_map hgid prID db db' hrows, hget]
      apply congrArg Except.ok
      dsimp only
      rw [if_neg (by rw [hmerged]; exact fun hc => PRStatus.noConfusion hc)]

theorem run_frozen (op : Op) (db : DB) (hupk : UniqueUserIDs db)
    (hpk : UniquePullRequestIDs db) :
    UniqueUserIDs (op.run db).2 ∧ UniquePullRequestIDs (op.run db).2 ∧
      ∀ prID pr, Postgres.PullRequestRepository.GetByID prID db = Except.ok pr →
        pr.Status = PRStatus.MERGED →
        Postgres.PullRequestRepository.GetByID prID (op.run db).2 = Except.ok pr := by
  cases op with
  | CreatePullRequest now rnd prID0 prName authorID =>
    have h := createPullRequest_frozen now rnd prID0 prName authorID db hupk hpk
    unfold Op.run
    simp only
    split <;> next heq => rw [heq] at h; exact h
  | MergePullRequest now prID0 =>
    have h := mergePullRequest_frozen now prID0 db hupk hpk
    unfold Op.run
    simp only
    split <;> next heq => rw [heq] at h; exact h
  | ReassignReviewer rnd prID0 oldUserID =>
    have h := reassignReviewer_frozen rnd prID0 oldUserID db hupk hpk
    unfold Op.run
    simp only
    split <;> next heq => rw [heq] at h; exact h
  | DeactivateTeamMembers now rnd teamName =>
    have h := deactivateTeamMembers_frozen now rnd teamName db hupk hpk
    unfold Op.run
    simp only
    split <;> next heq => rw [heq] at h; exact h

theorem runAll_frozen : ∀ (ops : List Op) (db : DB), UniqueUserIDs db →
    UniquePullRequestIDs db →
    ∀ prID pr, Postgres.PullRequestRepository.GetByID prID db = Except.ok pr →
      pr.Status = PRStatus.MERGED →
      Postgres.PullRequestRepository.GetByID prID (runAll ops db) = Except.ok pr := by
  intro ops
  induction ops with
  | nil => intro db _ _ prID pr hget _; exact hget
  | cons op rest ih =>
    intro db hupk hpk prID pr hget hmerged
    obtain ⟨hupk2, hpk2, hkeep⟩ := run_frozen op db hupk hpk
    exact ih (op.run db).2 hupk2 hpk2 prID pr (hkeep prID pr hget hmerged) hmerged

/-- C20: over a store with unique user ids and unique pull request ids, a pull request
that reads back as the MERGED record pr reads back as the same record pr (so MERGED, with
the same merge time, reviewer list, name and author) after any one of CreatePullRequest,
MergePullRequest, ReassignReviewer and DeactivateTeamMembers with any arguments, whether
the operation succeeds or fails, and after any sequence of such operations. -/
theorem merged_is_frozen (db : DB) (prID : String) (pr : PullRequest)
    (hupk : UniqueUserIDs db) (hpk : UniquePullRequestIDs db)
    (hget : Postgres.PullRequestRepository.GetByID prID db = Except.ok pr)
    (hmerged : pr.Status = PRStatus.MERGED) :
    (∀ op : Op, Postgres.PullRequestRepository.GetByID prID (op.run db).2 = Except.ok pr) ∧
      (∀ ops : List Op,
        Postgres.PullRequestRepository.GetByID prID (runAll ops db) = Except.ok pr) :=
  ⟨fun op => (run_frozen op db hupk hpk).2.2 prID pr hget hmerged,
    fun ops => runAll_frozen ops db hupk hpk prID pr hget hmerged⟩

theorem merged_is_frozen_witness :
    UniqueUserIDs sampleDB ∧ UniquePullRequestIDs sampleDB ∧
      Postgres.PullRequestRepository.GetByID "p2" sampleDB =
        Except.ok ⟨"p2", "fix", "A", PRStatus.MERGED, ["B"], 2, some 3⟩ ∧
      Postgres.PullRequestRepository.GetByID "p2"
          ((Op.ReassignReviewer [] "p2" "B").run sampleDB).2 =
        Except.ok ⟨"p2", "fix", "A", PRStatus.MERGED, ["B"], 2, some 3⟩ ∧
      Postgres.PullRequestRepository.GetByID "p2"
          (runAll [Op.MergePullRequest 7 "p2", Op.DeactivateTeamMembers 9 [] "eng",
            Op.CreatePullRequest 10 [] "p3" "next" "D"] sampleDB) =
        Except.ok ⟨"p2", "fix", "A", PRStatus.MERGED, ["B"], 2, some 3⟩ :=
  ⟨by decide, by decide, by decide,
    (merged_is_frozen sampleDB "p2" ⟨"p2", "fix", "A", PRStatus.MERGED, ["B"], 2, some 3⟩
      (by decide) (by decide) (by decide) rfl).1 _,
    (merged_is_frozen sampleDB "p2" ⟨"p2", "fix", "A", PRStatus.MERGED, ["B"], 2, some 3⟩
      (by decide) (by decide) (by decide) rfl).2 _⟩

/-! ## The merge timestamp is set by the merge only -/

theorem timestampStep_refl (merges : Time → String → Prop) (db : DB) :
    TimestampStep merges db db :=
  fun _ after h => Or.inl ⟨after, h, rfl, rfl⟩

/-- Writing the record upd over the row read back as pr0: every other id reads back as
before, and the id of pr0 reads back as upd. -/
theorem getByID_updatedRows_cases {db : DB} {prID0 : String} {pr0 upd : PullRequest}
    (hget0 : Postgres.PullRequestRepository.GetByID prID0 db = Except.ok pr0)
    (hid : upd.PullRequestID = prID0) (hauthor : upd.AuthorID = pr0.AuthorID)
    (hcreated : upd.CreatedAt = pr0.CreatedAt) (prID : String) :
    (prID = prID0 ∧
      Postgres.PullRequestRepository.GetByID prID
        { db with
          pullRequests := Postgres.updatedRows upd db.pullRequests,
          journal := db.journal ++ [Write.pullRequestUpdate upd] } = Except.ok upd) ∨
    (prID ≠ prID0 ∧
      Postgres.PullRequestRepository.GetByID prID
        { db with
          pullRequests := Postgres.updatedRows upd db.pullRequests,
          journal := db.journal ++ [Write.pullRequestUpdate upd] } =
        Postgres.PullRequestRepository.GetByID prID db) := by
  by_cases h : prID = prID0
  · left
    subst h
    exact ⟨rfl, getByID_after_update hget0 hid hauthor hcreated⟩
  · right
    refine ⟨h, ?_⟩
    have hne : prID ≠ upd.PullRequestID := by rw [hid]; exact h
    unfold Postgres.PullRequestRepository.GetByID
    simp only [find?_updatedRows_other upd prID hne]

theorem createPullRequest_timestampStep (merges : Time → String → Prop) (now : Time)
    (rnd : Rand) (prID0 prName authorID : String) (db : DB) :
    TimestampStep merges db (prUseCase.CreatePullRequest now rnd prID0 prName authorID db).2 := by
  rcases hc : prUseCase.CreatePullRequest now rnd prID0 prName authorID db with ⟨res, db'⟩
  cases res with
  | error err =>
    have hdb : db' = db := runInTransaction_rollback hc
    subst hdb
    exact timestampStep_refl merges _
  | ok r =>
    obtain ⟨_, _, _, _, _, hr, hdb⟩ := createPullRequest_ok_inv hc
    subst hdb
    intro prID after hafter
    rcases getByID_cases prID db with hnone | ⟨before, hbefore⟩
    · right; right
      refine ⟨hnone, ?_⟩
      have hfind : db.pullRequests.find? (fun row => decide (row.PullRequestID = prID)) = none := by
        simpa [List.find?_eq_none] using hnone
      unfold Postgres.PullRequestRepository.GetByID at hafter
      simp only [List.find?_append, hfind, Option.none_or] at hafter
      have hmem := List.mem_of_find?_eq_some (a := after) (l := [r])
        (p := fun row => decide (row.PullRequestID = prID))
      split at hafter
      · next found hfound =>
        cases hafter
        have := hmem hfound
        rw [List.mem_singleton] at this
        rw [this, hr]
        exact ⟨rfl, rfl⟩
      · cases hafter
    · left
      have heq : before = after := by
        dsimp only at hafter
        rw [getByID_append _ hbefore] at hafter
        exact Except.ok.inj hafter
      subst heq
      exact ⟨_, hbefore, rfl, rfl⟩

theorem mergePullRequest_timestampStep (now : Time) (prID0 : String) (db : DB) :
    TimestampStep (fun t prID => t = now ∧ prID = prID0) db
      (prUseCase.MergePullRequest now prID0 db).2 := by
  rcases hc : prUseCase.MergePullRequest now prID0 db with ⟨res, db'⟩
  cases res with
  | error err =>
    have hdb : db' = db := runInTransaction_rollback hc
    subst hdb
    exact timestampStep_refl _ _
  | ok r =>
    obtain ⟨pr0, hget0, ⟨_, _, hdb⟩ | ⟨hopen, _, hdb⟩⟩ := mergePullRequest_ok_inv hc
    · subst hdb
      exact timestampStep_refl _ _
    · subst hdb
      intro prID after hafter
      dsimp only at hafter
      rcases @getByID_updatedRows_cases db prID0 pr0
          { pr0 with Status := PRStatus.MERGED, MergedAt := some now }
          hget0 (getByID_mem hget0).2 rfl rfl prID with
        ⟨hsame, hread⟩ | ⟨_, hread⟩
      · right; left
        rw [hread] at hafter
        have heq := Except.ok.inj hafter
        subst hsame
        refine ⟨pr0, now, ⟨rfl, rfl⟩, hget0, hopen, ?_, ?_⟩ <;> rw [← heq]
      · left
        rw [hread] at hafter
        exact ⟨after, hafter, rfl, rfl⟩

theorem reassignReviewer_timestampStep (merges : Time → String → Prop) (rnd : Rand)
    (prID0 oldUserID : String) (db : DB) :
    TimestampStep merges db (prUseCase.ReassignReviewer rnd prID0 oldUserID db).2 := by
  rcases hc : prUseCase.ReassignReviewer rnd prID0 oldUserID db with ⟨⟨res, newID⟩, db'⟩
  cases res with
  | error err =>
    have hdb : db' = db := by
      unfold PullRequestUseCase.ReassignReviewer at hc
      split at hc
      · next heq =>
        cases hc
        exact runInTransaction_rollback heq
      · cases hc
    subst hdb
    exact timestampStep_refl merges _
  | ok r =>
    obtain ⟨pr0, i, _, _, c, hget0, _, _, _, _, _, hr, _, hdb⟩ := reassignReviewer_ok_inv hc
    subst hdb
    intro prID after hafter
    dsimp only at hafter
    have hid : r.PullRequestID = prID0 := by rw [hr]; exact (getByID_mem hget0).2
    have hauthor : r.AuthorID = pr0.AuthorID := by rw [hr]
    have hcreated : r.CreatedAt = pr0.CreatedAt := by rw [hr]
    rcases getByID_updatedRows_cases hget0 hid hauthor hcreated prID with
      ⟨hsame, hread⟩ | ⟨_, hread⟩
    · left
      rw [hread] at hafter
      have heq := Except.ok.inj hafter
      subst hsame
      refine ⟨pr0, hget0, ?_, ?_⟩ <;> rw [← heq, hr]
    · left
      rw [hread] at hafter
      exact ⟨after, hafter, rfl, rfl⟩

theorem deactivateTeamMembers_timestampStep (merges : Time → String → Prop) (now : Time)
    (rnd : Rand) (teamName : String) (db : DB) (hupk : UniqueUserIDs db)
    (hpk : UniquePullRequestIDs db) :
    TimestampStep merges db (teamUseCase.DeactivateTeamMembers now rnd teamName db).2 := by
  rcases teamGetByName_cases teamName db with hnone | ⟨team, hteam⟩
  · rw [(deactivateTeamMembers_notFound now rnd hnone).2]
    exact timestampStep_refl merges _
  · obtain ⟨db', hrun, _, hrows, _⟩ :=
      deactivateTeamMembers_spec now rnd teamName db team hteam hupk hpk
    rw [hrun]
    have hgid : ∀ row : PullRequest,
        (if row.Status = PRStatus.OPEN then
          { row with
            AssignedReviewers := row.AssignedReviewers.diff (activeMemberIDs db teamName) }
        else row).PullRequestID = row.PullRequestID := by
      intro row
      split <;> rfl
    intro prID after hafter
    left
    have hafter2 : Postgres.PullRequestRepository.GetByID prID db' = Except.ok after := hafter
    rw [getByID_map hgid prID db db' hrows] at hafter2
    rcases getByID_cases prID db with hnone | ⟨before, hbefore⟩
    · rw [getByID_none hnone] at hafter2
      cases hafter2
    · rw [hbefore] at hafter2
      have hval : (if before.Status = PRStatus.OPEN then
          { before with
            AssignedReviewers := before.AssignedReviewers.diff (activeMemberIDs db teamName) }
        else before) = after := by
        have := hafter2
        simp only [Except.map] at this
        exact Except.ok.inj this
      refine ⟨before, hbefore, ?_, ?_⟩ <;> rw [← hval] <;> split <;> rfl

theorem timestampStep_mono {m1 m2 : Time → String → Prop} {db db1 : DB}
    (hm : ∀ t prID, m1 t prID → m2 t prID) (h : TimestampStep m1 db db1) :
    TimestampStep m2 db db1 := by
  intro prID after hafter
  rcases h prID after hafter with h1 | ⟨before, now, hmerge, h2⟩ | h3
  · exact Or.inl h1
  · exact Or.inr (Or.inl ⟨before, now, hm _ _ hmerge, h2⟩)
  · exact Or.inr (Or.inr h3)

theorem run_timestampStep (op : Op) (db : DB) (hupk : UniqueUserIDs db)
    (hpk : UniquePullRequestIDs db) :
    TimestampStep (fun now prID => op = Op.MergePullRequest now prID) db (op.run db).2 := by
  cases op with
  | CreatePullRequest now rnd prID0 prName authorID =>
    have h := createPullRequest_timestampStep
      (fun t prID => Op.CreatePullRequest now rnd prID0 prName authorID =
        Op.MergePullRequest t prID) now rnd prID0 prName authorID db
    unfold Op.run
    simp only
    split <;> next heq => rw [heq] at h; exact h
  | MergePullRequest now prID0 =>
    have h : TimestampStep
        (fun t prID => Op.MergePullRequest now prID0 = Op.MergePullRequest t prID) db
        (prUseCase.MergePullRequest now prID0 db).2 :=
      timestampStep_mono (fun t prID ht => by rw [ht.1, ht.2])
        (mergePullRequest_timestampStep now prID0 db)
    unfold Op.run
    simp only
    split <;> next heq => rw [heq] at h; exact h
  | ReassignReviewer rnd prID0 oldUserID =>
    have h := reassignReviewer_timestampStep
      (fun t prID => Op.ReassignReviewer rnd prID0 oldUserID = Op.MergePullRequest t prID)
      rnd prID0 oldUserID db
    unfold Op.run
    simp only
    split <;> next heq => rw [heq] at h; exact h
  | DeactivateTeamMembers now rnd teamName =>
    have h := deactivateTeamMembers_timestampStep
      (fun t prID => Op.DeactivateTeamMembers now rnd teamName = Op.MergePullRequest t prID)
      now rnd teamName db hupk hpk
    unfold Op.run
    simp only
    split <;> next heq => rw [heq] at h; exact h

theorem mergedAtIffMerged_rowInvariant :
    RowInvariant (fun pr => pr.MergedAt.isSome = true ↔ pr.Status = PRStatus.MERGED) where
  merge := fun _ _ _ => ⟨fun _ => rfl, fun _ => rfl⟩
  replace := fun _ _ _ h _ _ _ => h
  remove := fun _ _ h => h

/-- C21: over a store with unique user ids and unique pull request ids in which every
pull request has a merge timestamp exactly when it is MERGED, the same holds after any
CreatePullRequest, MergePullRequest, ReassignReviewer or DeactivateTeamMembers (whether it
succeeds or fails). A pull request whose merge timestamp differs after the operation had
none and was OPEN before, is MERGED after, and the operation is the MergePullRequest of
that pull request, whose clock reading is the new timestamp; a pull request that is new
after the operation has no merge timestamp. -/
theorem mergedAt_iff_merged (op : Op) (db : DB) (hupk : UniqueUserIDs db)
    (hpk : UniquePullRequestIDs db) (hinv : MergedAtIffMerged db) :
    MergedAtIffMerged (op.run db).2 ∧
    (∀ prID before after,
      Postgres.PullRequestRepository.GetByID prID db = Except.ok before →
      Postgres.PullRequestRepository.GetByID prID (op.run db).2 = Except.ok after →
      after.MergedAt ≠ before.MergedAt →
      before.Status = PRStatus.OPEN ∧ before.MergedAt = none ∧
        after.Status = PRStatus.MERGED ∧
        ∃ now, op = Op.MergePullRequest now prID ∧ after.MergedAt = some now) ∧
    (∀ prID after, (∀ row ∈ db.pullRequests, row.PullRequestID ≠ prID) →
      Postgres.PullRequestRepository.GetByID prID (op.run db).2 = Except.ok after →
      after.Status = PRStatus.OPEN ∧ after.MergedAt = none) := by
  have hstep := run_timestampStep op db hupk hpk
  refine ⟨?_, ?_, ?_⟩
  · have hstore : StoreInvariant
        (fun pr => pr.MergedAt.isSome = true ↔ pr.Status = PRStatus.MERGED) db := ⟨hpk, hinv⟩
    refine (run_storeInvariant mergedAtIffMerged_rowInvariant op db hstore ?_).2
    intro now rnd prID prName authorID pr db' hc
    obtain ⟨_, _, _, _, _, hr, _⟩ := createPullRequest_ok_inv hc
    rw [hr]
    exact ⟨fun h => (by cases h), fun h => (by cases h)⟩
  · intro prID before after hbefore hafter hne
    rcases hstep prID after hafter with ⟨b, hb, _, hsame⟩ | ⟨b, now, hop, hb, hopen, hmerged, hat⟩ |
      ⟨hnone, _⟩
    · rw [hbefore] at hb
      cases hb
      exact absurd hsame hne
    · rw [hbefore] at hb
      cases hb
      refine ⟨hopen, ?_, hmerged, now, hop, hat⟩
      have hiff := hinv before (getByID_mem hbefore).1
      cases hm : before.MergedAt with
      | none => rfl
      | some t =>
        have := hiff.mp (by rw [hm]; rfl)
        rw [hopen] at this
        cases this
    · rw [getByID_none hnone] at hbefore
      cases hbefore
  · intro prID after hnone hafter
    rcases hstep prID after hafter with ⟨b, hb, _, _⟩ | ⟨b, now, _, hb, _⟩ | ⟨_, h⟩
    · rw [getByID_none hnone] at hb
      cases hb
    · rw [getByID_none hnone] at hb
      cases hb
    · exact h

theorem mergedAt_iff_merged_witness :
    UniqueUserIDs sampleDB ∧ UniquePullRequestIDs sampleDB ∧ MergedAtIffMerged sampleDB ∧
      MergedAtIffMerged ((Op.MergePullRequest 7 "p1").run sampleDB).2 ∧
      Postgres.PullRequestRepository.GetByID "p1" ((Op.MergePullRequest 7 "p1").run sampleDB).2 =
        Except.ok ⟨"p1", "feature", "A", PRStatus.MERGED, ["B", "C"], 1, some 7⟩ :=
  ⟨by decide, by decide, by decide,
    (mergedAt_iff_merged (Op.MergePullRequest 7 "p1") sampleDB (by decide) (by decide)
      (by decide)).1,
    by decide⟩

/-! ## Lemmas: UpsertBatch, CreateTeam and SetIsActive -/

theorem upsertUser_ids_of_any {user : User} {rows : List User}
    (h : rows.any (fun row => decide (row.UserID = user.UserID)) = true) :
    (Postgres.upsertUser user rows).map (fun row => row.UserID) =
      rows.map (fun row => row.UserID) := by
  unfold Postgres.upsertUser
  rw [if_pos h, List.map_map]
  apply List.map_congr_left
  intro row _
  simp only [Function.comp]
  split <;> rfl

theorem upsertUser_of_not_any {user : User} {rows : List User}
    (h : ¬ rows.any (fun row => decide (row.UserID = user.UserID)) = true) :
    Postgres.upsertUser user rows = rows ++ [user] := by
  unfold Postgres.upsertUser
  rw [if_neg h]

/-- The upsert of one user keeps the primary key of users. -/
theorem upsertUser_nodup {user : User} {rows : List User}
    (h : (rows.map (fun row => row.UserID)).Nodup) :
    ((Postgres.upsertUser user rows).map (fun row => row.UserID)).Nodup := by
  by_cases hany : rows.any (fun row => decide (row.UserID = user.UserID)) = true
  · rw [upsertUser_ids_of_any hany]
    exact h
  · rw [upsertUser_of_not_any hany, List.map_append, List.map_cons, List.map_nil]
    refine List.Nodup.append h (List.nodup_singleton _) ?_
    intro x hx hx2
    rw [List.mem_singleton] at hx2
    subst hx2
    apply hany
    obtain ⟨row, hrow, hid⟩ := List.mem_map.mp hx
    simp only [List.any_eq_true, decide_eq_true_eq]
    exact ⟨row, hrow, hid⟩

/-- A row after the upsert of one user is an old row with another id, or carries the id,
name, team and activity flag of the user. -/
theorem mem_upsertUser {user row : User} {rows : List User}
    (h : row ∈ Postgres.upsertUser user rows) :
    (row ∈ rows ∧ row.UserID ≠ user.UserID) ∨
      (row.UserID = user.UserID ∧ row.Username = user.Username ∧
        row.TeamName = user.TeamName ∧ row.IsActive = user.IsActive) := by
  unfold Postgres.upsertUser at h
  split at h
  · obtain ⟨old, hold, hrow⟩ := List.mem_map.mp h
    by_cases hid : old.UserID = user.UserID
    · right
      rw [if_pos hid] at hrow
      rw [← hrow]
      exact ⟨hid, rfl, rfl, rfl⟩
    · left
      rw [if_neg hid] at hrow
      rw [← hrow]
      exact ⟨hold, hid⟩
  · rcases List.mem_append.mp h with h1 | h1
    · by_cases hid : row.UserID = user.UserID
      · exact Or.inr (by
          next hany =>
          exact absurd (List.any_eq_true.mpr ⟨row, h1, by simpa using hid⟩) hany)
      · exact Or.inl ⟨h1, hid⟩
    · rw [List.mem_singleton] at h1
      rw [h1]
      exact Or.inr ⟨rfl, rfl, rfl, rfl⟩

/-- After the upsert of one user some row carries the user's id, name, team and flag. -/
theorem upsertUser_has (user : User) (rows : List User) :
    ∃ row ∈ Postgres.upsertUser user rows,
      row.UserID = user.UserID ∧ row.Username = user.Username ∧
        row.TeamName = user.TeamName ∧ row.IsActive = user.IsActive := by
  by_cases hany : rows.any (fun row => decide (row.UserID = user.UserID)) = true
  · obtain ⟨old, hold, hid⟩ := List.any_eq_true.mp hany
    have hid2 : old.UserID = user.UserID := by simpa using hid
    unfold Postgres.upsertUser
    rw [if_pos hany]
    refine ⟨_, List.mem_map.mpr ⟨old, hold, rfl⟩, ?_⟩
    rw [if_pos hid2]
    exact ⟨hid2, rfl, rfl, rfl⟩
  · rw [upsertUser_of_not_any hany]
    exact ⟨user, List.mem_append_right _ (List.mem_singleton_self _), rfl, rfl, rfl, rfl⟩

/-- The upsert of one user keeps every row with another id. -/
theorem upsertUser_keeps {user row : User} {rows : List User} (hrow : row ∈ rows)
    (hid : row.UserID ≠ user.UserID) : row ∈ Postgres.upsertUser user rows := by
  unfold Postgres.upsertUser
  split
  · refine List.mem_map.mpr ⟨row, hrow, ?_⟩
    rw [if_neg hid]
  · exact List.mem_append_left _ hrow

/-- The lookup of another id is not changed by the upsert of one user. -/
theorem find?_upsertUser_other {user : User} {userID : String} (rows : List User)
    (hid : user.UserID ≠ userID) :
    (Postgres.upsertUser user rows).find? (fun row => decide (row.UserID = userID)) =
      rows.find? (fun row => decide (row.UserID = userID)) := by
  have hmap : ∀ rows : List User,
      (rows.map (fun row =>
        if row.UserID = user.UserID then
          { row with
            Username := user.Username, TeamName := user.TeamName,
            IsActive := user.IsActive, UpdatedAt := user.UpdatedAt }
        else row)).find? (fun row => decide (row.UserID = userID)) =
      rows.find? (fun row => decide (row.UserID = userID)) := by
    intro rows
    induction rows with
    | nil => rfl
    | cons r rest ih =>
      rw [List.map_cons, List.find?_cons, List.find?_cons]
      by_cases hr : r.UserID = user.UserID
      · have hne : ¬ r.UserID = userID := by rw [hr]; exact hid
        rw [if_pos hr]
        dsimp only
        simp only [hne, decide_False]
        exact ih
      · rw [if_neg hr]
        by_cases hu : r.UserID = userID
        · simp only [hu, decide_True]
        · simp only [hu, decide_False]
          exact ih
  unfold Postgres.upsertUser
  split
  · exact hmap rows
  · rw [List.find?_append]
    have : [user].find? (fun row => decide (row.UserID = userID)) = none := by
      simp [List.find?_cons, hid]
    rw [this, Option.or_none]

theorem upsertAll_nodup : ∀ (users rows : List User),
    (rows.map (fun row => row.UserID)).Nodup →
    ((users.foldl (fun rows user => Postgres.upsertUser user rows) rows).map
      (fun row => row.UserID)).Nodup := by
  intro users
  induction users with
  | nil => intro rows h; exact h
  | cons u us ih => intro rows h; exact ih _ (upsertUser_nodup h)

theorem find?_upsertAll_other {userID : String} : ∀ (users rows : List User),
    userID ∉ users.map (fun user => user.UserID) →
    (users.foldl (fun rows user => Postgres.upsertUser user rows) rows).find?
        (fun row => decide (row.UserID = userID)) =
      rows.find? (fun row => decide (row.UserID = userID)) := by
  intro users
  induction users with
  | nil => intro rows _; rfl
  | cons u us ih =>
    intro rows h
    simp only [List.map_cons, List.mem_cons, not_or] at h
    rw [List.foldl_cons, ih _ h.2, find?_upsertUser_other rows (fun hc => h.1 hc.symm)]

theorem upsertAll_keeps {row : User} : ∀ (users rows : List User), row ∈ rows →
    row.UserID ∉ users.map (fun user => user.UserID) →
    row ∈ users.foldl (fun rows user => Postgres.upsertUser user rows) rows := by
  intro users
  induction users with
  | nil => intro rows h _; exact h
  | cons u us ih =>
    intro rows hrow h
    simp only [List.map_cons, List.mem_cons, not_or] at h
    exact ih _ (upsertUser_keeps hrow h.1) h.2

theorem mem_upsertAll {row : User} : ∀ (users rows : List User),
    row ∈ users.foldl (fun rows user => Postgres.upsertUser user rows) rows →
    (row ∈ rows ∧ row.UserID ∉ users.map (fun user => user.UserID)) ∨
      ∃ user ∈ users, row.UserID = user.UserID ∧ row.Username = user.Username ∧
        row.TeamName = user.TeamName ∧ row.IsActive = user.IsActive := by
  intro users
  induction users with
  | nil => intro rows h; exact Or.inl ⟨h, by simp⟩
  | cons u us ih =>
    intro rows h
    rcases ih _ h with ⟨h1, h2⟩ | ⟨user, huser, hm⟩
    · rcases mem_upsertUser h1 with ⟨h3, h4⟩ | hm
      · left
        refine ⟨h3, ?_⟩
        simp only [List.map_cons, List.mem_cons, not_or]
        exact ⟨h4, h2⟩
      · exact Or.inr ⟨u, List.mem_cons_self _ _, hm⟩
    · exact Or.inr ⟨user, List.mem_cons_of_mem _ huser, hm⟩

theorem upsertAll_has : ∀ (users rows : List User),
    (users.map (fun user => user.UserID)).Nodup → ∀ user ∈ users,
    ∃ row ∈ users.foldl (fun rows user => Postgres.upsertUser user rows) rows,
      row.UserID = user.UserID ∧ row.Username = user.Username ∧
        row.TeamName = user.TeamName ∧ row.IsActive = user.IsActive := by
  intro users
  induction users with
  | nil => intro rows _ user h; cases h
  | cons u us ih =>
    intro rows hnodup user huser
    rw [List.map_cons, List.nodup_cons] at hnodup
    rcases List.mem_cons.mp huser with h | h
    · subst h
      obtain ⟨row, hrow, hm⟩ := upsertUser_has user rows
      refine ⟨row, upsertAll_keeps us _ hrow ?_, hm⟩
      rw [hm.1]
      exact hnodup.1
    · exact ih _ hnodup.2 user h

theorem teamExists_true_iff {db : DB} {teamName : String} :
    Postgres.TeamRepository.Exists teamName db = Except.ok true ↔
      ∃ team ∈ db.teams, team.TeamName = teamName := by
  simp [Postgres.TeamRepository.Exists]

theorem teamExists_false_iff {db : DB} {teamName : String} :
    Postgres.TeamRepository.Exists teamName db = Except.ok false ↔
      ∀ team ∈ db.teams, team.TeamName ≠ teamName := by
  simp [Postgres.TeamRepository.Exists]

theorem createTeamTx_exists {db : DB} (createdAt updatedAt now : Time)
    (teamWithMembers : TeamWithMembers)
    (h : ∃ team ∈ db.teams, team.TeamName = teamWithMembers.TeamName) :
    teamUseCase.createTeamTx createdAt updatedAt now teamWithMembers db =
      (Except.error (NewDomainError "TEAM_EXISTS" "team_name already exists" ErrTeamExists),
        db) := by
  have hex : teamUseCase.teamRepo.Exists teamWithMembers.TeamName db = Except.ok true :=
    teamExists_true_iff.mpr h
  simp only [TeamUseCase.createTeamTx, hex]

theorem createTeamTx_new {db : DB} (createdAt updatedAt now : Time)
    (teamWithMembers : TeamWithMembers)
    (h : ∀ team ∈ db.teams, team.TeamName ≠ teamWithMembers.TeamName) :
    teamUseCase.createTeamTx createdAt updatedAt now teamWithMembers db =
      (Except.ok teamWithMembers,
        { teams := db.teams ++ [⟨teamWithMembers.TeamName, createdAt, updatedAt⟩],
          users :=
            (memberUsers teamWithMembers.TeamName now teamWithMembers.Members).foldl
              (fun rows user => Postgres.upsertUser user rows) db.users,
          pullRequests := db.pullRequests,
          journal := (db.journal ++ [Write.teamCreate ⟨teamWithMembers.TeamName, createdAt, updatedAt⟩]) ++
            [Write.userUpsertBatch
              (memberUsers teamWithMembers.TeamName now teamWithMembers.Members)] }) := by
  have hex : teamUseCase.teamRepo.Exists teamWithMembers.TeamName db = Except.ok false :=
    teamExists_false_iff.mpr h
  simp only [TeamUseCase.createTeamTx, hex]
  rfl

/-- SetIsActive: every user reads back afterwards with the same id, name, team and
creation time; the store of teams and pull requests is not touched. -/
theorem setIsActive_frame (now : Time) (userID : String) (isActive : Bool) (db : DB)
    (u : String) (before : User)
    (hbefore : Postgres.UserRepository.GetByID u db = Except.ok before) :
    ∃ after,
      Postgres.UserRepository.GetByID u (userUseCase.SetIsActive now userID isActive db).2 =
        Except.ok after ∧
      after.UserID = before.UserID ∧ after.Username = before.Username ∧
      after.TeamName = before.TeamName ∧ after.CreatedAt = before.CreatedAt ∧
      (u ≠ userID → after = before) := by
  rcases userGetByID_cases userID db with hnone | ⟨found, hfound⟩
  · have hget : userUseCase.userRepo.GetByID userID db = Except.error ErrNotFound :=
      userGetByID_none hnone
    have his : ErrNotFound.Is ErrNotFound = true := by decide
    refine ⟨before, ?_, rfl, rfl, rfl, rfl, fun _ => rfl⟩
    simp only [UserUseCase.SetIsActive, hget, his, if_true]
    exact hbefore
  · have hget : userUseCase.userRepo.GetByID userID db = Except.ok found := hfound
    have hfid := (userGetByID_mem hfound).2
    have hany : db.users.any (fun row => decide (row.UserID = found.UserID)) = true := by
      simp only [List.any_eq_true, decide_eq_true_eq]
      exact ⟨found, (userGetByID_mem hfound).1, rfl⟩
    have hupd : userUseCase.userRepo.Update { found with IsActive := isActive, UpdatedAt := now } db =
        (Except.ok (),
          { db with
            users := db.users.map (fun row =>
              if row.UserID = found.UserID then
                { row with
                  Username := found.Username, TeamName := found.TeamName,
                  IsActive := isActive, UpdatedAt := now }
              else row),
            journal := db.journal ++
              [Write.userUpdate { found with IsActive := isActive, UpdatedAt := now }] }) := by
      show Postgres.UserRepository.Update _ db = _
      unfold Postgres.UserRepository.Update
      rw [if_pos hany]
    have hstate : (userUseCase.SetIsActive now userID isActive db).2 =
        { db with
          users := db.users.map (fun row =>
            if row.UserID = found.UserID then
              { row with
                Username := found.Username, TeamName := found.TeamName,
                IsActive := isActive, UpdatedAt := now }
            else row),
          journal := db.journal ++
            [Write.userUpdate { found with IsActive := isActive, UpdatedAt := now }] } := by
      simp only [UserUseCase.SetIsActive, hget, hupd]
    rw [hstate]
    have hg : ∀ row : User,
        (if row.UserID = found.UserID then
          { row with
            Username := found.Username, TeamName := found.TeamName,
            IsActive := isActive, UpdatedAt := now }
        else row).UserID = row.UserID := by
      intro row
      split <;> rfl
    rw [userGetByID_map hg u db _ rfl, hbefore]
    refine ⟨_, rfl, hg before, ?_, ?_, ?_, ?_⟩ <;> dsimp only
    · by_cases hid : before.UserID = found.UserID
      · have hsame : before = found := by
          have hu : u = userID := by
            rw [← (userGetByID_mem hbefore).2, hid, hfid]
          rw [hu, hfound] at hbefore
          exact (Except.ok.inj hbefore).symm
        rw [if_pos hid, hsame]
      · rw [if_neg hid]
    · by_cases hid : before.UserID = found.UserID
      · have hsame : before = found := by
          have hu : u = userID := by
            rw [← (userGetByID_mem hbefore).2, hid, hfid]
          rw [hu, hfound] at hbefore
          exact (Except.ok.inj hbefore).symm
        rw [if_pos hid, hsame]
      · rw [if_neg hid]
    · split <;> rfl
    · intro hne
      have hid : ¬ before.UserID = found.UserID := by
        rw [(userGetByID_mem hbefore).2, hfid]
        exact hne
      rw [if_neg hid]

theorem upsertAll_ids_subset : ∀ (users rows : List User) (x : String),
    x ∈ rows.map (fun row => row.UserID) →
    x ∈ (users.foldl (fun rows user => Postgres.upsertUser user rows) rows).map
      (fun row => row.UserID) := by
  intro users
  induction users with
  | nil => intro rows x h; exact h
  | cons u us ih =>
    intro rows x h
    apply ih
    show x ∈ (Postgres.upsertUser u rows).map (fun row => row.UserID)
    by_cases hany : rows.any (fun row => decide (row.UserID = u.UserID)) = true
    · rw [upsertUser_ids_of_any hany]
      exact h
    · rw [upsertUser_of_not_any hany, List.map_append]
      exact List.mem_append_left _ h

/-- CreateTeam over the postgres repositories: TEAM_EXISTS without any change when a teams
row has the name, and otherwise success with the team row added and the members upserted. -/
theorem createTeam_cases (createdAt updatedAt now : Time) (teamWithMembers : TeamWithMembers)
    (db : DB) :
    ((∃ team ∈ db.teams, team.TeamName = teamWithMembers.TeamName) ∧
      teamUseCase.CreateTeam createdAt updatedAt now teamWithMembers db =
        (Except.error (NewDomainError "TEAM_EXISTS" "team_name already exists" ErrTeamExists),
          db)) ∨
    ((∀ team ∈ db.teams, team.TeamName ≠ teamWithMembers.TeamName) ∧
      teamUseCase.CreateTeam createdAt updatedAt now teamWithMembers db =
        (Except.ok teamWithMembers,
          { teams := db.teams ++ [⟨teamWithMembers.TeamName, createdAt, updatedAt⟩],
            users :=
              (memberUsers teamWithMembers.TeamName now teamWithMembers.Members).foldl
                (fun rows user => Postgres.upsertUser user rows) db.users,
            pullRequests := db.pullRequests,
            journal :=
              (db.journal ++
                [Write.teamCreate ⟨teamWithMembers.TeamName, createdAt, updatedAt⟩]) ++
              [Write.userUpsertBatch
                (memberUsers teamWithMembers.TeamName now teamWithMembers.Members)] })) := by
  by_cases h : ∃ team ∈ db.teams, team.TeamName = teamWithMembers.TeamName
  · exact Or.inl ⟨h, runInTransaction_error (createTeamTx_exists createdAt updatedAt now _ h)⟩
  · have h2 : ∀ team ∈ db.teams, team.TeamName ≠ teamWithMembers.TeamName :=
      fun team hteam hname => h ⟨team, hteam, hname⟩
    exact Or.inr ⟨h2, runInTransaction_ok (createTeamTx_new createdAt updatedAt now _ h2)⟩

theorem memberUsers_ids (teamName : String) (now : Time) (members : List TeamMember) :
    (memberUsers teamName now members).map (fun user => user.UserID) =
      members.map (fun member => member.UserID) := by
  simp [memberUsers, List.map_map, Function.comp]

theorem memberUsers_teamName {teamName : String} {now : Time} {members : List TeamMember}
    {user : User} (h : user ∈ memberUsers teamName now members) : user.TeamName = teamName := by
  obtain ⟨member, _, hu⟩ := List.mem_map.mp h
  rw [← hu]

/-! ## Claims on the team directory -/

/-- C22 (counterexample): on the sample store the user A is a member of team eng; creating
the team ops with a member list that names A succeeds and afterwards A reads back as a
member of team ops. -/
theorem createTeam_moves_existing_user :
    Postgres.UserRepository.GetByID "A" sampleDB =
        Except.ok ⟨"A", "alice", "eng", true, 0, 0⟩ ∧
      (teamUseCase.CreateTeam 5 5 5 ⟨"ops", [⟨"A", "alice", true⟩]⟩ sampleDB).1 =
        Except.ok ⟨"ops", [⟨"A", "alice", true⟩]⟩ ∧
      Postgres.UserRepository.GetByID "A"
          (teamUseCase.CreateTeam 5 5 5 ⟨"ops", [⟨"A", "alice", true⟩]⟩ sampleDB).2 =
        Except.ok ⟨"A", "alice", "ops", true, 0, 5⟩ := by
  decide

/-- C22 (amended): for a user that reads back as the record before, SetIsActive (of any
user) and DeactivateTeamMembers (of any team, over a store with unique user ids and
unique pull request ids) leave the user's team name as it was; a CreateTeam whose member
list does not name the user's id, or whose team name already exists, leaves the whole
user record as it was; a CreateTeam of a new team whose member list names the user's id
moves the user to the new team. -/
theorem team_name_changes_only_by_upsert (db : DB) (u : String) (before : User)
    (hbefore : Postgres.UserRepository.GetByID u db = Except.ok before) :
    (∀ (now : Time) (userID : String) (isActive : Bool),
      ∃ after,
        Postgres.UserRepository.GetByID u
          (userUseCase.SetIsActive now userID isActive db).2 = Except.ok after ∧
        after.TeamName = before.TeamName) ∧
    (∀ (now : Time) (rnd : Rand) (teamName : String),
      UniqueUserIDs db → UniquePullRequestIDs db →
      ∃ after,
        Postgres.UserRepository.GetByID u
          (teamUseCase.DeactivateTeamMembers now rnd teamName db).2 = Except.ok after ∧
        after.TeamName = before.TeamName) ∧
    (∀ (createdAt updatedAt now : Time) (teamWithMembers : TeamWithMembers),
      ((u ∉ teamWithMembers.Members.map (fun member => member.UserID) ∨
          ∃ team ∈ db.teams, team.TeamName = teamWithMembers.TeamName) →
        Postgres.UserRepository.GetByID u
          (teamUseCase.CreateTeam createdAt updatedAt now teamWithMembers db).2 =
            Except.ok before) ∧
      (u ∈ teamWithMembers.Members.map (fun member => member.UserID) →
        (∀ team ∈ db.teams, team.TeamName ≠ teamWithMembers.TeamName) →
        ∃ after,
          Postgres.UserRepository.GetByID u
            (teamUseCase.CreateTeam createdAt updatedAt now teamWithMembers db).2 =
              Except.ok after ∧
          after.TeamName = teamWithMembers.TeamName)) := by
  refine ⟨?_, ?_, ?_⟩
  · intro now userID isActive
    obtain ⟨after, hafter, _, _, hteam, _⟩ := setIsActive_frame now userID isActive db u before hbefore
    exact ⟨after, hafter, hteam⟩
  · intro now rnd teamName hupk hpk
    rcases teamGetByName_cases teamName db with hnone | ⟨team, hteam⟩
    · rw [(deactivateTeamMembers_notFound now rnd hnone).2]
      exact ⟨before, hbefore, rfl⟩
    · obtain ⟨db', hrun, husers, _, _⟩ :=
        deactivateTeamMembers_spec now rnd teamName db team hteam hupk hpk
      rw [hrun]
      refine ⟨deactivatedRow teamName now before, ?_, deactivatedRow_teamName teamName now before⟩
      show Postgres.UserRepository.GetByID u db' = _
      rw [userGetByID_map (deactivatedRow_userID teamName now) u db db' husers, hbefore]
      rfl
  · intro createdAt updatedAt now teamWithMembers
    rcases createTeam_cases createdAt updatedAt now teamWithMembers db with
      ⟨hex, hrun⟩ | ⟨hnew, hrun⟩
    · rw [hrun]
      exact ⟨fun _ => hbefore, fun _ hno => absurd hex (fun ⟨team, ht, hn⟩ => hno team ht hn)⟩
    · rw [hrun]
      constructor
      · intro hcase
        rcases hcase with hnot | ⟨team, ht, hn⟩
        · unfold Postgres.UserRepository.GetByID at hbefore ⊢
          dsimp only
          rw [find?_upsertAll_other _ _ (by rw [memberUsers_ids]; exact hnot)]
          exact hbefore
        · exact absurd hn (hnew team ht)
      · intro hin _
        have hids : u ∈ (memberUsers teamWithMembers.TeamName now teamWithMembers.Members).map
            (fun user => user.UserID) := by
          rw [memberUsers_ids]; exact hin
        have hsub := upsertAll_ids_subset
          (memberUsers teamWithMembers.TeamName now teamWithMembers.Members) db.users u
          (List.mem_map.mpr ⟨before, (userGetByID_mem hbefore).1, (userGetByID_mem hbefore).2⟩)
        obtain ⟨row, hrow, hrid⟩ := List.mem_map.mp hsub
        rcases userGetByID_cases u
            { teams := db.teams ++ [⟨teamWithMembers.TeamName, createdAt, updatedAt⟩],
              users :=
                (memberUsers teamWithMembers.TeamName now teamWithMembers.Members).foldl
                  (fun rows user => Postgres.upsertUser user rows) db.users,
              pullRequests := db.pullRequests,
              journal :=
                (db.journal ++
                  [Write.teamCreate ⟨teamWithMembers.TeamName, createdAt, updatedAt⟩]) ++
                [Write.userUpsertBatch
                  (memberUsers teamWithMembers.TeamName now teamWithMembers.Members)] } with
          hnone | ⟨after, hafter⟩
        · exact absurd hrid (hnone row hrow)
        · refine ⟨after, hafter, ?_⟩
          have hmem := userGetByID_mem hafter
          rcases mem_upsertAll _ _ hmem.1 with ⟨_, hnot⟩ | ⟨user, huser, hm⟩
          · rw [hmem.2] at hnot
            exact absurd hids hnot
          · rw [hm.2.2.1]
            exact memberUsers_teamName huser

theorem team_name_changes_only_by_upsert_witness :
    Postgres.UserRepository.GetByID "A" sampleDB =
        Except.ok ⟨"A", "alice", "eng", true, 0, 0⟩ ∧
      (∃ after,
        Postgres.UserRepository.GetByID "A" (userUseCase.SetIsActive 4 "A" false sampleDB).2 =
          Except.ok after ∧
        after.TeamName = "eng") ∧
      Postgres.UserRepository.GetByID "A"
          (teamUseCase.CreateTeam 5 5 5 ⟨"ops", [⟨"Z", "zed", true⟩]⟩ sampleDB).2 =
        Except.ok ⟨"A", "alice", "eng", true, 0, 0⟩ :=
  ⟨by decide,
    (team_name_changes_only_by_upsert sampleDB "A" ⟨"A", "alice", "eng", true, 0, 0⟩
      (by decide)).1 4 "A" false,
    ((team_name_changes_only_by_upsert sampleDB "A" ⟨"A", "alice", "eng", true, 0, 0⟩
      (by decide)).2.2 5 5 5 ⟨"ops", [⟨"Z", "zed", true⟩]⟩).1 (Or.inl (by decide))⟩

/-- C23: when a teams row has the name, CreateTeam with any member list fails with the
domain failure of code TEAM_EXISTS; the function run in the transaction makes no write
call, and the store after the call (teams, users, pull requests and the journal of write
calls) is the store before it. -/
theorem createTeam_existing (createdAt updatedAt now : Time)
    (teamWithMembers : TeamWithMembers) (db : DB)
    (h : ∃ team ∈ db.teams, team.TeamName = teamWithMembers.TeamName) :
    teamUseCase.createTeamTx createdAt updatedAt now teamWithMembers db =
        (Except.error (NewDomainError "TEAM_EXISTS" "team_name already exists" ErrTeamExists),
          db) ∧
      teamUseCase.CreateTeam createdAt updatedAt now teamWithMembers db =
        (Except.error (NewDomainError "TEAM_EXISTS" "team_name already exists" ErrTeamExists),
          db) ∧
      (NewDomainError "TEAM_EXISTS" "team_name already exists" ErrTeamExists).code? =
        some "TEAM_EXISTS" :=
  ⟨createTeamTx_exists createdAt updatedAt now teamWithMembers h,
    runInTransaction_error (createTeamTx_exists createdAt updatedAt now teamWithMembers h), rfl⟩

theorem createTeam_existing_witness :
    (∃ team ∈ sampleDB.teams, team.TeamName = "eng") ∧
      teamUseCase.CreateTeam 5 6 7 ⟨"eng", [⟨"A", "renamed", false⟩, ⟨"Z", "zed", true⟩]⟩
          sampleDB =
        (Except.error (NewDomainError "TEAM_EXISTS" "team_name already exists" ErrTeamExists),
          sampleDB) :=
  ⟨by decide,
    (createTeam_existing 5 6 7 ⟨"eng", [⟨"A", "renamed", false⟩, ⟨"Z", "zed", true⟩]⟩ sampleDB
      (by decide)).2.1⟩

theorem getTeamWithMembers_notFound {db : DB} {teamName : String}
    (h : ∀ team ∈ db.teams, team.TeamName ≠ teamName) :
    teamUseCase.GetTeamWithMembers teamName db =
      Except.error (NewDomainError "NOT_FOUND" "team not found" ErrNotFound) := by
  have hget : teamUseCase.teamRepo.GetByName teamName db = Except.error ErrNotFound :=
    teamGetByName_none h
  have his : ErrNotFound.Is ErrNotFound = true := by decide
  simp only [TeamUseCase.GetTeamWithMembers, hget, his, if_true]

theorem getTeamWithMembers_found {db : DB} {teamName : String}
    (h : ∃ team ∈ db.teams, team.TeamName = teamName) :
    teamUseCase.GetTeamWithMembers teamName db =
      Except.ok
        { TeamName := teamName,
          Members :=
            (Postgres.orderByUsername
              (db.users.filter (fun row => decide (row.TeamName = teamName)))).map
              (fun user =>
                { UserID := user.UserID, Username := user.Username,
                  IsActive := user.IsActive }) } := by
  rcases teamGetByName_cases teamName db with hnone | ⟨team, hteam⟩
  · obtain ⟨team, ht, hn⟩ := h
    exact absurd hn (hnone team ht)
  · have hget : teamUseCase.teamRepo.GetByName teamName db = Except.ok team := hteam
    have husers : teamUseCase.userRepo.GetByTeam teamName db =
        Except.ok (Postgres.orderByUsername
          (db.users.filter (fun row => decide (row.TeamName = teamName)))) := rfl
    simp only [TeamUseCase.GetTeamWithMembers, hget, husers]

/-- The members of a team read back after the batch upsert of a member list with distinct
ids into a users table with unique ids none of whose rows is of that team: a permutation
of the member list. -/
theorem members_after_upsert (teamName : String) (now : Time) (members : List TeamMember)
    (rows : List User) (hdistinct : (members.map (fun member => member.UserID)).Nodup)
    (hrows : (rows.map (fun row => row.UserID)).Nodup)
    (hother : ∀ row ∈ rows, row.TeamName ≠ teamName) :
    List.Perm
      ((((memberUsers teamName now members).foldl
        (fun rows user => Postgres.upsertUser user rows) rows).filter
          (fun row => decide (row.TeamName = teamName))).map
      (fun user =>
        ({ UserID := user.UserID, Username := user.Username,
           IsActive := user.IsActive } : TeamMember))) members := by
  have hids := memberUsers_ids teamName now members
  have hnodupUsers : ((memberUsers teamName now members).map (fun user => user.UserID)).Nodup := by
    rw [hids]; exact hdistinct
  have hnodupRows := upsertAll_nodup (memberUsers teamName now members) rows hrows
  have hmembers : members.Nodup := List.Nodup.of_map _ hdistinct
  have hgot : ((((memberUsers teamName now members).foldl
        (fun rows user => Postgres.upsertUser user rows) rows).filter
          (fun row => decide (row.TeamName = teamName))).map
      (fun user =>
        ({ UserID := user.UserID, Username := user.Username,
           IsActive := user.IsActive } : TeamMember))).Nodup := by
    apply List.Nodup.of_map (fun member : TeamMember => member.UserID)
    rw [List.map_map]
    exact List.Nodup.sublist ((List.filter_sublist _).map _) hnodupRows
  rw [List.perm_ext_iff_of_nodup hgot hmembers]
  intro m
  simp only [List.mem_map, List.mem_filter, decide_eq_true_eq]
  constructor
  · rintro ⟨row, ⟨hrow, hteam⟩, hm⟩
    rcases mem_upsertAll _ _ hrow with ⟨hold, _⟩ | ⟨user, huser, h1, h2, _, h4⟩
    · exact absurd hteam (hother row hold)
    · obtain ⟨member, hmember, hu⟩ := List.mem_map.mp huser
      have : m = member := by
        rw [← hm, h1, h2, h4, ← hu]
      rw [this]
      exact hmember
  · intro hm
    have huser : (⟨m.UserID, m.Username, teamName, m.IsActive, now, now⟩ : User) ∈
        memberUsers teamName now members := List.mem_map.mpr ⟨m, hm, rfl⟩
    obtain ⟨row, hrow, h1, h2, h3, h4⟩ := upsertAll_has _ rows hnodupUsers _ huser
    refine ⟨row, ⟨hrow, h3⟩, ?_⟩
    rw [h1, h2, h4]

/-- C24: over a users table with unique ids whose rows all refer to rows of teams, for a
team name no teams row has and a member list with pairwise distinct user ids, CreateTeam
succeeds and returns the given team with its members, and GetTeamWithMembers on that name
in the store after it returns that team name with a permutation of the given members (the
same id, name and activity flag for each, the same count); the store after it again has
unique user ids and users that refer to rows of teams.
GetTeamWithMembers on a name no teams row has fails with NOT_FOUND. -/
theorem createTeam_roundTrip (createdAt updatedAt now : Time)
    (teamWithMembers : TeamWithMembers) (db : DB)
    (hnew : ∀ team ∈ db.teams, team.TeamName ≠ teamWithMembers.TeamName)
    (hdistinct : (teamWithMembers.Members.map (fun member => member.UserID)).Nodup)
    (hupk : UniqueUserIDs db) (hfk : UsersReferToTeams db) :
    (∃ db' got,
      teamUseCase.CreateTeam createdAt updatedAt now teamWithMembers db =
        (Except.ok teamWithMembers, db') ∧
      teamUseCase.GetTeamWithMembers teamWithMembers.TeamName db' = Except.ok got ∧
      got.TeamName = teamWithMembers.TeamName ∧
      List.Perm got.Members teamWithMembers.Members ∧
      got.Members.length = teamWithMembers.Members.length ∧
      UniqueUserIDs db' ∧ UsersReferToTeams db') ∧
    (∀ (teamName : String) (db2 : DB), (∀ team ∈ db2.teams, team.TeamName ≠ teamName) →
      teamUseCase.GetTeamWithMembers teamName db2 =
        Except.error (NewDomainError "NOT_FOUND" "team not found" ErrNotFound)) := by
  refine ⟨?_, fun teamName db2 h => getTeamWithMembers_notFound h⟩
  rcases createTeam_cases createdAt updatedAt now teamWithMembers db with
    ⟨⟨team, ht, hn⟩, _⟩ | ⟨_, hrun⟩
  · exact absurd hn (hnew team ht)
  · have hother : ∀ row ∈ db.users, row.TeamName ≠ teamWithMembers.TeamName := by
      intro row hrow hname
      obtain ⟨team, ht, hn⟩ := hfk row hrow
      exact hnew team ht (hn.trans hname)
    have hperm := members_after_upsert teamWithMembers.TeamName now teamWithMembers.Members
      db.users hdistinct hupk hother
    refine ⟨_, _, hrun, getTeamWithMembers_found ?_, rfl, ?_, ?_, ?_, ?_⟩
    · exact ⟨⟨teamWithMembers.TeamName, createdAt, updatedAt⟩,
        List.mem_append_right _ (List.mem_singleton_self _), rfl⟩
    · exact ((orderByUsername_perm _).map _).trans hperm
    · exact (((orderByUsername_perm _).map _).trans hperm).length_eq
    · exact upsertAll_nodup _ _ hupk
    · intro row hrow
      rcases mem_upsertAll _ _ hrow with ⟨hold, _⟩ | ⟨user, huser, _, _, h3, _⟩
      · obtain ⟨team, ht, hn⟩ := hfk row hold
        exact ⟨team, List.mem_append_left _ ht, hn⟩
      · refine ⟨⟨teamWithMembers.TeamName, createdAt, updatedAt⟩,
          List.mem_append_right _ (List.mem_singleton_self _), ?_⟩
        rw [h3]
        exact (memberUsers_teamName huser).symm

theorem createTeam_roundTrip_witness :
    (∀ team ∈ sampleDB.teams, team.TeamName ≠ "ops") ∧
      (([⟨"X", "xena", true⟩, ⟨"A", "alice", false⟩] : List TeamMember).map
        (fun member => member.UserID)).Nodup ∧
      UniqueUserIDs sampleDB ∧ UsersReferToTeams sampleDB ∧
      (∃ db' got,
        teamUseCase.CreateTeam 5 6 7
            ⟨"ops", [⟨"X", "xena", true⟩, ⟨"A", "alice", false⟩]⟩ sampleDB =
          (Except.ok ⟨"ops", [⟨"X", "xena", true⟩, ⟨"A", "alice", false⟩]⟩, db') ∧
        teamUseCase.GetTeamWithMembers "ops" db' = Except.ok got ∧
        got.TeamName = "ops" ∧
        List.Perm got.Members [⟨"X", "xena", true⟩, ⟨"A", "alice", false⟩] ∧
        got.Members.length = 2 ∧ UniqueUserIDs db' ∧ UsersReferToTeams db') ∧
      teamUseCase.GetTeamWithMembers "ops"
          (teamUseCase.CreateTeam 5 6 7
            ⟨"ops", [⟨"X", "xena", true⟩, ⟨"A", "alice", false⟩]⟩ sampleDB).2 =
        Except.ok ⟨"ops", [⟨"A", "alice", false⟩, ⟨"X", "xena", true⟩]⟩ ∧
      teamUseCase.GetTeamWithMembers "ops" sampleDB =
        Except.error (NewDomainError "NOT_FOUND" "team not found" ErrNotFound) :=
  ⟨by decide, by decide, by decide, by decide,
    (createTeam_roundTrip 5 6 7 ⟨"ops", [⟨"X", "xena", true⟩, ⟨"A", "alice", false⟩]⟩ sampleDB
      (by decide) (by decide) (by decide) (by decide)).1,
    by decide,
    (createTeam_roundTrip 5 6 7 ⟨"ops", [⟨"X", "xena", true⟩, ⟨"A", "alice", false⟩]⟩ sampleDB
      (by decide) (by decide) (by decide) (by decide)).2 "ops" sampleDB (by decide)⟩

/-! ## Claims on the order of checks and on bulk deactivation -/

/-- C29: ReassignReviewer answers with the failure of the first check that fails, in the
order: the pull request exists (NOT_FOUND), it is not MERGED (PR_MERGED), oldUserID is
assigned (NOT_ASSIGNED), oldUserID resolves to a user (NOT_FOUND), a candidate exists
(NO_CANDIDATE); each failure is returned whatever the later conditions are, with the store
unchanged, and when no check fails the call succeeds. In particular a MERGED pull request
on which oldUserID is not assigned gives PR_MERGED. -/
theorem reassignReviewer_check_order (rnd : Rand) (prID oldUserID : String) (db : DB) :
    ((∀ row ∈ db.pullRequests, row.PullRequestID ≠ prID) →
      prUseCase.ReassignReviewer rnd prID oldUserID db =
        ((Except.error (NewDomainError "NOT_FOUND" "PR not found" ErrNotFound), ""), db)) ∧
    (∀ pr, Postgres.PullRequestRepository.GetByID prID db = Except.ok pr →
      (pr.Status = PRStatus.MERGED →
        prUseCase.ReassignReviewer rnd prID oldUserID db =
          ((Except.error
            (NewDomainError "PR_MERGED" "cannot reassign on merged PR" ErrPRMerged), ""), db)) ∧
      (pr.Status = PRStatus.OPEN → oldUserID ∉ pr.AssignedReviewers →
        prUseCase.ReassignReviewer rnd prID oldUserID db =
          ((Except.error
            (NewDomainError "NOT_ASSIGNED" "reviewer is not assigned to this PR"
              ErrNotAssigned), ""), db)) ∧
      (pr.Status = PRStatus.OPEN → oldUserID ∈ pr.AssignedReviewers →
        (∀ row ∈ db.users, row.UserID ≠ oldUserID) →
        prUseCase.ReassignReviewer rnd prID oldUserID db =
          ((Except.error
            (NewDomainError "NOT_FOUND" "old reviewer not found" ErrNotFound), ""), db)) ∧
      (∀ oldReviewer, pr.Status = PRStatus.OPEN → oldUserID ∈ pr.AssignedReviewers →
        Postgres.UserRepository.GetByID oldUserID db = Except.ok oldReviewer →
        ((∀ row ∈ db.users, row.TeamName = oldReviewer.TeamName → row.IsActive = true →
            row.UserID = pr.AuthorID ∨ row.UserID ∈ pr.AssignedReviewers) →
          prUseCase.ReassignReviewer rnd prID oldUserID db =
            ((Except.error
              (NewDomainError "NO_CANDIDATE" "no active replacement candidate in team"
                ErrNoCandidate), ""), db)) ∧
        ((∃ row ∈ db.users, row.TeamName = oldReviewer.TeamName ∧ row.IsActive = true ∧
            row.UserID ≠ pr.AuthorID ∧ row.UserID ∉ pr.AssignedReviewers) →
          ∃ r newID db',
            prUseCase.ReassignReviewer rnd prID oldUserID db = ((Except.ok r, newID), db')))) := by
  refine ⟨fun h => reassignReviewer_of_tx_error (reassignReviewerTx_notFound rnd oldUserID h),
    fun pr hget => ⟨?_, ?_, ?_, ?_⟩⟩
  · intro hmerged
    exact reassignReviewer_of_tx_error (reassignReviewerTx_merged rnd oldUserID hget hmerged)
  · intro hopen hnot
    exact reassignReviewer_of_tx_error (reassignReviewerTx_notAssigned rnd hget hopen hnot)
  · intro hopen hmem hnone
    exact reassignReviewer_of_tx_error (reassignReviewerTx_noUser rnd hget hopen hmem hnone)
  · intro oldReviewer hopen hmem hold
    obtain ⟨i, hidx⟩ := findReviewerIndex_of_mem hmem
    obtain ⟨users, husers, _⟩ := getActiveByTeam_eq oldReviewer.TeamName db
    have hiff := @filterCandidates_eq_nil_iff db oldReviewer.TeamName users pr husers
    rcases reassignReviewerTx_open rnd hget hopen hidx hold husers with
      ⟨hnil, htx⟩ | ⟨c, hc, htx⟩
    · refine ⟨fun _ => reassignReviewer_of_tx_error htx, ?_⟩
      rintro ⟨row, hrow, hteam, hactive, hauthor, hnotin⟩
      rcases hiff.mp hnil row hrow hteam hactive with h | h
      · exact absurd h hauthor
      · exact absurd h hnotin
    · refine ⟨fun hno => ?_, fun _ => ⟨_, _, _, reassignReviewer_of_tx_ok htx⟩⟩
      rw [hiff.mpr hno] at hc
      cases hc

theorem reassignReviewer_check_order_witness :
    Postgres.PullRequestRepository.GetByID "p2" sampleDB =
        Except.ok ⟨"p2", "fix", "A", PRStatus.MERGED, ["B"], 2, some 3⟩ ∧
      "Z" ∉ ["B"] ∧
      prUseCase.ReassignReviewer [] "p2" "Z" sampleDB =
        ((Except.error
          (NewDomainError "PR_MERGED" "cannot reassign on merged PR" ErrPRMerged), ""),
          sampleDB) :=
  ⟨by decide, by decide,
    ((reassignReviewer_check_order [] "p2" "Z" sampleDB).2
      ⟨"p2", "fix", "A", PRStatus.MERGED, ["B"], 2, some 3⟩ (by decide)).1 rfl⟩

/-- C30: over a store with unique user ids and unique pull request ids whose pull requests
list no reviewer twice, DeactivateTeamMembers of an existing team succeeds, and after it:
every pull request that was OPEN reads back as the same record with its reviewer list
filtered to the ids that are not among the returned deactivated ids (so in the previous
order); no OPEN pull request lists a deactivated id; the reviewer list of every pull
request is a sublist of its previous list, so no reviewer id is introduced; and the team
has no active member, so the candidate pool of every replacement was empty. -/
theorem deactivation_only_removes (now : Time) (rnd : Rand) (teamName : String) (db : DB)
    (team : Team)
    (hteam : Postgres.TeamRepository.GetByName teamName db = Except.ok team)
    (hupk : UniqueUserIDs db) (hpk : UniquePullRequestIDs db)
    (hnodup : ∀ row ∈ db.pullRequests, row.AssignedReviewers.Nodup) :
    ∃ res db',
      teamUseCase.DeactivateTeamMembers now rnd teamName db = (Except.ok res, db') ∧
      (∀ row ∈ db.pullRequests, row.Status = PRStatus.OPEN →
        Postgres.PullRequestRepository.GetByID row.PullRequestID db' =
          Except.ok
            { row with
              AssignedReviewers :=
                row.AssignedReviewers.filter (fun r => decide (r ∉ res.UserIDs)) }) ∧
      (∀ row ∈ db'.pullRequests, row.Status = PRStatus.OPEN →
        ∀ u ∈ res.UserIDs, u ∉ row.AssignedReviewers) ∧
      (∀ prID before after,
        Postgres.PullRequestRepository.GetByID prID db = Except.ok before →
        Postgres.PullRequestRepository.GetByID prID db' = Except.ok after →
        after.AssignedReviewers.Sublist before.AssignedReviewers) ∧
      Postgres.UserRepository.GetActiveByTeam teamName db' = Except.ok [] := by
  obtain ⟨db', hrun, husers, hrows, _⟩ :=
    deactivateTeamMembers_spec now rnd teamName db team hteam hupk hpk
  have hgid : ∀ row : PullRequest,
      (if row.Status = PRStatus.OPEN then
        { row with
          AssignedReviewers := row.AssignedReviewers.diff (activeMemberIDs db teamName) }
      else row).PullRequestID = row.PullRequestID := by
    intro row
    split <;> rfl
  refine ⟨_, db', hrun, ?_, ?_, ?_, ?_⟩
  · intro row hrow hopen
    rw [getByID_map hgid row.PullRequestID db db' hrows, getByID_of_unique hpk hrow]
    apply congrArg Except.ok
    dsimp only
    rw [if_pos hopen, (hnodup row hrow).diff_eq_filter]
  · intro row' hrow' hopen u hu hin
    rw [hrows] at hrow'
    obtain ⟨row, hrow, heq⟩ := List.mem_map.mp hrow'
    by_cases hopen0 : row.Status = PRStatus.OPEN
    · rw [if_pos hopen0] at heq
      rw [← heq] at hin
      exact ((hnodup row hrow).mem_diff_iff.mp hin).2 hu
    · rw [if_neg hopen0] at heq
      rw [← heq] at hopen
      exact hopen0 hopen
  · intro prID before after hbefore hafter
    rw [getByID_map hgid prID db db' hrows, hbefore] at hafter
    have heq := Except.ok.inj hafter
    dsimp only at heq
    rw [← heq]
    split
    · exact List.diff_sublist _ _
    · exact List.Sublist.refl _
  · exact getActiveByTeam_quiet (quiet_after_deactivation hupk husers).2

theorem deactivation_only_removes_witness :
    Postgres.TeamRepository.GetByName "eng" sampleDB = Except.ok ⟨"eng", 0, 0⟩ ∧
      UniqueUserIDs sampleDB ∧ UniquePullRequestIDs sampleDB ∧
      (∀ row ∈ sampleDB.pullRequests, row.AssignedReviewers.Nodup) ∧
      ∃ res db',
        teamUseCase.DeactivateTeamMembers 9 [] "eng" sampleDB = (Except.ok res, db') ∧
        (∀ row ∈ sampleDB.pullRequests, row.Status = PRStatus.OPEN →
          Postgres.PullRequestRepository.GetByID row.PullRequestID db' =
            Except.ok
              { row with
                AssignedReviewers :=
                  row.AssignedReviewers.filter (fun r => decide (r ∉ res.UserIDs)) }) ∧
        (∀ row ∈ db'.pullRequests, row.Status = PRStatus.OPEN →
          ∀ u ∈ res.UserIDs, u ∉ row.AssignedReviewers) ∧
        Postgres.UserRepository.GetActiveByTeam "eng" db' = Except.ok [] :=
  ⟨by decide, by decide, by decide, by decide,
    (deactivation_only_removes 9 [] "eng" sampleDB ⟨"eng", 0, 0⟩ (by decide) (by decide)
      (by decide) (by decide)).imp
      (fun _ h => h.imp (fun _ h2 => ⟨h2.1, h2.2.1, h2.2.2.1, h2.2.2.2.2⟩))⟩

/-! ## Claims on the HTTP driver -/

/-- C25: handleUseCaseError answers an error that is a domain failure, or wraps one, with a
body that is the ErrorResponse carrying the code and message of that failure unchanged,
and with the status 400 for TEAM_EXISTS, PR_EXISTS and INVALID_INPUT, 409 for PR_MERGED,
NOT_ASSIGNED and NO_CANDIDATE, 404 for NOT_FOUND and 401 for UNAUTHORIZED; an error with no
domain failure on its Unwrap chain is answered with the status 500 and the ErrorResponse
of code INTERNAL_ERROR and message internal server error. The domain failure of an error
is the error itself when it is a DomainError, the one of the wrapped error when it is a
fmt.Errorf wrapper, and there is none for an errors.New value. -/
theorem handleUseCaseError_classifies :
    (∀ err code message, err.As = some (code, message) →
      (handleUseCaseError err).Body = Body.error { Code := code, Message := message } ∧
      (code ∈ ["TEAM_EXISTS", "PR_EXISTS", "INVALID_INPUT"] →
        (handleUseCaseError err).Status = 400) ∧
      (code ∈ ["PR_MERGED", "NOT_ASSIGNED", "NO_CANDIDATE"] →
        (handleUseCaseError err).Status = 409) ∧
      (code = "NOT_FOUND" → (handleUseCaseError err).Status = 404) ∧
      (code = "UNAUTHORIZED" → (handleUseCaseError err).Status = 401)) ∧
    (∀ err, err.As = none →
      (handleUseCaseError err).Status = 500 ∧
      (handleUseCaseError err).Body =
        Body.error { Code := "INTERNAL_ERROR", Message := "internal server error" }) ∧
    (∀ code message inner, (NewDomainError code message inner).As = some (code, message)) ∧
    (∀ msg err, (GoError.wrapf msg err).As = err.As) ∧
    (∀ text, (GoError.new text).As = none) := by
  refine ⟨?_, ?_, fun _ _ _ => rfl, fun _ _ => rfl, fun _ => rfl⟩
  · intro err code message h
    have hres : handleUseCaseError err =
        { Status := getStatusCodeByErrorCode code,
          Body := Body.error { Code := code, Message := message } } := by
      simp only [handleUseCaseError, h, respondError]
    have hstatus : (handleUseCaseError err).Status = getStatusCodeByErrorCode code := by
      rw [hres]
    have hbody : (handleUseCaseError err).Body =
        Body.error { Code := code, Message := message } := by
      rw [hres]
    refine ⟨hbody, ?_, ?_, ?_, ?_⟩
    · intro hc
      rw [hstatus]
      simp only [List.mem_cons, List.mem_singleton, List.not_mem_nil, or_false] at hc
      rcases hc with hc | hc | hc <;> rw [hc] <;> decide
    · intro hc
      rw [hstatus]
      simp only [List.mem_cons, List.mem_singleton, List.not_mem_nil, or_false] at hc
      rcases hc with hc | hc | hc <;> rw [hc] <;> decide
    · intro hc
      rw [hstatus, hc]
      decide
    · intro hc
      rw [hstatus, hc]
      decide
  · intro err h
    have hres : handleUseCaseError err =
        { Status := 500,
          Body := Body.error { Code := "INTERNAL_ERROR", Message := "internal server error" } } := by
      simp only [handleUseCaseError, h, respondError, StatusInternalServerError]
    rw [hres]
    exact ⟨rfl, rfl⟩

theorem handleUseCaseError_classifies_witness :
    (GoError.wrapf "failed to select reviewers"
        (NewDomainError "NO_CANDIDATE" "no active replacement candidate in team"
          ErrNoCandidate)).As =
        some ("NO_CANDIDATE", "no active replacement candidate in team") ∧
      "NO_CANDIDATE" ∈ ["PR_MERGED", "NOT_ASSIGNED", "NO_CANDIDATE"] ∧
      (handleUseCaseError
          (GoError.wrapf "failed to select reviewers"
            (NewDomainError "NO_CANDIDATE" "no active replacement candidate in team"
              ErrNoCandidate))).Status = 409 ∧
      (handleUseCaseError
          (GoError.wrapf "failed to select reviewers"
            (NewDomainError "NO_CANDIDATE" "no active replacement candidate in team"
              ErrNoCandidate))).Body =
        Body.error
          { Code := "NO_CANDIDATE", Message := "no active replacement candidate in team" } ∧
      (GoError.wrapf "failed to update user" ErrNotFound).As = none ∧
      (handleUseCaseError (GoError.wrapf "failed to update user" ErrNotFound)).Status = 500 :=
  ⟨rfl, by decide,
    (handleUseCaseError_classifies.1
      (GoError.wrapf "failed to select reviewers"
        (NewDomainError "NO_CANDIDATE" "no active replacement candidate in team"
          ErrNoCandidate))
      "NO_CANDIDATE" "no active replacement candidate in team" rfl).2.2.1 (by decide),
    (handleUseCaseError_classifies.1
      (GoError.wrapf "failed to select reviewers"
        (NewDomainError "NO_CANDIDATE" "no active replacement candidate in team"
          ErrNoCandidate))
      "NO_CANDIDATE" "no active replacement candidate in team" rfl).1,
    rfl,
    (handleUseCaseError_classifies.2.1
      (GoError.wrapf "failed to update user" ErrNotFound) rfl).1⟩

theorem hasPrefix_trimPrefix_iff (s p t : String) :
    (strings.HasPrefix s p = true ∧ strings.TrimPrefix s p = t) ↔ s = p ++ t := by
  constructor
  · rintro ⟨hp, ht⟩
    unfold strings.TrimPrefix at ht
    rw [if_pos hp] at ht
    unfold strings.HasPrefix at hp
    obtain ⟨rest, hrest⟩ := List.isPrefixOf_iff_prefix.mp hp
    apply String.ext
    rw [String.data_append, ← ht, ← hrest]
    simp
  · intro h
    have hdata : s.data = p.data ++ t.data := by rw [h, String.data_append]
    have hp : strings.HasPrefix s p = true := by
      unfold strings.HasPrefix
      rw [hdata]
      exact List.isPrefixOf_iff_prefix.mpr (List.prefix_append _ _)
    refine ⟨hp, ?_⟩
    unfold strings.TrimPrefix
    rw [if_pos hp]
    apply String.ext
    rw [hdata]
    simp

/-- C26: for every admin token, protected handler and request, AdminAuth hands the request
to the protected handler, and answers what it answers, exactly when the first value of the
Authorization header is the string Bearer, a blank and the token; for any other value
(none, another scheme, another token) its response has the status 401 and the
ErrorResponse body of code UNAUTHORIZED, with the message invalid admin token when the
value starts with Bearer and a blank and the message missing or invalid authorization
header otherwise, whatever the protected handler is: the protected handler is not
called. -/
theorem adminAuth_iff (adminToken : String) (r : Request) :
    (r.Header.Get "Authorization" = "Bearer " ++ adminToken →
      ∀ next : Handler, AdminAuth adminToken next r = next r) ∧
    (r.Header.Get "Authorization" ≠ "Bearer " ++ adminToken →
      ∀ next : Handler,
        AdminAuth adminToken next r =
          { Status := 401,
            Body := Body.error
              { Code := "UNAUTHORIZED",
                Message :=
                  if strings.HasPrefix (r.Header.Get "Authorization") "Bearer " then
                    "invalid admin token"
                  else "missing or invalid authorization header" } }) := by
  constructor
  · intro h next
    obtain ⟨hp, ht⟩ := (hasPrefix_trimPrefix_iff _ "Bearer " adminToken).mpr h
    simp only [AdminAuth, hp, ht]
    simp
  · intro h
    by_cases hp : strings.HasPrefix (r.Header.Get "Authorization") "Bearer " = true
    · have ht : strings.TrimPrefix (r.Header.Get "Authorization") "Bearer " ≠ adminToken :=
        fun ht => h ((hasPrefix_trimPrefix_iff _ "Bearer " adminToken).mp ⟨hp, ht⟩)
      intro next
      simp only [AdminAuth, hp]
      simp [ht, StatusUnauthorized, respondError]
    · intro next
      simp only [AdminAuth]
      simp [hp, StatusUnauthorized, respondError]

theorem adminAuth_iff_witness :
    (⟨⟨[("Authorization", ["Bearer secret"])]⟩, ""⟩ : Request).Header.Get "Authorization" =
        "Bearer " ++ "secret" ∧
      (∀ next : Handler,
        AdminAuth "secret" next ⟨⟨[("Authorization", ["Bearer secret"])]⟩, ""⟩ =
          next ⟨⟨[("Authorization", ["Bearer secret"])]⟩, ""⟩) ∧
      (⟨⟨[("Authorization", ["Basic secret"])]⟩, ""⟩ : Request).Header.Get "Authorization" ≠
        "Bearer " ++ "secret" ∧
      (∀ next : Handler,
        AdminAuth "secret" next ⟨⟨[("Authorization", ["Basic secret"])]⟩, ""⟩ =
          { Status := 401,
            Body := Body.error
              { Code := "UNAUTHORIZED",
                Message :=
                  if strings.HasPrefix
                      ((⟨⟨[("Authorization", ["Basic secret"])]⟩, ""⟩ : Request).Header.Get
                        "Authorization") "Bearer " then
                    "invalid admin token"
                  else "missing or invalid authorization header" } }) ∧
      (∀ next : Handler,
        AdminAuth "secret" next ⟨⟨[("Authorization", ["Basic secret"])]⟩, ""⟩ =
          { Status := 401,
            Body := Body.error
              { Code := "UNAUTHORIZED",
                Message := "missing or invalid authorization header" } }) ∧
      (∀ next : Handler,
        AdminAuth "secret" next ⟨⟨[("Authorization", ["Bearer other"])]⟩, ""⟩ =
          { Status := 401,
            Body := Body.error { Code := "UNAUTHORIZED", Message := "invalid admin token" } }) :=
  ⟨by decide,
    (adminAuth_iff "secret" ⟨⟨[("Authorization", ["Bearer secret"])]⟩, ""⟩).1 (by decide),
    by decide,
    (adminAuth_iff "secret" ⟨⟨[("Authorization", ["Basic secret"])]⟩, ""⟩).2 (by decide),
    fun _ => rfl, fun _ => rfl⟩

/-! ## Claims on the unit of work -/

theorem goError_is_self (err : GoError) : err.Is err = true := by
  cases err <;> simp [GoError.Is]

/-- C27: RunInTransaction on the recording pool, called with a context that carries no
transaction and with the pool able to begin one, for a function that works on the data:
the calls it adds to the log are one begin followed by one commit when the function
returns no error and by one rollback when it returns an error, the function runs once
with the transaction in its context, an error of the function is returned as is when the
rollback succeeds and wrapped (errors.Is finds it) when the rollback fails, and without
error of the function the result is nil or the wrapped error of the commit. When the pool
cannot begin a transaction the function is not run and nothing is logged. Called with a
context that carries a transaction, on any pool, it is the function applied to that
context: nothing is begun, committed or rolled back. -/
theorem runInTransaction_protocol {τ : Type} (f : TxFaults)
    (fn : Context → τ → Option GoError × τ) (ctx : Context) (s : Conn τ) :
    (extractTx ctx = none → f.Begin = none →
      (TransactionManager.RunInTransaction (recordingPool f) ctx (onData fn) s).2.log =
          s.log ++ [TxEvent.begin,
            if (fn (injectTx ctx 1) s.data).1 = none then TxEvent.commit
            else TxEvent.rollback] ∧
        (TransactionManager.RunInTransaction (recordingPool f) ctx (onData fn) s).2.data =
          (fn (injectTx ctx 1) s.data).2 ∧
        (∀ err, (fn (injectTx ctx 1) s.data).1 = some err →
          ∃ e, (TransactionManager.RunInTransaction (recordingPool f) ctx (onData fn) s).1 =
              some e ∧
            e.Is err = true ∧ (f.Rollback = none → e = err)) ∧
        ((fn (injectTx ctx 1) s.data).1 = none →
          (TransactionManager.RunInTransaction (recordingPool f) ctx (onData fn) s).1 =
            f.Commit.map (GoError.wrapf "failed to commit transaction"))) ∧
    (extractTx ctx = none → ∀ err, f.Begin = some err →
      ∀ fn2 : Context → Conn τ → Option GoError × Conn τ,
        TransactionManager.RunInTransaction (recordingPool f) ctx fn2 s =
          (some (GoError.wrapf "failed to begin transaction" err), s)) ∧
    (∀ (σ : Type) (pool : Pool σ) (fn2 : Context → σ → Option GoError × σ) (s2 : σ) (tx : Tx),
      extractTx ctx = some tx →
        TransactionManager.RunInTransaction pool ctx fn2 s2 = fn2 ctx s2) := by
  refine ⟨?_, ?_, ?_⟩
  · intro hctx hbegin
    cases hfn : (fn (injectTx ctx 1) s.data).1 with
    | none =>
      have hrun : TransactionManager.RunInTransaction (recordingPool f) ctx (onData fn) s =
          (f.Commit.map (GoError.wrapf "failed to commit transaction"),
            { log := s.log ++ [TxEvent.begin] ++ [TxEvent.commit],
              data := (fn (injectTx ctx 1) s.data).2 }) := by
        simp only [TransactionManager.RunInTransaction, hctx, recordingPool, hbegin, onData, hfn]
        cases f.Commit <;> rfl
      rw [hrun]
      refine ⟨by simp, rfl, fun err h => (by cases h), fun _ => rfl⟩
    | some err =>
      cases hrb : f.Rollback with
      | none =>
        have hrun : TransactionManager.RunInTransaction (recordingPool f) ctx (onData fn) s =
            (some err,
              { log := s.log ++ [TxEvent.begin] ++ [TxEvent.rollback],
                data := (fn (injectTx ctx 1) s.data).2 }) := by
          simp only [TransactionManager.RunInTransaction, hctx, recordingPool, hbegin, onData,
            hfn, hrb]
        rw [hrun]
        refine ⟨by simp, rfl, fun err2 h => ?_, fun h => (by cases h)⟩
        cases h
        exact ⟨err, rfl, goError_is_self err, fun _ => rfl⟩
      | some rbErr =>
        have hrun : TransactionManager.RunInTransaction (recordingPool f) ctx (onData fn) s =
            (some (GoError.wrapf
                ("failed to rollback transaction: " ++ rbErr.Error ++ " (original error") err),
              { log := s.log ++ [TxEvent.begin] ++ [TxEvent.rollback],
                data := (fn (injectTx ctx 1) s.data).2 }) := by
          simp only [TransactionManager.RunInTransaction, hctx, recordingPool, hbegin, onData,
            hfn, hrb]
        rw [hrun]
        refine ⟨by simp, rfl, fun err2 h => ?_, fun h => (by cases h)⟩
        cases h
        refine ⟨_, rfl, ?_, fun h => (by cases h)⟩
        simp [GoError.Is, goError_is_self]
  · intro hctx err hbegin fn2
    simp only [TransactionManager.RunInTransaction, hctx, recordingPool, hbegin]
  · intro σ pool fn2 s2 tx hctx
    simp only [TransactionManager.RunInTransaction, hctx]

theorem runInTransaction_protocol_witness :
    extractTx ⟨none⟩ = none ∧ (⟨none, none, none⟩ : TxFaults).Begin = none ∧
      (TransactionManager.RunInTransaction (recordingPool ⟨none, none, none⟩) ⟨none⟩
          (onData (fun _ (n : Nat) => (some ErrNotFound, n + 1))) ⟨[], 0⟩).2.log =
        [] ++ [TxEvent.begin,
          if (some ErrNotFound : Option GoError) = none then TxEvent.commit
          else TxEvent.rollback] ∧
      (TransactionManager.RunInTransaction (recordingPool ⟨none, none, none⟩) ⟨none⟩
          (fun ctx s =>
            TransactionManager.RunInTransaction (recordingPool ⟨none, none, none⟩) ctx
              (onData (fun _ (n : Nat) => (none, n + 1))) s) ⟨[], 0⟩).2.log =
        [TxEvent.begin, TxEvent.commit] :=
  ⟨rfl, rfl,
    ((runInTransaction_protocol ⟨none, none, none⟩
      (fun _ (n : Nat) => (some ErrNotFound, n + 1)) ⟨none⟩ ⟨[], 0⟩).1 rfl rfl).1,
    rfl⟩

end PRReviewer
